import Mathlib

/-!
# Verification development for `repository/awsdynamodb` (marshal.go)

A shallow embedding of the reflection-driven codec between Go host values and
DynamoDB `AttributeValue`s, followed by theorems about it.

Modelling conventions

* A `reflect.Value` is a `GoValue`; a `reflect.Type` is a `GoType`.  Only unnamed
  types are modelled (a named type such as `type Name string` is out of scope), struct
  fields are not embedded, and host values are trees (no pointer cycles).
* A Go call either returns or panics.  A panic is the `Except.error` side of the result;
  the Go return values (including a returned `error`) are the `Except.ok` side.
* Go maps are association lists with pairwise distinct keys; `range` visits them in list
  order (Go leaves the order unspecified).
* Machine integers are `Int`/`Nat`; `uint64` arithmetic inside `strconv` is taken
  modulo `2 ^ 64`.  The platform is 64-bit (`strconv.IntSize = 64`).
* Floating point numbers are carried as the IEEE-754 binary64 bit pattern of their value;
  their text formatting and parsing, which belong to the Go standard library, are the
  fields of `GoLib`, a parameter of the model.
-/

namespace Awsdynamodb

/-! ## Go types and values -/

/-- The kinds of `reflect.Kind`. -/
inductive Kind where
  | Invalid | Bool
  | Int | Int8 | Int16 | Int32 | Int64
  | Uint | Uint8 | Uint16 | Uint32 | Uint64 | Uintptr
  | Float32 | Float64 | Complex64 | Complex128
  | Array | Chan | Func | Interface | Map | Ptr | Slice | String | Struct | UnsafePointer
  deriving DecidableEq, Repr

/-- Signed integer types. -/
inductive IntKind where
  | int | int8 | int16 | int32 | int64
  deriving DecidableEq, Repr

/-- Unsigned integer types. -/
inductive UintKind where
  | uint | uint8 | uint16 | uint32 | uint64 | uintptr
  deriving DecidableEq, Repr

/-- Floating point types. -/
inductive FloatKind where
  | float32 | float64
  deriving DecidableEq, Repr

/-- Complex types. -/
inductive ComplexKind where
  | complex64 | complex128
  deriving DecidableEq, Repr

/-- A struct field declaration (`reflect.StructField`): its name, whether it is exported
(`PkgPath == ""`), its tag as the list of `key:"value"` pairs and its type. -/
structure StructField (τ : Type) where
  Name : String
  exported : Bool
  Tag : List (String × String)
  Typ : τ

/-- Go types (`reflect.Type`). -/
inductive GoType where
  | bool
  | string
  | int (k : IntKind)
  | uint (k : UintKind)
  | float (k : FloatKind)
  | complex (k : ComplexKind)
  | chan
  | func
  | unsafePointer
  | iface
  | ptr (elem : GoType)
  | slice (elem : GoType)
  | array (len : Nat) (elem : GoType)
  | map (key : GoType) (elem : GoType)
  | struct (fields : List (StructField GoType))

def IntKind.Kind : IntKind → Kind
  | .int => .Int | .int8 => .Int8 | .int16 => .Int16 | .int32 => .Int32 | .int64 => .Int64

def UintKind.Kind : UintKind → Kind
  | .uint => .Uint | .uint8 => .Uint8 | .uint16 => .Uint16 | .uint32 => .Uint32
  | .uint64 => .Uint64 | .uintptr => .Uintptr

def FloatKind.Kind : FloatKind → Kind
  | .float32 => .Float32 | .float64 => .Float64

def ComplexKind.Kind : ComplexKind → Kind
  | .complex64 => .Complex64 | .complex128 => .Complex128

/-- The kind of a type: `reflect.Type.Kind`. -/
def GoType.Kind : GoType → Kind
  | .bool => .Bool
  | .string => .String
  | .int k => k.Kind
  | .uint k => k.Kind
  | .float k => k.Kind
  | .complex k => k.Kind
  | .chan => .Chan
  | .func => .Func
  | .unsafePointer => .UnsafePointer
  | .iface => .Interface
  | .ptr _ => .Ptr
  | .slice _ => .Slice
  | .array _ _ => .Array
  | .map _ _ => .Map
  | .struct _ => .Struct

mutual
/-- Type identity, as a boolean test. -/
def GoType.beq : GoType → GoType → Bool
  | .bool, .bool => true
  | .string, .string => true
  | .int a, .int b => a == b
  | .uint a, .uint b => a == b
  | .float a, .float b => a == b
  | .complex a, .complex b => a == b
  | .chan, .chan => true
  | .func, .func => true
  | .unsafePointer, .unsafePointer => true
  | .iface, .iface => true
  | .ptr a, .ptr b => GoType.beq a b
  | .slice a, .slice b => GoType.beq a b
  | .array n a, .array m b => n == m && GoType.beq a b
  | .map k a, .map l b => GoType.beq k l && GoType.beq a b
  | .struct fs, .struct gs => GoType.beqFields fs gs
  | _, _ => false
/-- Identity of two field lists: same names, visibility, tags and types, in order. -/
def GoType.beqFields : List (StructField GoType) → List (StructField GoType) → Bool
  | [], [] => true
  | f :: fs, g :: gs =>
      f.Name == g.Name && f.exported == g.exported && f.Tag == g.Tag
        && GoType.beq f.Typ g.Typ && GoType.beqFields fs gs
  | _, _ => false
end

/-- Host values (`reflect.Value`).  Containers carry their static element types; a value
of interface type is `iface`, holding its dynamic value or nothing.  `invalid` is the zero
`reflect.Value`.  A floating point payload is the binary64 bit pattern of the number. -/
inductive GoValue where
  | invalid
  | bool (b : Bool)
  | string (s : String)
  | int (k : IntKind) (n : Int)
  | uint (k : UintKind) (n : Nat)
  | float (k : FloatKind) (bits : Nat)
  | complex (k : ComplexKind)
  | chan
  | func
  | unsafePointer
  | iface (v : Option GoValue)
  | ptr (elem : GoType) (v : Option GoValue)
  | slice (elem : GoType) (xs : Option (List GoValue))
  | array (elem : GoType) (xs : List GoValue)
  | map (key : GoType) (elem : GoType) (entries : Option (List (GoValue × GoValue)))
  | struct (fields : List (StructField GoType × GoValue))

/-- The kind of a value: `reflect.Value.Kind`. -/
def GoValue.Kind : GoValue → Kind
  | .invalid => .Invalid
  | .bool _ => .Bool
  | .string _ => .String
  | .int k _ => k.Kind
  | .uint k _ => k.Kind
  | .float k _ => k.Kind
  | .complex k => k.Kind
  | .chan => .Chan
  | .func => .Func
  | .unsafePointer => .UnsafePointer
  | .iface _ => .Interface
  | .ptr _ _ => .Ptr
  | .slice _ _ => .Slice
  | .array _ _ => .Array
  | .map _ _ _ => .Map
  | .struct _ => .Struct

/-- The static type of a value: `reflect.Value.Type`; the zero Value has none. -/
def GoValue.typeOf : GoValue → Option GoType
  | .invalid => none
  | .bool _ => some .bool
  | .string _ => some .string
  | .int k _ => some (.int k)
  | .uint k _ => some (.uint k)
  | .float k _ => some (.float k)
  | .complex k => some (.complex k)
  | .chan => some .chan
  | .func => some .func
  | .unsafePointer => some .unsafePointer
  | .iface _ => some .iface
  | .ptr e _ => some (.ptr e)
  | .slice e _ => some (.slice e)
  | .array e xs => some (.array xs.length e)
  | .map k e _ => some (.map k e)
  | .struct fs => some (.struct (fs.map Prod.fst))

mutual
/-- The zero value of a type: `reflect.Zero`, also `reflect.New(t).Elem()`. -/
def zeroValue : GoType → GoValue
  | .bool => .bool false
  | .string => .string ""
  | .int k => .int k 0
  | .uint k => .uint k 0
  | .float k => .float k 0
  | .complex k => .complex k
  | .chan => .chan
  | .func => .func
  | .unsafePointer => .unsafePointer
  | .iface => .iface none
  | .ptr e => .ptr e none
  | .slice e => .slice e none
  | .array n e => .array e (List.replicate n (zeroValue e))
  | .map k e => .map k e none
  | .struct fs => .struct (zeroFields fs)
/-- The zero values of the fields of a struct type. -/
def zeroFields : List (StructField GoType) → List (StructField GoType × GoValue)
  | [] => []
  | f :: fs => (f, zeroValue f.Typ) :: zeroFields fs
end

/-- The ways a call can panic. -/
inductive Panic where
  /-- A nil pointer is dereferenced. -/
  | nilDereference
  /-- A type assertion `x.(T)` fails. -/
  | interfaceConversion
  /-- `reflect.Value.Set` or `SetMapIndex` is given a value that is not assignable. -/
  | notAssignable
  /-- A method of `reflect` is called on a value or type of a kind it does not accept. -/
  | wrongKind
  /-- `reflect.Value.Interface` is called on a value obtained from an unexported field. -/
  | readOnly
  deriving DecidableEq, Repr

/-! ## The wire value -/

/-- The SDK's `dynamodb.AttributeValue`: ten optional members.  A pointer, slice or map
member that is nil is `none`; `L` and `M` hold pointers, which may themselves be nil. -/
inductive AttributeValue where
  | mk (B : Option (List Nat)) (BOOL : Option Bool) (BS : Option (List (List Nat)))
      (L : Option (List (Option AttributeValue)))
      (M : Option (List (String × Option AttributeValue)))
      (N : Option String) (NS : Option (List String)) (NULL : Option Bool)
      (S : Option String) (SS : Option (List String))

namespace AttributeValue

def B : AttributeValue → Option (List Nat) | mk b _ _ _ _ _ _ _ _ _ => b
def BOOL : AttributeValue → Option Bool | mk _ b _ _ _ _ _ _ _ _ => b
def BS : AttributeValue → Option (List (List Nat)) | mk _ _ b _ _ _ _ _ _ _ => b
def L : AttributeValue → Option (List (Option AttributeValue)) | mk _ _ _ l _ _ _ _ _ _ => l
def M : AttributeValue → Option (List (String × Option AttributeValue))
  | mk _ _ _ _ m _ _ _ _ _ => m
def N : AttributeValue → Option String | mk _ _ _ _ _ n _ _ _ _ => n
def NS : AttributeValue → Option (List String) | mk _ _ _ _ _ _ n _ _ _ => n
def NULL : AttributeValue → Option Bool | mk _ _ _ _ _ _ _ n _ _ => n
def S : AttributeValue → Option String | mk _ _ _ _ _ _ _ _ s _ => s
def SS : AttributeValue → Option (List String) | mk _ _ _ _ _ _ _ _ _ s => s

/-- The value `new(dynamodb.AttributeValue)`: no member set. -/
def empty : AttributeValue := mk none none none none none none none none none none

def ofS (s : String) : AttributeValue := mk none none none none none none none none (some s) none
def ofN (n : String) : AttributeValue := mk none none none none none (some n) none none none none
def ofBOOL (b : Bool) : AttributeValue :=
  mk none (some b) none none none none none none none none
def ofNULL (b : Bool) : AttributeValue :=
  mk none none none none none none none (some b) none none
def ofSS (ss : List String) : AttributeValue :=
  mk none none none none none none none none none (some ss)
def ofNS (ns : List String) : AttributeValue :=
  mk none none none none none none (some ns) none none none
def ofL (l : List (Option AttributeValue)) : AttributeValue :=
  mk none none none (some l) none none none none none none
def ofM (m : List (String × Option AttributeValue)) : AttributeValue :=
  mk none none none none (some m) none none none none none

/-- How many of the ten members are set (non-nil). -/
def populated : AttributeValue → Nat
  | mk b bool bs l m n ns null s ss =>
      b.isSome.toNat + bool.isSome.toNat + bs.isSome.toNat + l.isSome.toNat + m.isSome.toNat
        + n.isSome.toNat + ns.isSome.toNat + null.isSome.toNat + s.isSome.toNat
        + ss.isSome.toNat

end AttributeValue

/-- A wire document, `map[string]*dynamodb.AttributeValue`. -/
abbrev WireDoc := List (String × Option AttributeValue)

/-- The map assignment `m[k] = v`: replace the entry for `k`, or add one. -/
def mapSet {α : Type} (m : List (String × α)) (k : String) (v : α) : List (String × α) :=
  match m with
  | [] => [(k, v)]
  | (k0, v0) :: rest => if k0 = k then (k, v) :: rest else (k0, v0) :: mapSet rest k v

/-! ## The Go standard library: `strconv` and `fmt`

`ParseUint` and `ParseInt` follow the library as of Go 1.13: with `base == 0` the base is
read off the prefix (`0b`, `0o`, `0x`, or a bare leading `0` for octal) and underscores
may separate digits.  Texts are read character by character; a character outside ASCII
is, like each of its bytes in Go, a syntax error. -/

namespace strconv

/-- The error values of `strconv`: `ErrSyntax`, `ErrRange`, and the errors for a bad base
or bit size. -/
inductive ErrKind where
  | ErrSyntax | ErrRange | ErrBase | ErrBitSize
  deriving DecidableEq, Repr

/-- A `*strconv.NumError`. -/
structure NumError where
  Func : String
  Num : String
  Err : ErrKind
  deriving DecidableEq, Repr

def IntSize : Nat := 64

def maxUint64 : Nat := 2 ^ 64 - 1

/-- The byte-wise `lower(c) = c | ('x' - 'X')`, on character codes. -/
def lower (c : Char) : Nat := c.toNat ||| 32

/-- The digit a character stands for in the scanning loop of `ParseUint`: `'0'..'9'` are
0..9 and a letter, in either case, is 10..35; `none` is the `default` branch of the Go
switch (a syntax error). -/
def digitVal (c : Char) : Option Nat :=
  if 48 ≤ c.toNat ∧ c.toNat ≤ 57 then some (c.toNat - 48)
  else if 97 ≤ lower c ∧ lower c ≤ 122 then some (lower c - 97 + 10)
  else none

/-- The scanning loop of `ParseUint` over the characters left after the base prefix,
from the accumulator `n` and the flag `underscores`.  The error side carries the value
returned along with the error: 0 with `ErrSyntax`, `maxVal` with `ErrRange`. -/
def scanDigits (base0 : Bool) (base cutoff maxVal : Nat) :
    List Char → Nat → Bool → Except (Nat × ErrKind) (Nat × Bool)
  | [], n, underscores => .ok (n, underscores)
  | c :: cs, n, underscores =>
      if c = '_' ∧ base0 = true then scanDigits base0 base cutoff maxVal cs n true
      else
        match digitVal c with
        | none => .error (0, .ErrSyntax)
        | some d =>
            if d ≥ base then .error (0, .ErrSyntax)
            else if n ≥ cutoff then .error (maxVal, .ErrRange)
            else
              let n10 := (n * base) % 2 ^ 64
              let n1 := (n10 + d) % 2 ^ 64
              if n1 < n10 ∨ n1 > maxVal then .error (maxVal, .ErrRange)
              else scanDigits base0 base cutoff maxVal cs n1 underscores

/-- The loop of `underscoreOK` from position `i` on: `saw` is the class of the last
character seen (`'^'` beginning, `'0'` digit, `'_'` underscore, `'!'` anything else). -/
def underscoreLoop (hex : Bool) : List Char → Char → Bool
  | [], saw => saw ≠ '_'
  | c :: cs, saw =>
      if (48 ≤ c.toNat ∧ c.toNat ≤ 57) ∨ (hex = true ∧ 97 ≤ lower c ∧ lower c ≤ 102) then
        underscoreLoop hex cs '0'
      else if c = '_' then
        if saw ≠ '0' then false else underscoreLoop hex cs '_'
      else if saw = '_' then false
      else underscoreLoop hex cs '!'

/-- The function `underscoreOK`: underscores may only separate digits, or follow the base
prefix. -/
def underscoreOK (s : List Char) : Bool :=
  let s1 := match s with
    | c :: cs => if c = '-' ∨ c = '+' then cs else s
    | [] => s
  match s1 with
  | '0' :: c1 :: rest =>
      if lower c1 = 98 ∨ lower c1 = 111 ∨ lower c1 = 120 then
        underscoreLoop (decide (lower c1 = 120)) rest '0'
      else underscoreLoop false s1 '^'
  | _ => underscoreLoop false s1 '^'

/-- The base and the remaining text that `ParseUint` selects for `base == 0`: a leading
`0b`, `0o`, `0x` (text of length 3 or more) or a bare leading `0` (octal); else base 10. -/
def basePrefix (s : List Char) : Nat × List Char :=
  match s with
  | '0' :: rest =>
      match rest with
      | c1 :: rest2 =>
          if s.length ≥ 3 ∧ lower c1 = 98 then (2, rest2)
          else if s.length ≥ 3 ∧ lower c1 = 111 then (8, rest2)
          else if s.length ≥ 3 ∧ lower c1 = 120 then (16, rest2)
          else (8, rest)
      | [] => (8, rest)
  | _ => (10, s)

/-- The function `strconv.ParseUint`, on the characters of the text; `fnName` and `num`
are the function name and text recorded in the error.  Returns the value and the error. -/
def parseUintChars (fnName num : String) (s : List Char) (base bitSize : Nat) :
    Nat × Option NumError :=
  if s = [] then (0, some ⟨fnName, num, .ErrSyntax⟩)
  else
    let base0 := decide (base = 0)
    if ¬ (base = 0 ∨ (2 ≤ base ∧ base ≤ 36)) then (0, some ⟨fnName, num, .ErrBase⟩)
    else
      let bs := if base = 0 then basePrefix s else (base, s)
      if bitSize > 64 then (0, some ⟨fnName, num, .ErrBitSize⟩)
      else
        let bits := if bitSize = 0 then IntSize else bitSize
        let cutoff := maxUint64 / bs.1 + 1
        let maxVal := 2 ^ bits - 1
        match scanDigits base0 bs.1 cutoff maxVal bs.2 0 false with
        | .error (v, e) => (v, some ⟨fnName, num, e⟩)
        | .ok (n, underscores) =>
            if underscores = true ∧ underscoreOK s = false then
              (0, some ⟨fnName, num, .ErrSyntax⟩)
            else (n, none)

/-- The function `strconv.ParseUint(s, base, bitSize)`. -/
def ParseUint (s : String) (base bitSize : Nat) : Nat × Option NumError :=
  parseUintChars "ParseUint" s s.data base bitSize

/-- The function `strconv.ParseInt(s, base, bitSize)`: the sign is picked off, the rest
goes through `ParseUint`, and the magnitude is checked against `2 ^ (bitSize - 1)`. -/
def ParseInt (s : String) (base bitSize : Nat) : Int × Option NumError :=
  if s.data = [] then (0, some ⟨"ParseInt", s, .ErrSyntax⟩)
  else
    let neg := decide (s.data.head? = some '-')
    let body := if s.data.head? = some '+' ∨ s.data.head? = some '-' then s.data.tail else s.data
    let r := parseUintChars "ParseInt" s body base bitSize
    if r.2.isSome = true ∧ r.2.map NumError.Err ≠ some .ErrRange then (0, r.2)
    else
      let bits := if bitSize = 0 then IntSize else bitSize
      let cutoff := 2 ^ (bits - 1)
      if neg = false ∧ r.1 ≥ cutoff then ((cutoff : Int) - 1, some ⟨"ParseInt", s, .ErrRange⟩)
      else if neg = true ∧ r.1 > cutoff then (-(cutoff : Int), some ⟨"ParseInt", s, .ErrRange⟩)
      else (if neg = true then -(r.1 : Int) else (r.1 : Int), none)

/-- The decimal digits of `n` in front of `acc`, least significant digit produced first
(the loop of `formatBits` for base 10); `fuel` bounds the number of digits. -/
def formatBits : Nat → Nat → List Char → List Char
  | 0, _, acc => acc
  | fuel + 1, n, acc =>
      let acc1 := Char.ofNat (48 + n % 10) :: acc
      if n / 10 = 0 then acc1 else formatBits fuel (n / 10) acc1

/-- The function `strconv.FormatUint(n, 10)`. -/
def FormatUint (n : Nat) : String := String.mk (formatBits (n + 1) n [])

/-- The function `strconv.FormatInt(i, 10)`: a minus sign, then the magnitude. -/
def FormatInt (i : Int) : String :=
  if i < 0 then String.mk ('-' :: formatBits (i.natAbs + 1) i.natAbs [])
  else String.mk (formatBits (i.natAbs + 1) i.natAbs [])

end strconv

/-- The pieces of the Go standard library that act on floating point numbers and on
composite values, taken as parameters: `fmt`'s `%v` text of a float of the given type,
`strconv.ParseFloat(s, bitSize)` (value and error), `==` on floats, and the `%v` text
of a value that is not a string, boolean or integer. -/
structure GoLib where
  FormatFloat : FloatKind → Nat → String
  ParseFloat : String → Nat → Nat × Option strconv.NumError
  FloatEq : Nat → Nat → Bool
  SprintOther : GoValue → String

/-- The text `fmt.Sprintf("%v", v.Interface())`. -/
def Sprint (lib : GoLib) : GoValue → String
  | .string s => s
  | .bool b => if b then "true" else "false"
  | .int _ n => strconv.FormatInt n
  | .uint _ n => strconv.FormatUint n
  | .float k x => lib.FormatFloat k x
  | .iface none => "<nil>"
  | .iface (some v) => Sprint lib v
  | v => lib.SprintOther v

/-! ## Field tags -/

/-- Modelled from the spec: `repository.GetTagByFieldName(v, fieldName, tag)`, whose
source is not part of the package at hand.  Given the dynamic type of `v` (a record or
a pointer to one) it returns the value of the tag `tag` declared on the field named
`fieldName`, and nothing when the field or the tag does not exist. -/
def GetTagByFieldName (t : Option GoType) (fieldName tag : String) : Option String :=
  match t with
  | some (.struct fs) | some (.ptr (.struct fs)) =>
      match fs.find? (fun f => f.Name == fieldName) with
      | some f => f.Tag.lookup tag
      | none => none
  | _ => none

/-- The function `lookupExpressionAttributeName(doc, fieldName)`: the `aws-name` tag of the
field, or nil.  `doc` is given by its dynamic type. -/
def lookupExpressionAttributeName (doc : Option GoType) (fieldName : String) : Option String :=
  GetTagByFieldName doc fieldName "aws-name"

/-! ## Encoder -/

/-- The strings held by a list of values, when every one of them is a string. -/
def stringElems : List GoValue → Option (List String)
  | [] => some []
  | .string s :: xs => (stringElems xs).map (fun ss => s :: ss)
  | _ :: _ => none

/-- The bytes held by a list of values, when every one of them is a `uint8`. -/
def byteElems : List GoValue → Option (List Nat)
  | [] => some []
  | .uint .uint8 n :: xs => (byteElems xs).map (fun bs => n :: bs)
  | _ :: _ => none

/-- The type assertion `aValue.Interface().([]string)` followed by `aws.StringSlice`: it
holds for a slice of strings only. -/
def asStringSlice : GoValue → Except Panic (List String)
  | .slice .string xs =>
      match stringElems (xs.getD []) with
      | some ss => .ok ss
      | none => .error .interfaceConversion
  | _ => .error .interfaceConversion

/-- The type assertion `aValue.Interface().([]byte)`: it holds for a slice of `uint8` only. -/
def asByteSlice : GoValue → Except Panic (List Nat)
  | .slice (.uint .uint8) xs =>
      match byteElems (xs.getD []) with
      | some bs => .ok bs
      | none => .error .interfaceConversion
  | _ => .error .interfaceConversion

/-- The `Slice`/`Array` case of `marshalToAttributeValue`: `whole` is the sequence, `e`
its element type, `xs` its elements, and `encoded` the outcome of the loop
`av.L[i] = marshalToAttributeValue(aValue.Index(i))`, which only the list branch runs. -/
def marshalSequence (lib : GoLib) (whole : GoValue) (e : GoType) (xs : List GoValue)
    (encoded : Except Panic (List (Option AttributeValue))) :
    Except Panic (Option AttributeValue) :=
  if xs.length = 0 then .ok (some (.ofNULL true))
  else
    match e.Kind with
    | .Chan | .Func | .Complex64 | .Complex128 => .ok none
    | .String =>
        match asStringSlice whole with
        | .error p => .error p
        | .ok ss => .ok (some (.ofSS ss))
    | .Int8 =>
        match asByteSlice whole with
        | .error p => .error p
        | .ok _ => .ok (some .empty)
    | .Int | .Int16 | .Int32 | .Int64 | .Float32 | .Float64 =>
        .ok (some (.ofNS (xs.map (Sprint lib))))
    | .Bool | .Interface | .Map | .Ptr | .Struct =>
        match encoded with
        | .error p => .error p
        | .ok l => .ok (some (.ofL l))
    | _ => .ok (some (.ofNULL true))

mutual
/-- The function `marshalToAttributeValue(aValue)`: the wire value of a host value, nil
(`none`) for a rejected one. -/
def marshalToAttributeValue (lib : GoLib) : GoValue → Except Panic (Option AttributeValue)
  | .chan => .ok none
  | .func => .ok none
  | .complex _ => .ok none
  | .string s => .ok (some (.ofS s))
  | .int k n => .ok (some (.ofN (Sprint lib (.int k n))))
  | .float k x => .ok (some (.ofN (Sprint lib (.float k x))))
  | .bool b => .ok (some (.ofBOOL b))
  | .struct fs =>
      match marshalFields lib (some (.struct (fs.map Prod.fst))) fs [] with
      | .error p => .error p
      | .ok m =>
          .ok (some (.mk none none none none (some m) none none
            (if m.length = 0 then some true else none) none none))
  | .map _ _ none => .ok (some (.ofNULL true))
  | .map _ _ (some es) =>
      match marshalEntries lib es [] with
      | .error p => .error p
      | .ok m => .ok (some (.ofM m))
  | .ptr _ none => .ok (some (.ofNULL true))
  | .ptr _ (some v) => marshalToAttributeValue lib v
  | .iface none => .ok (some (.ofNULL true))
  | .iface (some v) => marshalToAttributeValue lib v
  | .slice e none => marshalSequence lib (.slice e none) e [] (.ok [])
  | .slice e (some xs) => marshalSequence lib (.slice e (some xs)) e xs (marshalList lib xs)
  | .array e xs => marshalSequence lib (.array e xs) e xs (marshalList lib xs)
  | .invalid => .ok (some .empty)
  | .uint _ _ => .ok (some .empty)
  | .unsafePointer => .ok (some .empty)
/-- The loop `av.L[i] = marshalToAttributeValue(aValue.Index(i))`. -/
def marshalList (lib : GoLib) : List GoValue → Except Panic (List (Option AttributeValue))
  | [] => .ok []
  | x :: xs =>
      match marshalToAttributeValue lib x with
      | .error p => .error p
      | .ok a =>
          match marshalList lib xs with
          | .error p => .error p
          | .ok l => .ok (a :: l)
/-- The loop over the fields of a struct of type `t`, adding to the map `acc`: a visible
field whose wire value is not nil is stored under its alias, else under its name. -/
def marshalFields (lib : GoLib) (t : Option GoType) :
    List (StructField GoType × GoValue) → List (String × Option AttributeValue) →
      Except Panic (List (String × Option AttributeValue))
  | [], acc => .ok acc
  | (f, v) :: rest, acc =>
      if f.exported then
        match marshalToAttributeValue lib v with
        | .error p => .error p
        | .ok none => marshalFields lib t rest acc
        | .ok (some av) =>
            marshalFields lib t rest
              (mapSet acc ((lookupExpressionAttributeName t f.Name).getD f.Name) (some av))
      else marshalFields lib t rest acc
/-- The loop over the entries of a map, adding to the map `acc`: an entry whose wire
value is not nil is stored under the `%v` text of its key. -/
def marshalEntries (lib : GoLib) :
    List (GoValue × GoValue) → List (String × Option AttributeValue) →
      Except Panic (List (String × Option AttributeValue))
  | [], acc => .ok acc
  | (k, v) :: rest, acc =>
      match marshalToAttributeValue lib v with
      | .error p => .error p
      | .ok none => marshalEntries lib rest acc
      | .ok (some av) => marshalEntries lib rest (mapSet acc (Sprint lib k) (some av))
end

/-! ## Decoder -/

/-- The errors returned by the decoder: a `*strconv.NumError`, or one of the four
`fmt.Errorf` messages of marshal.go. -/
inductive GoError where
  | num (e : strconv.NumError)
  /-- The message "Error converting NS array: ...". -/
  | nsConversion
  /-- The message "Not yet implemented for AWS type B or BS." -/
  | notImplemented
  /-- The message "Cannnot convert map key to type ...". -/
  | cannotConvertKey (t : GoType)
  /-- The message "Error converting map key to type ...". -/
  | errorConvertingKey (t : GoType)

/-- What a Go function with results `(reflect.Value, error)` yields: a panic, or the pair
of its results. -/
abbrev Result := Except Panic (GoValue × Option GoError)

/-- The table `nSize`; a kind that is not a key of the Go map reads as 0. -/
def nSize : Kind → Nat
  | .Int => 0 | .Int8 => 8 | .Int16 => 16 | .Int32 => 32 | .Int64 => 64
  | .Uint => 0 | .Uint8 => 8 | .Uint16 => 16 | .Uint32 => 32 | .Uint64 => 64
  | .Float32 => 32 | .Float64 => 64 | .Interface => 64
  | _ => 0

/-- The width in bits of a signed integer type. -/
def IntKind.bits : IntKind → Nat
  | .int => 64 | .int8 => 8 | .int16 => 16 | .int32 => 32 | .int64 => 64

/-- The width in bits of an unsigned integer type. -/
def UintKind.bits : UintKind → Nat
  | .uint => 64 | .uint8 => 8 | .uint16 => 16 | .uint32 => 32 | .uint64 => 64 | .uintptr => 64

/-- The element type `varType.Elem()` of an array, slice, map or pointer type. -/
def GoType.Elem : GoType → Option GoType
  | .ptr e => some e
  | .slice e => some e
  | .array _ e => some e
  | .map _ e => some e
  | _ => none

/-- The assignment `slot.Set(x)` of `reflect`, for a slot of type `slot`: `x` must be
assignable to the slot; an interface slot takes any value and holds it as its dynamic
value.  The result is the new content of the slot. -/
def reflectSet (slot : GoType) (x : GoValue) : Except Panic GoValue :=
  match slot, x with
  | _, .invalid => .error .notAssignable
  | .iface, .iface d => .ok (.iface d)
  | .iface, v => .ok (.iface (some v))
  | t, v =>
      match v.typeOf with
      | some tv => if tv.beq t then .ok v else .error .notAssignable
      | none => .error .notAssignable

/-- The call `value.SetUint(x)` on a value of type `t`: the low bits of `x`. -/
def reflectSetUint (t : GoType) (x : Nat) : Except Panic GoValue :=
  match t with
  | .uint k => .ok (.uint k (x % 2 ^ k.bits))
  | _ => .error .notAssignable

/-- The call `value.SetInt(x)` on a value of type `t`: `x` wrapped to the width. -/
def reflectSetInt (t : GoType) (x : Int) : Except Panic GoValue :=
  match t with
  | .int k => .ok (.int k ((x + 2 ^ (k.bits - 1)) % 2 ^ k.bits - 2 ^ (k.bits - 1)))
  | _ => .error .notAssignable

/-- The call `value.SetFloat(x)` on a value of type `t`.  The argument comes from
`ParseFloat` with the bit size of `t`, so that the conversion to `float32` is exact. -/
def reflectSetFloat (t : GoType) (x : Nat) : Except Panic GoValue :=
  match t with
  | .float k => .ok (.float k x)
  | _ => .error .notAssignable

def isUintKind (k : Kind) : Bool :=
  k = .Uint || k = .Uint8 || k = .Uint16 || k = .Uint32 || k = .Uint64

def isIntKind (k : Kind) : Bool :=
  k = .Int || k = .Int8 || k = .Int16 || k = .Int32 || k = .Int64

def isFloatKind (k : Kind) : Bool :=
  k = .Float32 || k = .Float64

/-- The three numeric cases of the switch of `marshalToGoValue` (`Uint*`, `Int*`, and
`Float*` or an interface with `N` set), for a wire value whose `N` member is `n`:
the text is parsed with base 0 and the bit size `nSize[k]`. -/
def marshalNumber (lib : GoLib) (n : Option String) (varType : GoType) : Result :=
  let k := varType.Kind
  if isUintKind k then
    match n with
    | none => .error .nilDereference
    | some text =>
        match strconv.ParseUint text 0 (nSize k) with
        | (_, some e) => .ok (zeroValue varType, some (.num e))
        | (x, none) =>
            match reflectSetUint varType x with
            | .error p => .error p
            | .ok v => .ok (v, none)
  else if isIntKind k then
    match n with
    | none => .error .nilDereference
    | some text =>
        match strconv.ParseInt text 0 (nSize k) with
        | (_, some e) => .ok (zeroValue varType, some (.num e))
        | (x, none) =>
            match reflectSetInt varType x with
            | .error p => .error p
            | .ok v => .ok (v, none)
  else
    match n with
    | none => .error .nilDereference
    | some text =>
        match lib.ParseFloat text (nSize k) with
        | (_, some e) => .ok (zeroValue varType, some (.num e))
        | (x, none) =>
            if k = .Interface then
              match reflectSet varType (.float .float64 x) with
              | .error p => .error p
              | .ok v => .ok (v, none)
            else
              match reflectSetFloat varType x with
              | .error p => .error p
              | .ok v => .ok (v, none)

/-- The function `convertKey(key, keyType)`: a string key is taken as it is, a numeric
key goes through `marshalToGoValue` on the wire value `N: key`, which for a numeric target
kind is `marshalNumber` (theorem `marshalToGoValue_numeric`), and any other key kind is an
error. -/
def convertKey (lib : GoLib) (key : String) (keyType : GoType) : Result :=
  let k := keyType.Kind
  if k = .String then .ok (.string key, none)
  else if isUintKind k || isIntKind k || isFloatKind k then
    match marshalNumber lib (some key) keyType with
    | .error p => .error p
    | .ok (_, some _) => .ok (zeroValue keyType, some (.errorConvertingKey keyType))
    | .ok (keyV, none) => .ok (keyV, none)
  else .ok (zeroValue keyType, some (.cannotConvertKey keyType))

/-- Equality of two map keys (`==` on the key type). -/
def keyEq (lib : GoLib) : GoValue → GoValue → Bool
  | .string a, .string b => a == b
  | .bool a, .bool b => a == b
  | .int _ a, .int _ b => a == b
  | .uint _ a, .uint _ b => a == b
  | .float _ a, .float _ b => lib.FloatEq a b
  | _, _ => false

/-- The call `value.SetMapIndex(k, v)` on the entries of a map. -/
def setMapIndex (lib : GoLib) (m : List (GoValue × GoValue)) (k v : GoValue) :
    List (GoValue × GoValue) :=
  match m with
  | [] => [(k, v)]
  | (k0, v0) :: rest =>
      if keyEq lib k0 k then (k0, v) :: rest else (k0, v0) :: setMapIndex lib rest k v

/-- The loop over a string set: `value.Index(i).Set(reflect.ValueOf(*av.SS[i]))`. -/
def decodeStringSet (itemType : GoType) : List String → Except Panic (List GoValue)
  | [] => .ok []
  | s :: rest =>
      match reflectSet itemType (.string s) with
      | .error p => .error p
      | .ok v =>
          match decodeStringSet itemType rest with
          | .error p => .error p
          | .ok vs => .ok (v :: vs)

/-- The loop over a number set for an unsigned element kind.  The test in the source is
`cErr == nil`: an element that parses ends the call with the conversion error, and an
element that does not parse is stored as the value `ParseUint` returned with its error. -/
def decodeNumberSetUint (itemType : GoType) :
    List String → Except Panic (List GoValue × Option GoError)
  | [] => .ok ([], none)
  | s :: rest =>
      match strconv.ParseUint s 0 (nSize itemType.Kind) with
      | (_, none) => .ok ([], some .nsConversion)
      | (x, some _) =>
          match reflectSetUint itemType x with
          | .error p => .error p
          | .ok v =>
              match decodeNumberSetUint itemType rest with
              | .error p => .error p
              | .ok (_, some e) => .ok ([], some e)
              | .ok (vs, none) => .ok (v :: vs, none)

/-- The loop over a number set for a signed element kind. -/
def decodeNumberSetInt (itemType : GoType) :
    List String → Except Panic (List GoValue × Option GoError)
  | [] => .ok ([], none)
  | s :: rest =>
      match strconv.ParseInt s 0 (nSize itemType.Kind) with
      | (_, some _) => .ok ([], some .nsConversion)
      | (x, none) =>
          match reflectSetInt itemType x with
          | .error p => .error p
          | .ok v =>
              match decodeNumberSetInt itemType rest with
              | .error p => .error p
              | .ok (_, some e) => .ok ([], some e)
              | .ok (vs, none) => .ok (v :: vs, none)

/-- The loop over a number set for a floating or interface element kind. -/
def decodeNumberSetFloat (lib : GoLib) (itemType : GoType) :
    List String → Except Panic (List GoValue × Option GoError)
  | [] => .ok ([], none)
  | s :: rest =>
      match lib.ParseFloat s (nSize itemType.Kind) with
      | (_, some _) => .ok ([], some .nsConversion)
      | (x, none) =>
          match (if itemType.Kind = .Interface then reflectSet itemType (.float .float64 x)
                 else reflectSetFloat itemType x) with
          | .error p => .error p
          | .ok v =>
              match decodeNumberSetFloat lib itemType rest with
              | .error p => .error p
              | .ok (_, some e) => .ok ([], some e)
              | .ok (vs, none) => .ok (v :: vs, none)

/-- The `len(av.NS) > 0` case of the sequence branch: the elements of the new slice. -/
def decodeNumberSet (lib : GoLib) (itemType : GoType) (ns : List String) :
    Except Panic (List GoValue × Option GoError) :=
  if isUintKind itemType.Kind then decodeNumberSetUint itemType ns
  else if isIntKind itemType.Kind then decodeNumberSetInt itemType ns
  else if itemType.Kind = .Interface ∨ isFloatKind itemType.Kind then
    decodeNumberSetFloat lib itemType ns
  else .ok (List.replicate ns.length (zeroValue itemType), none)

/-- Whether a slice member of the wire value has `len(...) > 0`. -/
def nonEmpty {α : Type} (l : Option (List α)) : Bool :=
  match l with
  | some (_ :: _) => true
  | _ => false

/-- The element type that the map and sequence cases of `marshalToGoValue` decode into:
`varType` itself for an interface, else `varType.Elem()`. -/
def decodeItemType (varType : GoType) : GoType :=
  if varType.Kind = .Interface then varType else (varType.Elem).getD varType

/-- The key type of the map case of `marshalToGoValue`: `string` for an interface, else
`varType.Key()`. -/
def decodeKeyType (varType : GoType) : GoType :=
  if varType.Kind = .Interface then .string
  else
    match varType with
    | .map kt _ => kt
    | _ => .string

/-- The tagless switch of `marshalToGoValue(av, varType)` for a pointer `av` that is not
nil.  `entries` is the outcome of the loop over `av.M` and `elems` that of the loop over
`av.L`; each is used by the one case that runs the loop. -/
def marshalToGoValueSwitch (lib : GoLib) (av : AttributeValue) (varType : GoType)
    (entries : Except Panic (List (GoValue × GoValue) × Option GoError))
    (elems : Except Panic (List GoValue × Option GoError)) : Result :=
  let k := varType.Kind
  let zValue := zeroValue varType
  if (k = .Interface ∧ av.S.isSome) ∨ k = .String then
    match av.S with
    | none => .error .nilDereference
    | some s =>
        match reflectSet varType (.string s) with
        | .error p => .error p
        | .ok v => .ok (v, none)
  else if (k = .Interface ∧ av.BOOL.isSome) ∨ k = .Bool then
    match av.BOOL with
    | none => .error .nilDereference
    | some b =>
        match reflectSet varType (.bool b) with
        | .error p => .error p
        | .ok v => .ok (v, none)
  else if isUintKind k ∨ isIntKind k ∨ (k = .Interface ∧ av.N.isSome) ∨ isFloatKind k then
    marshalNumber lib av.N varType
  else if (k = .Interface ∧ nonEmpty av.M) ∨ k = .Map then
    match entries with
    | .error p => .error p
    | .ok (_, some e) => .ok (zValue, some e)
    | .ok (es, none) => .ok (.map (decodeKeyType varType) (decodeItemType varType) (some es), none)
  else if k = .Array ∨ (k = .Interface ∧ nonEmpty av.NS) ∨ (k = .Interface ∧ nonEmpty av.SS)
      ∨ (k = .Interface ∧ nonEmpty av.BS) ∨ (k = .Interface ∧ nonEmpty av.L) ∨ k = .Slice then
    let itemType := decodeItemType varType
    if nonEmpty av.SS then
      match decodeStringSet itemType (av.SS.getD []) with
      | .error p => .error p
      | .ok vs => .ok (.slice itemType (some vs), none)
    else if nonEmpty av.NS then
      match decodeNumberSet lib itemType (av.NS.getD []) with
      | .error p => .error p
      | .ok (_, some e) => .ok (zValue, some e)
      | .ok (vs, none) => .ok (.slice itemType (some vs), none)
    else if nonEmpty av.BS then .ok (zValue, some .notImplemented)
    else if nonEmpty av.L then
      match elems with
      | .error p => .error p
      | .ok (_, some e) => .ok (zValue, some e)
      | .ok (vs, none) => .ok (.slice itemType (some vs), none)
    else .ok (zValue, none)
  else .ok (zValue, none)

mutual
/-- The body of `marshalToGoValue(av, varType)` for a pointer `av` that is not nil: the
switch, with the loop over the entries of `av.M` and the loop over the elements of
`av.L`. -/
def marshalToGoValueBody (lib : GoLib) : AttributeValue → GoType → Result
  | .mk B BOOL BS L M N NS NULL S SS, varType =>
      marshalToGoValueSwitch lib (.mk B BOOL BS L M N NS NULL S SS) varType
        (match M with
          | none => .ok ([], none)
          | some m => decodeEntries lib (decodeKeyType varType) (decodeItemType varType) m [])
        (match L with
          | none => .ok ([], none)
          | some l => decodeList lib (decodeItemType varType) l)
/-- The function `marshalToGoValue(av, varType)`: the host value of type `varType` for a
wire value, with the error.  `av` is a pointer: when it is nil, the first member access
that the switch reaches panics, and a kind that reaches none gets the zero value. -/
def marshalToGoValue (lib : GoLib) : Option AttributeValue → GoType → Result
  | none, varType =>
      let k := varType.Kind
      if k = .Interface ∨ k = .String ∨ k = .Bool ∨ isUintKind k ∨ isIntKind k ∨ isFloatKind k
          ∨ k = .Map ∨ k = .Array ∨ k = .Slice then .error .nilDereference
      else .ok (zeroValue varType, none)
  | some av, varType => marshalToGoValueBody lib av varType
/-- The loop over a list: each element is decoded into `itemType` and stored with
`value.Index(i).Set(x)`; the first error ends the call. -/
def decodeList (lib : GoLib) (itemType : GoType) :
    List (Option AttributeValue) → Except Panic (List GoValue × Option GoError)
  | [] => .ok ([], none)
  | a :: rest =>
      match marshalToGoValue lib a itemType with
      | .error p => .error p
      | .ok (_, some e) => .ok ([], some e)
      | .ok (x, none) =>
          match reflectSet itemType x with
          | .error p => .error p
          | .ok v =>
              match decodeList lib itemType rest with
              | .error p => .error p
              | .ok (_, some e) => .ok ([], some e)
              | .ok (vs, none) => .ok (v :: vs, none)
/-- The loop over the entries of a wire map, adding to the entries `acc` of the new map:
the key is converted, the value decoded, and the pair stored with `SetMapIndex`; the
first error ends the call. -/
def decodeEntries (lib : GoLib) (keyType itemType : GoType) :
    List (String × Option AttributeValue) → List (GoValue × GoValue) →
      Except Panic (List (GoValue × GoValue) × Option GoError)
  | [], acc => .ok (acc, none)
  | (key, a) :: rest, acc =>
      match convertKey lib key keyType with
      | .error p => .error p
      | .ok (_, some e) => .ok ([], some e)
      | .ok (keyV, none) =>
          match marshalToGoValue lib a itemType with
          | .error p => .error p
          | .ok (_, some e) => .ok ([], some e)
          | .ok (x, none) =>
              match reflectSet keyType keyV, reflectSet itemType x with
              | .error p, _ => .error p
              | _, .error p => .error p
              | .ok kv, .ok v => decodeEntries lib keyType itemType rest (setMapIndex lib acc kv v)
end

/-! ## Optional interfaces -/

/-- How the type of a value stands to an interface type with the methods `M`: the type
implements it (`dType.Implements(t)`), or only the pointer to the type does
(`reflect.PtrTo(dType).Implements(t)`), or neither. -/
inductive Implementation (M : Type) where
  | byValue (methods : M)
  | byPointer (methods : M)
  | absent

/-- The function `getInterface(v, t)`: the receiver on which the methods of the interface
are to be called, `v` itself or a pointer to a copy of `v`, with the methods; nil when
the interface is not implemented.  `reflect.TypeOf` of a nil interface is nil, and the
call of `Implements` on it panics. -/
def getInterface {M : Type} (v : GoValue) (impl : Implementation M) :
    Except Panic (Option (GoValue × M)) :=
  match v.typeOf with
  | none => .error .nilDereference
  | some dType =>
      match impl with
      | .byValue m => .ok (some (v, m))
      | .byPointer m => .ok (some (.ptr dType (some v), m))
      | .absent => .ok none

/-! ## Documents -/

/-- The loop of `MarshalAWS` over a slice or array, adding to the map `acc`: the element at
index `i` whose wire value is not nil is stored under the decimal text of `i`. -/
def marshalIndexed (lib : GoLib) :
    List GoValue → Nat → WireDoc → Except Panic WireDoc
  | [], _, acc => .ok acc
  | x :: xs, i, acc =>
      match marshalToAttributeValue lib x with
      | .error p => .error p
      | .ok none => marshalIndexed lib xs (i + 1) acc
      | .ok (some av) => marshalIndexed lib xs (i + 1) (mapSet acc (strconv.FormatInt i) (some av))

/-- The function `MarshalAWS(doc)`.  `marshaler` is the method `MarshalAWS` of the type of
`doc`, or of the pointer to it, when that type implements `AwsMarshaler`; it is then the
only thing called.  The function starts with `getInterface(doc, marshalerType)`, which
panics on a nil document.  Otherwise a pointer is followed once and the value is encoded
by kind: the fields of a struct, the elements of a sequence, the entries of a map, and any
other value under the key "root". -/
def MarshalAWS (lib : GoLib) (marshaler : Option (GoValue → WireDoc)) (doc : GoValue) :
    Except Panic WireDoc :=
  match getInterface doc (match marshaler with
    | some custom => Implementation.byValue custom
    | none => Implementation.absent) with
  | .error p => .error p
  | .ok (some (receiver, custom)) => .ok (custom receiver)
  | .ok none =>
      let aValue := match doc with
        | .ptr _ (some v) => v
        | .ptr _ none => .invalid
        | v => v
      match aValue with
      | .struct fs => marshalFields lib aValue.typeOf fs []
      | .slice _ xs => marshalIndexed lib (xs.getD []) 0 []
      | .array _ xs => marshalIndexed lib xs 0 []
      | .map _ _ es => marshalEntries lib (es.getD []) []
      | v =>
          match marshalToAttributeValue lib v with
          | .error p => .error p
          | .ok a => .ok [("root", a)]

/-- The Go type `reflect.Value`: a struct of three fields, none of them exported and
none of them tagged. -/
def reflectValueType : GoType :=
  .struct [⟨"typ", false, [], .ptr (.struct [])⟩, ⟨"ptr", false, [], .unsafePointer⟩,
    ⟨"flag", false, [], .uint .uintptr⟩]

/-- The closure `tagLookup(v, fName, tag)` of `UnmarshalAWS`: the tag value, or the field
name when there is none.  `v` is given by its dynamic type. -/
def tagLookup (v : Option GoType) (fName tag : String) : String :=
  match GetTagByFieldName v fName tag with
  | none => fName
  | some tagV => tagV

/-- The struct loop of `UnmarshalAWS` over the fields of the new document: a visible field
whose name is a key of `attrBuf` takes the decoded value when decoding returns no error,
and stays at its zero value otherwise.  The first argument of `tagLookup` in the source
is `docVal`, which is a `reflect.Value`. -/
def unmarshalFields (lib : GoLib) (attrBuf : WireDoc) :
    List (StructField GoType) → Except Panic (List (StructField GoType × GoValue))
  | [] => .ok []
  | f :: rest =>
      let slot : Except Panic GoValue :=
        if f.exported then
          match attrBuf.lookup (tagLookup (some reflectValueType) f.Name "aws-name") with
          | none => .ok (zeroValue f.Typ)
          | some x =>
              match marshalToGoValue lib x f.Typ with
              | .error p => .error p
              | .ok (v, none) => reflectSet f.Typ v
              | .ok (_, some _) => .ok (zeroValue f.Typ)
        else .ok (zeroValue f.Typ)
      match slot with
      | .error p => .error p
      | .ok v =>
          match unmarshalFields lib attrBuf rest with
          | .error p => .error p
          | .ok vs => .ok ((f, v) :: vs)

/-- The map loop of `UnmarshalAWS`, adding to the entries `acc` of the new map: an item
that decodes without error is stored under its key, a string; any other item is left out. -/
def unmarshalEntries (lib : GoLib) (keyType elemType : GoType) :
    WireDoc → List (GoValue × GoValue) → Except Panic (List (GoValue × GoValue))
  | [], acc => .ok acc
  | (k, mapItem) :: rest, acc =>
      match marshalToGoValue lib mapItem elemType with
      | .error p => .error p
      | .ok (_, some _) => unmarshalEntries lib keyType elemType rest acc
      | .ok (v, none) =>
          match reflectSet keyType (.string k), reflectSet elemType v with
          | .error p, _ => .error p
          | _, .error p => .error p
          | .ok kv, .ok ev => unmarshalEntries lib keyType elemType rest (setMapIndex lib acc kv ev)

/-- The function `UnmarshalAWS(doc, attrBuf)`; of `doc` only the type is used, a pointer
type standing for its element type.  The result is the new document; no error is
returned. -/
def UnmarshalAWS (lib : GoLib) (docType : GoType) (attrBuf : WireDoc) : Except Panic GoValue :=
  let dType := match docType with
    | .ptr e => e
    | t => t
  match dType with
  | .struct fs =>
      match unmarshalFields lib attrBuf fs with
      | .error p => .error p
      | .ok vs => .ok (.struct vs)
  | .map kt et =>
      match unmarshalEntries lib kt et attrBuf [] with
      | .error p => .error p
      | .ok es => .ok (.map kt et (some es))
  | t => .ok (zeroValue t)

/-- A library instance for evaluating the model on inputs that hold no floating point
number: every float prints as "0" and every text parses as the float 0. -/
def plainLib : GoLib :=
  ⟨fun _ _ => "0", fun _ _ => (0, none), fun a b => a == b, fun _ => "?"⟩

/-! ## Wire type tags -/

/-- The Go type `reflect.rtype`: a struct.  It is the element type of `*reflect.rtype`, the
dynamic type of every `reflect.Type`; its fields, none of them exported, play no part. -/
def rtypeType : GoType := .struct []

/-- The switch of `mapToAwsType(t)`.  `inner` is the result of the call
`mapToAwsType(reflect.TypeOf(t).Elem())` that the two pointer cases make. -/
def mapToAwsTypeSwitch (inner : String) (t : GoType) : String :=
  match t.Kind with
  | .Chan | .Func => "NULL"
  | .Bool => "BOOL"
  | .Int | .Int8 | .Int16 | .Int32 | .Int64 | .Uint | .Uint8 | .Uint16 | .Uint32 | .Uint64
  | .Uintptr | .Float32 | .Float64 | .Complex64 | .Complex128 => "N"
  | .String => "S"
  | .Map | .Struct => "M"
  | .Ptr | .Interface => inner
  | .Array | .Slice =>
      match t.Elem.map GoType.Kind with
      | some .String => "SS"
      | some .Int8 => "B"
      | some .Int | some .Int16 | some .Int32 | some .Int64 | some .Uint | some .Uint8
      | some .Uint16 | some .Uint32 | some .Uint64 | some .Uintptr | some .Float32
      | some .Float64 | some .Complex64 | some .Complex128 => "NS"
      | some .Ptr => inner
      | _ => "L"
  | _ => "NULL"

/-- The function `mapToAwsType(t)`.  In the pointer cases the argument of the recursive
call is `reflect.TypeOf(t).Elem()`, which is `reflect.rtype` whatever `t` is, a struct:
that call takes the `Struct` case and recurses no further. -/
def mapToAwsType (t : GoType) : String :=
  mapToAwsTypeSwitch (mapToAwsTypeSwitch "" rtypeType) t

/-! ## Keys -/

/-- The SDK's `dynamodb.AttributeDefinition`. -/
structure AttributeDefinition where
  AttributeName : Option String
  AttributeType : Option String
  deriving DecidableEq, Repr

/-- The interface `AwsDocumentKeyRetriever`: its two methods, as functions of the receiver. -/
structure AwsDocumentKeyRetriever where
  GetPartitionKeyField : GoValue → Option AttributeDefinition
  GetSortKeyField : GoValue → Option AttributeDefinition

/-- The fields of a record type, or of a pointer to one. -/
def recordFields (t : Option GoType) : List (StructField GoType) :=
  match t with
  | some (.struct fs) => fs
  | some (.ptr (.struct fs)) => fs
  | _ => []

/-- The first field of `fs` that declares the tag `tagName`, with the tag value and the
index of the field, `i` being the index of the head of `fs`. -/
def findTaggedFrom (tagName : String) : List (StructField GoType) → Nat →
    Option (String × String × Nat)
  | [], _ => none
  | f :: rest, i =>
      match f.Tag.lookup tagName with
      | some v => some (f.Name, v, i)
      | none => findTaggedFrom tagName rest (i + 1)

/-- Modelled from the spec: `repository.GetFieldByTagName(v, tagName, pos)`, whose source is
not part of the package at hand.  Given the dynamic type of `v` (a record or a pointer to
one) it scans the fields from index `pos` on for one that declares the tag `tagName`, and
returns the name of that field, the value of the tag and the index of the field; when
there is none it returns nil, nil and a negative index. -/
def GetFieldByTagName (t : Option GoType) (tagName : String) (pos : Nat) :
    Option String × Option String × Int :=
  match findTaggedFrom tagName ((recordFields t).drop pos) pos with
  | some (name, value, i) => (some name, some value, (i : Int))
  | none => (none, none, -1)

/-- The loop of `getAttributeDefinitionByTag`, from the state `fieldName`, `tagValue`,
`pos` at the loop test; the result is `fieldName` when the loop ends.  At the loop test
`pos` is never negative.  `fuel` bounds the number of loop tests. -/
def tagLoop (t : Option GoType) (tagName targetValue : String) :
    Nat → Option String → Option String → Nat → Option String
  | 0, fieldName, _, _ => fieldName
  | fuel + 1, fieldName, tagValue, pos =>
      if tagValue = none ∨ tagValue ≠ some targetValue then
        match GetFieldByTagName t tagName pos with
        | (fieldName1, tagValue1, pos1) =>
            if pos1 < 0 then fieldName1
            else tagLoop t tagName targetValue fuel fieldName1 tagValue1 (pos1.toNat + 1)
      else fieldName

/-- The function `getAttributeDefinitionByTag(v, tagName, targetValue)`: the field whose
tag `tagName` has the value `targetValue`, with the wire type declared by its `aws-type`
tag or, without one, the wire type of its Go type.  `reflect.TypeOf(v).FieldByName`
panics when `v` is not a struct.  The loop runs on fuel that its tests cannot use up
(theorem `tagLoop_eq`). -/
def getAttributeDefinitionByTag (v : GoValue) (tagName targetValue : String) :
    Except Panic (Option AttributeDefinition) :=
  match tagLoop v.typeOf tagName targetValue ((recordFields v.typeOf).length + 2) none none 0 with
  | none => .ok none
  | some fieldName =>
      match GetTagByFieldName v.typeOf fieldName "aws-type" with
      | some fieldType => .ok (some ⟨some fieldName, some fieldType⟩)
      | none =>
          match v.typeOf with
          | some (.struct fs) =>
              match fs.find? (fun f => f.Name == fieldName) with
              | some field => .ok (some ⟨some fieldName, some (mapToAwsType field.Typ)⟩)
              | none => .error .nilDereference
          | _ => .error .wrongKind

/-- The function `GetPartitionKeyField(doc)`: the method of the key retriever when the
document has one, else the field tagged `key-type:"primary"`. -/
def GetPartitionKeyField (kr : Implementation AwsDocumentKeyRetriever) (doc : GoValue) :
    Except Panic (Option AttributeDefinition) :=
  match getInterface doc kr with
  | .error p => .error p
  | .ok (some (receiver, m)) => .ok (m.GetPartitionKeyField receiver)
  | .ok none => getAttributeDefinitionByTag doc "key-type" "primary"

/-- The function `GetSortKeyField(doc)`: the method of the key retriever when the document
has one, else the field tagged `key-type:"secondary"`. -/
def GetSortKeyField (kr : Implementation AwsDocumentKeyRetriever) (doc : GoValue) :
    Except Panic (Option AttributeDefinition) :=
  match getInterface doc kr with
  | .error p => .error p
  | .ok (some (receiver, m)) => .ok (m.GetSortKeyField receiver)
  | .ok none => getAttributeDefinitionByTag doc "key-type" "secondary"

/-! ## Single members -/

/-- The function `strconv.Atoi(s)`: `ParseInt(s, 10, 0)`, the error renamed. -/
def strconv.Atoi (s : String) : Int × Option strconv.NumError :=
  ((strconv.ParseInt s 10 0).1,
    (strconv.ParseInt s 10 0).2.map (fun e => ⟨"Atoi", e.Num, e.Err⟩))

/-- The `Slice`/`Array` case of `marshalToAttributeValue` on a sequence obtained from an
unexported field: the branches that call `Interface` panic.  `encoded` is the outcome of
the list loop. -/
def marshalSequenceReadOnly (e : GoType) (xs : List GoValue)
    (encoded : Except Panic (List (Option AttributeValue))) :
    Except Panic (Option AttributeValue) :=
  if xs.length = 0 then .ok (some (.ofNULL true))
  else
    match e.Kind with
    | .Chan | .Func | .Complex64 | .Complex128 => .ok none
    | .String => .error .readOnly
    | .Int8 => .error .readOnly
    | .Int | .Int16 | .Int32 | .Int64 | .Float32 | .Float64 => .error .readOnly
    | .Bool | .Interface | .Map | .Ptr | .Struct =>
        match encoded with
        | .error p => .error p
        | .ok l => .ok (some (.ofL l))
    | _ => .ok (some (.ofNULL true))

mutual
/-- The function `marshalToAttributeValue(aValue)` on a value obtained from an unexported
field.  Such a value, and every value reached from it, has `CanInterface() == false`:
the calls of `Interface` panic, and the fields of a struct are all passed over. -/
def marshalReadOnly (lib : GoLib) : GoValue → Except Panic (Option AttributeValue)
  | .chan => .ok none
  | .func => .ok none
  | .complex _ => .ok none
  | .string _ => .error .readOnly
  | .int _ _ => .error .readOnly
  | .float _ _ => .error .readOnly
  | .bool _ => .error .readOnly
  | .struct _ =>
      .ok (some (.mk none none none none (some []) none none (some true) none none))
  | .map _ _ none => .ok (some (.ofNULL true))
  | .map _ _ (some es) =>
      match marshalReadOnlyEntries lib es with
      | .error p => .error p
      | .ok m => .ok (some (.ofM m))
  | .ptr _ none => .ok (some (.ofNULL true))
  | .ptr _ (some v) => marshalReadOnly lib v
  | .iface none => .ok (some (.ofNULL true))
  | .iface (some v) => marshalReadOnly lib v
  | .slice e none => marshalSequenceReadOnly e [] (.ok [])
  | .slice e (some xs) => marshalSequenceReadOnly e xs (marshalReadOnlyList lib xs)
  | .array e xs => marshalSequenceReadOnly e xs (marshalReadOnlyList lib xs)
  | .invalid => .ok (some .empty)
  | .uint _ _ => .ok (some .empty)
  | .unsafePointer => .ok (some .empty)
/-- The list loop on the elements of a sequence obtained from an unexported field. -/
def marshalReadOnlyList (lib : GoLib) :
    List GoValue → Except Panic (List (Option AttributeValue))
  | [] => .ok []
  | x :: xs =>
      match marshalReadOnly lib x with
      | .error p => .error p
      | .ok a =>
          match marshalReadOnlyList lib xs with
          | .error p => .error p
          | .ok l => .ok (a :: l)
/-- The loop over the entries of a map obtained from an unexported field: an entry whose
wire value is not nil needs the text of its key, and `v.Interface()` panics. -/
def marshalReadOnlyEntries (lib : GoLib) :
    List (GoValue × GoValue) → Except Panic (List (String × Option AttributeValue))
  | [] => .ok []
  | (_, v) :: rest =>
      match marshalReadOnly lib v with
      | .error p => .error p
      | .ok none => marshalReadOnlyEntries lib rest
      | .ok (some _) => .error .readOnly
end

/-- The interface `AwsAttributeMarshaler`: its method, as a function of the receiver. -/
structure AwsAttributeMarshaler where
  GetAttributeValue : GoValue → String → Option AttributeValue

/-- The function `GetAttributeValue(doc, fieldName)`: the method of the attribute marshaler
when the document has one; else the wire value of the field of a struct, of the item of
a map, or of the element of a sequence that `fieldName` names, and nil when there is
none.  A pointer is followed once to find the kind; the map and sequence cases then go
back to `reflect.ValueOf(doc)`, whose methods panic when `doc` is that pointer. -/
def GetAttributeValue (lib : GoLib) (am : Implementation AwsAttributeMarshaler)
    (doc : GoValue) (fieldName : String) : Except Panic (Option AttributeValue) :=
  let docVal := match doc with
    | .ptr _ (some v) => v
    | .ptr _ none => .invalid
    | v => v
  match getInterface doc am with
  | .error p => .error p
  | .ok (some (receiver, m)) => .ok (m.GetAttributeValue receiver fieldName)
  | .ok none =>
      match docVal with
      | .struct fs =>
          match fs.find? (fun p => p.1.Name == fieldName) with
          | none => .ok none
          | some (f, v) =>
              if f.exported then marshalToAttributeValue lib v else marshalReadOnly lib v
      | .map _ _ _ =>
          match doc with
          | .map .string _ es =>
              match (es.getD []).find? (fun p => keyEq lib p.1 (.string fieldName)) with
              | none => .ok none
              | some (_, v) => marshalToAttributeValue lib v
          | .map .iface _ es =>
              match (es.getD []).find? (fun p =>
                  match p.1 with
                  | .iface (some k) => keyEq lib k (.string fieldName)
                  | _ => false) with
              | none => .ok none
              | some (_, v) => marshalToAttributeValue lib v
          | .map _ _ _ => .error .notAssignable
          | _ => .error .wrongKind
      | .slice _ _ | .array _ _ =>
          match strconv.Atoi fieldName with
          | (_, some _) => .ok none
          | (ndx, none) =>
              match doc with
              | .slice _ xs =>
                  if ndx < 0 ∨ ndx ≥ (xs.getD []).length then .ok none
                  else
                    match (xs.getD []).get? ndx.toNat with
                    | some x => marshalToAttributeValue lib x
                    | none => .ok none
              | .array _ xs =>
                  if ndx < 0 ∨ ndx ≥ xs.length then .ok none
                  else
                    match xs.get? ndx.toNat with
                    | some x => marshalToAttributeValue lib x
                    | none => .ok none
              | _ => .error .wrongKind
      | _ => .ok none

/-! ## Document operations -/

/-- A request sent to the store through the client `ddbc.svc`. -/
inductive StoreCall where
  | PutItem (tableName : String) (item : WireDoc) (conditionExpression : Option String)
  | GetItem (tableName : String) (key : WireDoc)
  | DeleteItem (tableName : String) (key : WireDoc)

/-- The errors that the document operations return: the package's `MissingPrimaryKey`, or
the error of the store, by its message. -/
inductive DocError where
  | MissingPrimaryKey
  | aws (message : String)
  deriving DecidableEq, Repr

/-- The client `ddbc.svc`, by the error that each request returns (nil when it succeeds). -/
structure Service where
  PutItem : String → WireDoc → Option String → Option String
  GetItem : String → WireDoc → Option String
  DeleteItem : String → WireDoc → Option String

/-- The optional interfaces of the type of a document. -/
structure Capabilities where
  keyRetriever : Implementation AwsDocumentKeyRetriever
  attributeMarshaler : Implementation AwsAttributeMarshaler
  marshaler : Option (GoValue → WireDoc)

/-- What a document operation yields: a panic, or the error it returns together with the
requests it has sent to the store, in order.  The other result of the Go function is
always nil or the empty map. -/
abbrev OpResult := Except Panic (Option DocError × List StoreCall)

/-- The method `CreateDocument(tableName, doc)`. -/
def CreateDocument (lib : GoLib) (caps : Capabilities) (svc : Service) (tableName : String)
    (doc : GoValue) : OpResult :=
  match GetPartitionKeyField caps.keyRetriever doc with
  | .error p => .error p
  | .ok none => .ok (some .MissingPrimaryKey, [])
  | .ok (some primaryKey) =>
      match MarshalAWS lib caps.marshaler doc with
      | .error p => .error p
      | .ok awsDoc =>
          match primaryKey.AttributeName with
          | none => .error .nilDereference
          | some name =>
              let conditionExpr := "attribute_not_exists(" ++ name ++ ")"
              .ok ((svc.PutItem tableName awsDoc (some conditionExpr)).map DocError.aws,
                [.PutItem tableName awsDoc (some conditionExpr)])

/-- The method `UpdateDocument(tableName, doc)`. -/
def UpdateDocument (lib : GoLib) (caps : Capabilities) (svc : Service) (tableName : String)
    (doc : GoValue) : OpResult :=
  match MarshalAWS lib caps.marshaler doc with
  | .error p => .error p
  | .ok awsDoc =>
      .ok ((svc.PutItem tableName awsDoc none).map DocError.aws,
        [.PutItem tableName awsDoc none])

/-- The key attributes that `GetDocument` and `DeleteDocument` build once the primary key
is known: the wire value of the primary key field and, when there is a sort key, that of
the sort key field. -/
def keyAttributes (lib : GoLib) (caps : Capabilities) (doc : GoValue)
    (primaryKey : AttributeDefinition) : Except Panic WireDoc :=
  match primaryKey.AttributeName with
  | none => .error .nilDereference
  | some pName =>
      match GetAttributeValue lib caps.attributeMarshaler doc pName with
      | .error p => .error p
      | .ok pAv =>
          match GetSortKeyField caps.keyRetriever doc with
          | .error p => .error p
          | .ok none => .ok [(pName, pAv)]
          | .ok (some secondaryKey) =>
              match secondaryKey.AttributeName with
              | none => .error .nilDereference
              | some sName =>
                  match GetAttributeValue lib caps.attributeMarshaler doc sName with
                  | .error p => .error p
                  | .ok sAv => .ok (mapSet [(pName, pAv)] sName sAv)

/-- The method `GetDocument(tableName, doc)`. -/
def GetDocument (lib : GoLib) (caps : Capabilities) (svc : Service) (tableName : String)
    (doc : GoValue) : OpResult :=
  match GetPartitionKeyField caps.keyRetriever doc with
  | .error p => .error p
  | .ok none => .ok (some .MissingPrimaryKey, [])
  | .ok (some primaryKey) =>
      match keyAttributes lib caps doc primaryKey with
      | .error p => .error p
      | .ok keys =>
          .ok ((svc.GetItem tableName keys).map DocError.aws, [.GetItem tableName keys])

/-- The method `DeleteDocument(tableName, doc)`. -/
def DeleteDocument (lib : GoLib) (caps : Capabilities) (svc : Service) (tableName : String)
    (doc : GoValue) : OpResult :=
  match GetPartitionKeyField caps.keyRetriever doc with
  | .error p => .error p
  | .ok none => .ok (some .MissingPrimaryKey, [])
  | .ok (some primaryKey) =>
      match keyAttributes lib caps doc primaryKey with
      | .error p => .error p
      | .ok keys =>
          .ok ((svc.DeleteItem tableName keys).map DocError.aws, [.DeleteItem tableName keys])

/-! ## The package `testutil`

The assertions of `testutil.go` take the value under test as an `interface{}` and look at
it through `reflect.ValueOf`.  A failed assertion calls `t.Fatalf`, which marks the test as
failed and ends it. -/

namespace testutil

/-- The argument `v interface{}` of an assertion as `reflect.ValueOf(v)` shows it: the
content of a scalar, and for a value of a kind that has a nil value whether it is nil.
`nilInterface` is the nil interface, whose `reflect.Value` is the zero Value. -/
inductive Arg where
  | nilInterface
  | bool (b : Bool)
  | string (s : String)
  | int (k : IntKind) (n : Int)
  | uint (k : UintKind) (n : Nat)
  | float (k : FloatKind) (bits : Nat)
  | complex (k : ComplexKind)
  | chan (isNil : Bool)
  | func (isNil : Bool)
  | ptr (isNil : Bool)
  | map (isNil : Bool)
  | slice (isNil : Bool)
  | unsafePointer (isNil : Bool)
  | array
  | struct

/-- The method `reflect.Value.Kind`. -/
def Arg.Kind : Arg → Kind
  | .nilInterface => .Invalid
  | .bool _ => .Bool
  | .string _ => .String
  | .int k _ => k.Kind
  | .uint k _ => k.Kind
  | .float k _ => k.Kind
  | .complex k => k.Kind
  | .chan _ => .Chan
  | .func _ => .Func
  | .ptr _ => .Ptr
  | .map _ => .Map
  | .slice _ => .Slice
  | .unsafePointer _ => .UnsafePointer
  | .array => .Array
  | .struct => .Struct

/-- The method `reflect.Value.IsValid`: false for the zero Value only. -/
def Arg.IsValid : Arg → Bool
  | .nilInterface => false
  | _ => true

/-- The method `reflect.Value.IsNil`: it panics unless the kind is chan, func, interface,
map, pointer, slice or unsafe pointer. -/
def Arg.IsNil : Arg → Except Panic Bool
  | .chan b => .ok b
  | .func b => .ok b
  | .ptr b => .ok b
  | .map b => .ok b
  | .slice b => .ok b
  | .unsafePointer b => .ok b
  | _ => .error .wrongKind

/-- The method `reflect.Value.Len` on a value of kind String: its length in bytes. -/
def Arg.stringLen : Arg → Nat
  | .string s => s.utf8ByteSize
  | _ => 0

/-- The method `reflect.Value.Int`: it panics unless the kind is a signed integer kind. -/
def Arg.Int : Arg → Except Panic Int
  | .int _ n => .ok n
  | _ => .error .wrongKind

/-- The method `reflect.Value.Float`: it panics unless the kind is a floating kind. -/
def Arg.Float : Arg → Except Panic Nat
  | .float _ x => .ok x
  | _ => .error .wrongKind

/-- What an assertion does to the test: it returns, or it calls `logFatal` (`t.Fatalf`)
and the test fails. -/
inductive Outcome where
  | passes
  | fails
  deriving DecidableEq, Repr

/-- The end of every assertion: `logFatal` is called when `failed` holds. -/
def conclude (failed : Except Panic Bool) : Except Panic Outcome :=
  match failed with
  | .error p => .error p
  | .ok true => .ok .fails
  | .ok false => .ok .passes

/-- The function `AssertNil(t, v, format, a...)`. -/
def AssertNil (v : Arg) : Except Panic Outcome :=
  let valid : Except Panic Bool :=
    match v.Kind with
    | .String => .ok (v.stringLen != 0)
    | .Chan | .Interface | .Func | .Ptr | .Map | .Slice =>
        match v.IsNil with
        | .error p => .error p
        | .ok b => .ok (!b)
    | _ => .ok v.IsValid
  conclude valid

/-- The function `AssertNotNil(t, v, format, a...)`. -/
def AssertNotNil (v : Arg) : Except Panic Outcome :=
  let valid : Except Panic Bool :=
    match v.Kind with
    | .String => .ok (v.stringLen != 0)
    | .Interface | .Ptr | .Map | .Slice | .Array =>
        match v.IsNil with
        | .error p => .error p
        | .ok b => .ok (!b)
    | _ => .ok v.IsValid
  conclude (match valid with
    | .error p => .error p
    | .ok b => .ok (!b))

/-- The function `AssertGreaterThan(t, v1, v2, format, a...)`.  The type switch is on the
dynamic type of `v1`; `floatGt` is `>` on `float64`. -/
def AssertGreaterThan (floatGt : Nat → Nat → Bool) (v1 v2 : Arg) : Except Panic Outcome :=
  let gt : Except Panic Bool :=
    match v1 with
    | .int _ a =>
        match v2.Int with
        | .error p => .error p
        | .ok b => .ok (decide (a > b))
    | .float _ x =>
        match v2.Float with
        | .error p => .error p
        | .ok y => .ok (floatGt x y)
    | _ => .ok false
  conclude (match gt with
    | .error p => .error p
    | .ok b => .ok (!b))

/-- Whether the characters `needle` occur, in a row, in a text. -/
def containsChars (needle : List Char) : List Char → Bool
  | [] => needle.isEmpty
  | c :: cs => needle.isPrefixOf (c :: cs) || containsChars needle cs

/-- The function `strings.Contains(s, substr)`, on texts that are valid UTF-8. -/
def Contains (s substr : String) : Bool := containsChars substr.data s.data

/-- The function `scanFiles(fileMap, needle)`.  `openFile` is the file system: the content
of the file at a path, or nothing when `os.Open` returns an error.  The entries of the
map are listed in the order of the iteration. -/
def scanFiles (openFile : String → Option String) (fileMap : List (Int × String))
    (needle : String) : Bool :=
  fileMap.foldl (fun found kv =>
    match openFile kv.2 with
    | none => found
    | some buf => found && Contains buf needle) true

/-- The function `AssertTextInFiles(t, fileMap, needle)`: the value of `found`, and what
happens to the test. -/
def AssertTextInFiles (openFile : String → Option String) (fileMap : List (Int × String))
    (needle : String) : Bool × Outcome :=
  let found := scanFiles openFile fileMap needle
  (found, if !found then .fails else .passes)

end testutil

/-! ## Notions used in the statements -/

namespace strconv

/-- The value of a run of decimal digit characters read from the accumulator `st`. -/
def valFrom (st : Nat) (ds : List Char) : Nat :=
  ds.foldl (fun a c => a * 10 + (c.toNat - 48)) st

/-- A character `'0'..'9'`. -/
def IsDigitChar (c : Char) : Prop := 48 ≤ c.toNat ∧ c.toNat ≤ 57

end strconv

/-- The range of a signed integer type. -/
def IntKind.inRange (k : IntKind) (n : Int) : Prop :=
  -(2 ^ (k.bits - 1) : Int) ≤ n ∧ n < 2 ^ (k.bits - 1)

/-- The range of an unsigned integer type. -/
def UintKind.inRange (k : UintKind) (n : Nat) : Prop := n < 2 ^ k.bits

/-- A text string, a boolean, or a signed integer within the range of its type. -/
def RoundTripScalar : GoValue → Prop
  | .string _ => True
  | .bool _ => True
  | .int k n => k.inRange n
  | _ => False

/-- A record in the shape of the test fixture `TestDoc`, cut down to two fields: `DocName`,
the primary key, and `Size`, an `int64` with the wire alias `#amount`. -/
def aliasRecordType : GoType :=
  .struct [⟨"DocName", true, [("key-type", "primary")], .string⟩,
    ⟨"Size", true, [("aws-name", "#amount")], .int .int64⟩]

/-- A record of type `aliasRecordType` with the given field values. -/
def aliasRecord (docName : String) (size : Int) : GoValue :=
  .struct [(⟨"DocName", true, [("key-type", "primary")], .string⟩, .string docName),
    (⟨"Size", true, [("aws-name", "#amount")], .int .int64⟩, .int .int64 size)]

/-- A record type with two `int` fields, `A` and `B`. -/
def pairRecordType : GoType :=
  .struct [⟨"A", true, [], .int .int⟩, ⟨"B", true, [], .int .int⟩]

/-- A record of type `pairRecordType` with the given field values. -/
def pairRecord (a b : Int) : GoValue :=
  .struct [(⟨"A", true, [], .int .int⟩, .int .int a), (⟨"B", true, [], .int .int⟩, .int .int b)]

/-- The types into which `UnmarshalAWS` decodes the entry under key `k`, for a target
type: the types of the visible fields named `k` of a record, the element type of a map. -/
def slotTypes (target : GoType) (k : String) : List GoType :=
  match (match target with
    | .ptr e => e
    | t => t) with
  | .struct fs => (fs.filter (fun f => f.exported && f.Name == k)).map (fun f => f.Typ)
  | .map _ et => [et]
  | _ => []

/-- The member that the decoder reads for a scalar target type is nil: `S` for a string,
`BOOL` for a boolean, `N` for a signed, unsigned (other than `uintptr`) or floating
number.  It holds for no other target type. -/
def RequiredVariantAbsent (av : AttributeValue) : GoType → Prop
  | .string => av.S = none
  | .bool => av.BOOL = none
  | .int _ => av.N = none
  | .uint k => k ≠ .uintptr ∧ av.N = none
  | .float _ => av.N = none
  | _ => False

/-- The element kinds that the encoder turns into a number set. -/
def isNumberSetKind (k : Kind) : Bool :=
  k = .Int || k = .Int16 || k = .Int32 || k = .Int64 || k = .Float32 || k = .Float64

/-- The element kinds that the encoder turns into a list. -/
def isListKind (k : Kind) : Bool :=
  k = .Bool || k = .Interface || k = .Map || k = .Ptr || k = .Struct

/-- The wire name of a field of a record of type `t`: its alias when it declares one, else
its declared name. -/
def wireName (t : Option GoType) (f : StructField GoType) : String :=
  (lookupExpressionAttributeName t f.Name).getD f.Name

/-- The fields of a record value that are visible (exported). -/
def visibleFields (fs : List (StructField GoType × GoValue)) :
    List (StructField GoType × GoValue) :=
  fs.filter (fun p => p.1.exported)

/-- The entries of a document whose wire value is not nil. -/
def keptEntries (es : WireDoc) : WireDoc :=
  es.filter (fun e => e.2.isSome)

/-- A function, channel or complex value: the shapes that the encoder rejects outright. -/
def UnsupportedShape : GoValue → Prop
  | .chan => True
  | .func => True
  | .complex _ => True
  | _ => False

/-- The name of the first field whose tag `tagName` has the value `target`. -/
def firstTagged (tagName target : String) : List (StructField GoType) → Option String
  | [] => none
  | f :: rest =>
      if f.Tag.lookup tagName = some target then some f.Name
      else firstTagged tagName target rest

/-- A record in the shape of the test fixture `TestDoc`, cut down to three fields:
`DocName`, the primary key, `Owner`, the sort key, and `Size` with the alias `#amount`. -/
def keyedRecord (docName owner : String) (size : Int) : GoValue :=
  .struct [(⟨"DocName", true, [("key-type", "primary")], .string⟩, .string docName),
    (⟨"Owner", true, [("key-type", "secondary")], .string⟩, .string owner),
    (⟨"Size", true, [("aws-name", "#amount")], .int .int64⟩, .int .int64 size)]

/-- A record whose primary key field is a boolean. -/
def flagRecord (flag : Bool) : GoValue :=
  .struct [(⟨"Flag", true, [("key-type", "primary")], .bool⟩, .bool flag)]

/-- A key retriever in the shape of the test fixture `InterfTest`: the partition key is
the string field `DocName`, and there is no sort key. -/
def docNameRetriever : AwsDocumentKeyRetriever :=
  ⟨fun _ => some ⟨some "DocName", some "S"⟩, fun _ => none⟩

/-- A store in which every request succeeds. -/
def okService : Service :=
  ⟨fun _ _ _ => none, fun _ _ => none, fun _ _ => none⟩

/-- A document type without optional interfaces. -/
def noCapabilities : Capabilities := ⟨.absent, .absent, none⟩

/-- The tags of the members of a wire value that are set, in the order of the SDK's
declaration. -/
def AttributeValue.tags (av : AttributeValue) : List String :=
  (if av.B.isSome then ["B"] else []) ++ (if av.BOOL.isSome then ["BOOL"] else []) ++
    (if av.BS.isSome then ["BS"] else []) ++ (if av.L.isSome then ["L"] else []) ++
    (if av.M.isSome then ["M"] else []) ++ (if av.N.isSome then ["N"] else []) ++
    (if av.NS.isSome then ["NS"] else []) ++ (if av.NULL.isSome then ["NULL"] else []) ++
    (if av.S.isSome then ["S"] else []) ++ (if av.SS.isSome then ["SS"] else [])

/-- A record whose primary key field `ID` has the wire alias `#id`. -/
def aliasedKeyRecord (id : String) : GoValue :=
  .struct [(⟨"ID", true, [("key-type", "primary"), ("aws-name", "#id")], .string⟩, .string id)]

/-- A record in the shape of the test fixture `sliceStruct3`: `DocName`, the primary key,
and `AnArray`, a slice of `int8`. -/
def sliceStruct3 (docName : String) (xs : List Int) : GoValue :=
  .struct [(⟨"DocName", true, [("key-type", "primary")], .string⟩, .string docName),
    (⟨"AnArray", true, [], .slice (.int .int8)⟩,
      .slice (.int .int8) (some (xs.map (GoValue.int .int8))))]

/-- A file system without files: `os.Open` fails on every path. -/
def noFiles : String → Option String := fun _ => none

end Awsdynamodb

/-! # Theorems -/

namespace Awsdynamodb

namespace strconv

/-! ## Lemmas on `strconv` -/

/-- The character for a decimal digit has the code of that digit. -/
theorem digitChar_toNat (d : Nat) (h : d < 10) : (Char.ofNat (48 + d)).toNat = 48 + d := by
  interval_cases d <;> rfl

/-- The character for a decimal digit is a digit character. -/
theorem digitChar_isDigit (d : Nat) (h : d < 10) : IsDigitChar (Char.ofNat (48 + d)) := by
  unfold IsDigitChar
  rw [digitChar_toNat d h]
  omega

/-- Reading a concatenation reads the first run, then the second. -/
theorem valFrom_append (st : Nat) (ds es : List Char) :
    valFrom st (ds ++ es) = valFrom (valFrom st ds) es := by
  simp [valFrom, List.foldl_append]

/-- Reading digits never decreases the accumulator. -/
theorem valFrom_mono (ds : List Char) : ∀ st, st ≤ valFrom st ds := by
  induction ds with
  | nil => intro st; simp [valFrom]
  | cons c cs ih =>
      intro st
      have h := ih (st * 10 + (c.toNat - 48))
      simp only [valFrom, List.foldl_cons] at h ⊢
      omega

/-- What `formatBits` produces with enough fuel: a non-empty run of digits whose value is
`n`, without a leading zero unless `n = 0`. -/
theorem formatBits_spec : ∀ (fuel n : Nat) (acc : List Char), n < fuel →
    ∃ ds : List Char, formatBits fuel n acc = ds ++ acc ∧ (∀ c ∈ ds, IsDigitChar c) ∧
      (∀ st, valFrom st ds = st * 10 ^ ds.length + n) ∧
      (∃ c rest, ds = c :: rest ∧ (n ≠ 0 → c ≠ '0') ∧ (n = 0 → rest = [])) := by
  intro fuel
  induction fuel with
  | zero => intro n acc h; omega
  | succ f ih =>
      intro n acc h
      have hd : n % 10 < 10 := Nat.mod_lt _ (by decide)
      by_cases h0 : n / 10 = 0
      · refine ⟨[Char.ofNat (48 + n % 10)], ?_, ?_, ?_, ?_⟩
        · simp [formatBits, h0]
        · intro c hc
          simp only [List.mem_singleton] at hc
          subst hc
          exact digitChar_isDigit _ hd
        · intro st
          simp only [valFrom, List.foldl_cons, List.foldl_nil, List.length_singleton, pow_one]
          rw [digitChar_toNat _ hd]
          omega
        · refine ⟨_, [], rfl, ?_, fun _ => rfl⟩
          intro hn hc
          have h1 : (Char.ofNat (48 + n % 10)).toNat = ('0' : Char).toNat := by rw [hc]
          rw [digitChar_toNat _ hd] at h1
          have h2 : ('0' : Char).toNat = 48 := rfl
          omega
      · have hlt : n / 10 < f := by omega
        obtain ⟨ds, hfmt, hdig, hval, c, rest, hds, hc0, _⟩ :=
          ih (n / 10) (Char.ofNat (48 + n % 10) :: acc) hlt
        refine ⟨ds ++ [Char.ofNat (48 + n % 10)], ?_, ?_, ?_, ?_⟩
        · simp [formatBits, h0, hfmt]
        · intro x hx
          rcases List.mem_append.mp hx with hx | hx
          · exact hdig x hx
          · simp only [List.mem_singleton] at hx
            subst hx
            exact digitChar_isDigit _ hd
        · intro st
          rw [valFrom_append, hval st]
          simp only [valFrom, List.foldl_cons, List.foldl_nil, List.length_append,
            List.length_singleton]
          rw [digitChar_toNat _ hd, pow_succ]
          have hn : n = 10 * (n / 10) + n % 10 := (Nat.div_add_mod n 10).symm
          have e : 48 + n % 10 - 48 = n % 10 := by omega
          rw [e]
          nlinarith [hn]
        · refine ⟨c, rest ++ [Char.ofNat (48 + n % 10)], by simp [hds], ?_, ?_⟩
          · intro _; exact hc0 h0
          · intro hn; omega

/-- The scanning loop reads a digit character as its digit. -/
theorem digitVal_of_isDigit (c : Char) (h : IsDigitChar c) : digitVal c = some (c.toNat - 48) := by
  unfold IsDigitChar at h
  simp [digitVal, h.1, h.2]

/-- A digit character is not an underscore. -/
theorem ne_underscore_of_isDigit (c : Char) (h : IsDigitChar c) : c ≠ '_' := by
  intro hc
  unfold IsDigitChar at h
  have h2 : ('_' : Char).toNat = 95 := rfl
  rw [hc, h2] at h
  omega

/-- The scanning loop on a run of decimal digits whose value fits: it returns that value
and leaves the underscore flag alone. -/
theorem scanDigits_digits (base0 : Bool) (maxVal : Nat) (hmax : maxVal ≤ maxUint64) :
    ∀ (ds : List Char) (st : Nat) (us : Bool), (∀ c ∈ ds, IsDigitChar c) →
      valFrom st ds ≤ maxVal →
      scanDigits base0 10 (maxUint64 / 10 + 1) maxVal ds st us = .ok (valFrom st ds, us) := by
  intro ds
  induction ds with
  | nil => intro st us _ _; simp [scanDigits, valFrom]
  | cons c cs ih =>
      intro st us hdig hval
      have hc : IsDigitChar c := hdig c (List.mem_cons_self _ _)
      have hcs : ∀ x ∈ cs, IsDigitChar x := fun x hx => hdig x (List.mem_cons_of_mem _ hx)
      have hstep : valFrom st (c :: cs) = valFrom (st * 10 + (c.toNat - 48)) cs := by
        simp [valFrom]
      rw [hstep] at hval ⊢
      have hle := valFrom_mono cs (st * 10 + (c.toNat - 48))
      have hd : c.toNat - 48 < 10 := by unfold IsDigitChar at hc; omega
      have hM : maxUint64 = 18446744073709551615 := by decide
      have h1 : st * 10 + (c.toNat - 48) ≤ maxUint64 := by omega
      have hcut : ¬ (st ≥ maxUint64 / 10 + 1) := by
        rw [hM] at h1 ⊢
        omega
      have hmod1 : (st * 10) % 2 ^ 64 = st * 10 := by
        apply Nat.mod_eq_of_lt
        rw [hM] at h1
        omega
      have hmod2 : (st * 10 + (c.toNat - 48)) % 2 ^ 64 = st * 10 + (c.toNat - 48) := by
        apply Nat.mod_eq_of_lt
        rw [hM] at h1
        omega
      have hnot : ¬ (st * 10 + (c.toNat - 48) < st * 10 ∨ st * 10 + (c.toNat - 48) > maxVal) := by
        omega
      rw [scanDigits]
      simp only [ne_underscore_of_isDigit c hc, false_and, if_false, digitVal_of_isDigit c hc]
      simp only [ge_iff_le, show ¬ (10 ≤ c.toNat - 48) from by omega, if_false, hmod1, hmod2]
      rw [if_neg (by simpa using hcut), if_neg hnot]
      exact ih _ us hcs hval

/-- The character with code 48 is the digit zero. -/
theorem char_eq_zero_of_toNat (c : Char) (h : c.toNat = 48) : c = '0' := by
  rw [← Char.ofNat_toNat c, h]

/-- A text that does not start with the digit zero is read in base 10, whole. -/
theorem basePrefix_of_ne_zero (c : Char) (rest : List Char) (h : c ≠ '0') :
    basePrefix (c :: rest) = (10, c :: rest) := by
  unfold basePrefix
  split
  · simp_all
  · rfl

/-- Parsing the decimal text of `n` with base 0 returns `n`, when `n` fits the bit size. -/
theorem parseUintChars_formatBits (fnName num : String) (n bitSize : Nat) (hbs : bitSize ≤ 64)
    (hfit : n ≤ 2 ^ (if bitSize = 0 then IntSize else bitSize) - 1) :
    parseUintChars fnName num (formatBits (n + 1) n []) 0 bitSize = (n, none) := by
  obtain ⟨ds, hfmt, hdig, hval, c, rest, hds, hc0, hrest⟩ :=
    formatBits_spec (n + 1) n [] (Nat.lt_succ_self n)
  rw [List.append_nil] at hfmt
  rw [hfmt]
  have hbits : (if bitSize = 0 then IntSize else bitSize) ≤ 64 := by
    split
    · simp [IntSize]
    · exact hbs
  have hmax : 2 ^ (if bitSize = 0 then IntSize else bitSize) - 1 ≤ maxUint64 := by
    unfold maxUint64
    have := Nat.pow_le_pow_right (show 0 < 2 by decide) hbits
    omega
  by_cases hn : n = 0
  · have hr := hrest hn
    subst hr
    have hv := hval 0
    rw [hds] at hv
    simp only [valFrom, List.foldl_cons, List.foldl_nil, List.length_singleton] at hv
    have hcd : IsDigitChar c := hdig c (by simp [hds])
    have hc48 : c.toNat = 48 := by unfold IsDigitChar at hcd; omega
    have hc := char_eq_zero_of_toNat c hc48
    subst hc
    subst hn
    rw [hds]
    simp [parseUintChars, basePrefix, scanDigits]
    omega
  · have hbp : basePrefix ds = (10, ds) := by rw [hds]; exact basePrefix_of_ne_zero c rest (hc0 hn)
    have hv : valFrom 0 ds = n := by rw [hval 0]; omega
    have hscan := scanDigits_digits true _ hmax ds 0 false hdig (by rw [hv]; exact hfit)
    have hne : ds ≠ [] := by rw [hds]; simp
    have hgt : ¬ bitSize > 64 := by omega
    simp only [parseUintChars, hne, if_false, hbp, if_true, hgt, not_true_eq_false, true_or,
      not_false_eq_true, decide_True, hscan, hv, Bool.false_eq_true, false_and]

/-- The decimal text of a number starts with a digit. -/
theorem formatBits_head (n : Nat) :
    ∃ c rest, formatBits (n + 1) n [] = c :: rest ∧ IsDigitChar c := by
  obtain ⟨ds, hfmt, hdig, _, c, rest, hds, _, _⟩ :=
    formatBits_spec (n + 1) n [] (Nat.lt_succ_self n)
  rw [List.append_nil] at hfmt
  exact ⟨c, rest, by rw [hfmt, hds], hdig c (by simp [hds])⟩

/-- A digit character is not a sign. -/
theorem isDigit_ne_sign (c : Char) (h : IsDigitChar c) : c ≠ '+' ∧ c ≠ '-' := by
  unfold IsDigitChar at h
  constructor
  · intro hc
    have h2 : ('+' : Char).toNat = 43 := rfl
    rw [hc, h2] at h
    omega
  · intro hc
    have h2 : ('-' : Char).toNat = 45 := rfl
    rw [hc, h2] at h
    omega

/-- The bit size in force is at least 1. -/
theorem bits_pos (bitSize : Nat) : 1 ≤ (if bitSize = 0 then IntSize else bitSize) := by
  split
  · simp [IntSize]
  · omega

/-- `ParseInt` inverts `FormatInt`: the decimal text of an integer that fits the bit size
parses, with base 0, to that integer and no error. -/
theorem ParseInt_FormatInt (i : Int) (bitSize : Nat) (hbs : bitSize ≤ 64)
    (hlo : -(2 ^ ((if bitSize = 0 then IntSize else bitSize) - 1) : Int) ≤ i)
    (hhi : i < 2 ^ ((if bitSize = 0 then IntSize else bitSize) - 1)) :
    ParseInt (FormatInt i) 0 bitSize = (i, none) := by
  have hpos := bits_pos bitSize
  generalize hb : (if bitSize = 0 then IntSize else bitSize) = bits at hlo hhi hpos
  obtain ⟨b, rfl⟩ : ∃ b, bits = b + 1 := ⟨bits - 1, by omega⟩
  simp only [Nat.add_sub_cancel] at hlo hhi
  have hpow : (2 : Nat) ^ (b + 1) = 2 * 2 ^ b := by rw [pow_succ]; ring
  have hcast : ((2 ^ b : Nat) : Int) = (2 : Int) ^ b := by push_cast; rfl
  have hfit : i.natAbs ≤ 2 ^ (if bitSize = 0 then IntSize else bitSize) - 1 := by
    rw [hb, hpow]
    have : 1 ≤ 2 ^ b := Nat.one_le_two_pow
    omega
  have hparse := fun num => parseUintChars_formatBits "ParseInt" num i.natAbs bitSize hbs hfit
  obtain ⟨c, rest, hcr, hcd⟩ := formatBits_head i.natAbs
  have hsign := isDigit_ne_sign c hcd
  by_cases hneg : i < 0
  · have hdata : (FormatInt i).data = '-' :: formatBits (i.natAbs + 1) i.natAbs [] := by
      simp [FormatInt, hneg]
    have hcut : ¬ (i.natAbs > 2 ^ b) := by omega
    simp only [ParseInt, hdata, List.head?_cons, List.tail_cons, or_true, if_true]
    simp only [hparse, hb]
    simp [hcut]
    rw [abs_of_neg hneg]
    omega
  · have hdata : (FormatInt i).data = formatBits (i.natAbs + 1) i.natAbs [] := by
      simp [FormatInt, hneg]
    have hcut : ¬ (i.natAbs ≥ 2 ^ b) := by omega
    simp only [ParseInt, hdata]
    have hbody : (if (formatBits (i.natAbs + 1) i.natAbs []).head? = some '+' ∨
        (formatBits (i.natAbs + 1) i.natAbs []).head? = some '-' then
        (formatBits (i.natAbs + 1) i.natAbs []).tail
        else formatBits (i.natAbs + 1) i.natAbs []) = formatBits (i.natAbs + 1) i.natAbs [] := by
      rw [hcr]
      simp [hsign.1, hsign.2]
    rw [hbody]
    simp only [hparse, hb]
    rw [hcr]
    simp [hcut, hsign.2]
    omega

/-- The scanning loop never returns a value above `maxVal`. -/
theorem scanDigits_le (base0 : Bool) (base cutoff maxVal : Nat) :
    ∀ (cs : List Char) (n : Nat) (us : Bool) (r : Nat × Bool), n ≤ maxVal →
      scanDigits base0 base cutoff maxVal cs n us = .ok r → r.1 ≤ maxVal := by
  intro cs
  induction cs with
  | nil =>
      intro n us r hn h
      simp only [scanDigits, Except.ok.injEq] at h
      rw [← h]
      exact hn
  | cons c cs ih =>
      intro n us r hn h
      rw [scanDigits] at h
      split at h
      · exact ih n true r hn h
      · split at h
        · cases h
        · split at h
          · cases h
          · split at h
            · cases h
            · simp only at h
              split at h
              · cases h
              · rename_i hnot
                exact ih _ us r (by omega) h

/-- A value that `ParseUint` returns without an error fits the bit size. -/
theorem parseUintChars_range (fnName num : String) (s : List Char) (base bitSize n : Nat)
    (h : parseUintChars fnName num s base bitSize = (n, none)) :
    n ≤ 2 ^ (if bitSize = 0 then IntSize else bitSize) - 1 := by
  unfold parseUintChars at h
  split at h
  · cases h
  · simp only at h
    split at h
    · cases h
    · split at h
      · cases h
      · split at h
        · cases h
        · rename_i nn us hscan
          have hle := scanDigits_le _ _ _ _ _ 0 false (nn, us) (Nat.zero_le _) hscan
          split at h
          · cases h
          · simp only [Prod.mk.injEq, and_true] at h
            rw [← h]
            exact hle

/-- A value that `ParseInt` returns without an error lies in the range of the bit size. -/
theorem ParseInt_range (s : String) (base bitSize : Nat) (v : Int)
    (h : ParseInt s base bitSize = (v, none)) :
    -(2 ^ ((if bitSize = 0 then IntSize else bitSize) - 1) : Int) ≤ v ∧
      v < 2 ^ ((if bitSize = 0 then IntSize else bitSize) - 1) := by
  unfold ParseInt at h
  by_cases h0 : s.data = []
  · rw [if_pos h0] at h
    cases h
  · rw [if_neg h0] at h
    simp only at h
    generalize parseUintChars "ParseInt" s
      (if s.data.head? = some '+' ∨ s.data.head? = some '-' then s.data.tail else s.data)
      base bitSize = r at h
    generalize decide (s.data.head? = some '-') = neg at h
    have hcast : ((2 : Int) ^ ((if bitSize = 0 then IntSize else bitSize) - 1)) =
        (((2 : Nat) ^ ((if bitSize = 0 then IntSize else bitSize) - 1) : Nat) : Int) := by
      push_cast; rfl
    rw [hcast]
    have hpos : 0 < (2 : Nat) ^ ((if bitSize = 0 then IntSize else bitSize) - 1) :=
      Nat.pos_pow_of_pos _ (by decide)
    generalize (2 : Nat) ^ ((if bitSize = 0 then IntSize else bitSize) - 1) = cutoff at h hpos
    split_ifs at h with a b c d
    · simp only [Prod.mk.injEq] at h
      rw [h.2] at a
      simp at a
    · simp at h
    · simp at h
    · simp only [Prod.mk.injEq, and_true] at h
      simp only [d, and_true, true_and, not_lt, gt_iff_lt] at c
      omega
    · simp only [Prod.mk.injEq, and_true] at h
      simp only [Bool.not_eq_true] at d
      simp only [d, true_and, ge_iff_le, not_le] at b
      omega

/-- The scanning loop on a run of decimal digits whose value exceeds `maxVal`: it ends
with the range error. -/
theorem scanDigits_digits_over (base0 : Bool) (maxVal : Nat) (hmax : maxVal ≤ maxUint64) :
    ∀ (ds : List Char) (st : Nat) (us : Bool), (∀ c ∈ ds, IsDigitChar c) →
      st ≤ maxVal → maxVal < valFrom st ds →
      scanDigits base0 10 (maxUint64 / 10 + 1) maxVal ds st us = .error (maxVal, .ErrRange) := by
  intro ds
  induction ds with
  | nil => intro st us _ hst hval; simp [valFrom] at hval; omega
  | cons c cs ih =>
      intro st us hdig hst hval
      have hc : IsDigitChar c := hdig c (List.mem_cons_self _ _)
      have hcs : ∀ x ∈ cs, IsDigitChar x := fun x hx => hdig x (List.mem_cons_of_mem _ hx)
      have hstep : valFrom st (c :: cs) = valFrom (st * 10 + (c.toNat - 48)) cs := by
        simp [valFrom]
      rw [hstep] at hval
      have hd : c.toNat - 48 < 10 := by unfold IsDigitChar at hc; omega
      have hM : maxUint64 = 18446744073709551615 := by decide
      rw [scanDigits]
      simp only [ne_underscore_of_isDigit c hc, false_and, if_false, digitVal_of_isDigit c hc]
      simp only [ge_iff_le, show ¬ (10 ≤ c.toNat - 48) from by omega, if_false]
      by_cases hcut : maxUint64 / 10 + 1 ≤ st
      · rw [if_pos hcut]
      · rw [if_neg hcut]
        have hmod1 : (st * 10) % 2 ^ 64 = st * 10 := by
          apply Nat.mod_eq_of_lt
          rw [hM] at hcut
          omega
        simp only [hmod1]
        by_cases hov : (st * 10 + (c.toNat - 48)) % 2 ^ 64 < st * 10 ∨
            (st * 10 + (c.toNat - 48)) % 2 ^ 64 > maxVal
        · rw [if_pos hov]
        · rw [if_neg hov]
          have hlt : st * 10 + (c.toNat - 48) < 2 ^ 64 := by
            by_contra hge
            have h2 : (st * 10 + (c.toNat - 48)) % 2 ^ 64 = st * 10 + (c.toNat - 48) - 2 ^ 64 := by
              rw [Nat.mod_eq_sub_mod (by omega)]
              apply Nat.mod_eq_of_lt
              rw [hM] at hcut
              omega
            rw [h2] at hov
            omega
          have hmod2 : (st * 10 + (c.toNat - 48)) % 2 ^ 64 = st * 10 + (c.toNat - 48) :=
            Nat.mod_eq_of_lt hlt
          rw [hmod2] at hov ⊢
          exact ih _ us hcs (by omega) hval

/-- Parsing the decimal text of `n` with base 0 ends with the range error, when `n` does
not fit the bit size. -/
theorem parseUintChars_formatBits_over (fnName num : String) (n bitSize : Nat)
    (hbs : bitSize ≤ 64) (hover : 2 ^ (if bitSize = 0 then IntSize else bitSize) - 1 < n) :
    parseUintChars fnName num (formatBits (n + 1) n []) 0 bitSize =
      (2 ^ (if bitSize = 0 then IntSize else bitSize) - 1, some ⟨fnName, num, .ErrRange⟩) := by
  obtain ⟨ds, hfmt, hdig, hval, c, rest, hds, hc0, hrest⟩ :=
    formatBits_spec (n + 1) n [] (Nat.lt_succ_self n)
  rw [List.append_nil] at hfmt
  rw [hfmt]
  have hbits : (if bitSize = 0 then IntSize else bitSize) ≤ 64 := by
    split
    · simp [IntSize]
    · exact hbs
  have hmax : 2 ^ (if bitSize = 0 then IntSize else bitSize) - 1 ≤ maxUint64 := by
    unfold maxUint64
    have := Nat.pow_le_pow_right (show 0 < 2 by decide) hbits
    omega
  have hn : n ≠ 0 := by omega
  have hbp : basePrefix ds = (10, ds) := by rw [hds]; exact basePrefix_of_ne_zero c rest (hc0 hn)
  have hv : valFrom 0 ds = n := by rw [hval 0]; omega
  have hscan := scanDigits_digits_over true _ hmax ds 0 false hdig (Nat.zero_le _)
    (by rw [hv]; exact hover)
  have hne : ds ≠ [] := by rw [hds]; simp
  have hgt : ¬ bitSize > 64 := by omega
  simp only [parseUintChars, hne, if_false, hbp, if_true, hgt, not_true_eq_false, true_or,
    not_false_eq_true, decide_True, hscan]

/-- The decimal text of an integer outside the range of the bit size: `ParseInt`, with
base 0, returns the range error. -/
theorem ParseInt_FormatInt_over (i : Int) (bitSize : Nat) (hbs : bitSize ≤ 64)
    (hwide : 2 ≤ (if bitSize = 0 then IntSize else bitSize))
    (hout : i < -(2 ^ ((if bitSize = 0 then IntSize else bitSize) - 1) : Int) ∨
      2 ^ ((if bitSize = 0 then IntSize else bitSize) - 1) ≤ i) :
    (ParseInt (FormatInt i) 0 bitSize).2 = some ⟨"ParseInt", FormatInt i, .ErrRange⟩ := by
  have hpos := bits_pos bitSize
  generalize hb : (if bitSize = 0 then IntSize else bitSize) = bits at hout hpos hwide
  obtain ⟨b, rfl⟩ : ∃ b, bits = b + 1 := ⟨bits - 1, by omega⟩
  simp only [Nat.add_sub_cancel] at hout
  have hpow : (2 : Nat) ^ (b + 1) = 2 * 2 ^ b := by rw [pow_succ]; ring
  have hcast : ((2 ^ b : Nat) : Int) = (2 : Int) ^ b := by push_cast; rfl
  have hone : 2 ≤ 2 ^ b := by
    obtain ⟨b1, rfl⟩ : ∃ b1, b = b1 + 1 := ⟨b - 1, by omega⟩
    have : 1 ≤ 2 ^ b1 := Nat.one_le_two_pow
    rw [pow_succ]
    omega
  obtain ⟨c, rest, hcr, hcd⟩ := formatBits_head i.natAbs
  have hsign := isDigit_ne_sign c hcd
  have hparse : ∀ num, ∃ r, parseUintChars "ParseInt" num
      (formatBits (i.natAbs + 1) i.natAbs []) 0 bitSize = r ∧
      (r.2 = none ∨ r.2 = some ⟨"ParseInt", num, .ErrRange⟩) ∧
      (i < 0 → r.1 > 2 ^ b) ∧ (¬ i < 0 → r.1 ≥ 2 ^ b) := by
    intro num
    rw [← hcast] at hout
    by_cases hfit : i.natAbs ≤ 2 ^ (if bitSize = 0 then IntSize else bitSize) - 1
    · refine ⟨_, parseUintChars_formatBits "ParseInt" num i.natAbs bitSize hbs hfit,
        Or.inl rfl, ?_, ?_⟩
      · intro h
        show i.natAbs > 2 ^ b
        omega
      · intro h
        show i.natAbs ≥ 2 ^ b
        omega
    · have hover : 2 ^ (if bitSize = 0 then IntSize else bitSize) - 1 < i.natAbs := by omega
      refine ⟨_, parseUintChars_formatBits_over "ParseInt" num i.natAbs bitSize hbs hover,
        Or.inr rfl, ?_, ?_⟩
      · intro h
        show 2 ^ (if bitSize = 0 then IntSize else bitSize) - 1 > 2 ^ b
        rw [hb, hpow]
        rw [hb, hpow] at hover
        omega
      · intro h
        show 2 ^ (if bitSize = 0 then IntSize else bitSize) - 1 ≥ 2 ^ b
        rw [hb, hpow]
        omega
  obtain ⟨r, hr, herr, hneg1, hpos1⟩ := hparse (FormatInt i)
  have hshort : ¬ (r.2.isSome = true ∧ r.2.map NumError.Err ≠ some .ErrRange) := by
    rcases herr with h | h <;> simp [h]
  by_cases hneg : i < 0
  · have hdata : (FormatInt i).data = '-' :: formatBits (i.natAbs + 1) i.natAbs [] := by
      simp [FormatInt, hneg]
    simp only [ParseInt, hdata, List.head?_cons, List.tail_cons, or_true, if_true]
    simp only [hr, hb, Nat.add_sub_cancel]
    rw [if_neg (by simp), if_neg hshort, if_neg (by simp), if_pos ⟨by simp, hneg1 hneg⟩]
  · have hdata : (FormatInt i).data = formatBits (i.natAbs + 1) i.natAbs [] := by
      simp [FormatInt, hneg]
    simp only [ParseInt, hdata]
    have hbody : (if (formatBits (i.natAbs + 1) i.natAbs []).head? = some '+' ∨
        (formatBits (i.natAbs + 1) i.natAbs []).head? = some '-' then
        (formatBits (i.natAbs + 1) i.natAbs []).tail
        else formatBits (i.natAbs + 1) i.natAbs []) = formatBits (i.natAbs + 1) i.natAbs [] := by
      rw [hcr]
      simp [hsign.1, hsign.2]
    rw [hbody]
    simp only [hr, hb, Nat.add_sub_cancel]
    have hh : ¬ ((formatBits (i.natAbs + 1) i.natAbs []).head? = some '-') := by
      rw [hcr]; simp [hsign.2]
    rw [if_neg (by rw [hcr]; simp), if_neg hshort, if_pos ⟨by simp [hh], hpos1 hneg⟩]

/-- The scanning loop on a text that holds a character which is neither a digit, a letter
nor an underscore ends with an error: the syntax error, or the range error when the
digits before that character overflow first. -/
theorem scanDigits_nondigit (base0 : Bool) (base cutoff maxVal : Nat) (x : Char)
    (hx : digitVal x = none) (hu : x ≠ '_') :
    ∀ (cs : List Char) (n : Nat) (us : Bool), x ∈ cs →
      scanDigits base0 base cutoff maxVal cs n us = .error (0, .ErrSyntax) ∨
        scanDigits base0 base cutoff maxVal cs n us = .error (maxVal, .ErrRange) := by
  intro cs
  induction cs with
  | nil => intro n us h; exact absurd h (List.not_mem_nil _)
  | cons c cs ih =>
      intro n us h
      by_cases hc : c = x
      · subst hc
        left
        have hnu : ¬ (c = '_' ∧ base0 = true) := fun hh => hu hh.1
        rw [scanDigits, if_neg hnu, hx]
      · have hmem : x ∈ cs := by
          rcases List.mem_cons.mp h with h1 | h1
          · exact absurd h1.symm hc
          · exact h1
        rw [scanDigits]
        split
        · exact ih n true hmem
        · split
          · exact Or.inl rfl
          · split
            · exact Or.inl rfl
            · split
              · exact Or.inr rfl
              · simp only
                split
                · exact Or.inr rfl
                · exact ih _ us hmem

/-- A character that stands for no digit is not part of the base prefix: the text left
after the prefix still holds it. -/
theorem basePrefix_nondigit (x : Char) (hx : digitVal x = none) (s : List Char) (h : x ∈ s) :
    x ∈ (basePrefix s).2 := by
  have hlow : ¬ (97 ≤ lower x ∧ lower x ≤ 122) := by
    intro hl
    unfold digitVal at hx
    split at hx
    · cases hx
    · cases hx
  have h0 : x ≠ '0' := by
    intro he
    rw [he] at hx
    exact absurd hx (by decide)
  unfold basePrefix
  split
  · rename_i rest
    have hrest : x ∈ rest := by
      rcases List.mem_cons.mp h with h1 | h1
      · exact absurd h1 h0
      · exact h1
    split
    · rename_i c1 rest2
      split_ifs with h1 h2 h3
      · rcases List.mem_cons.mp hrest with hc | hc
        · rw [← hc] at h1; omega
        · exact hc
      · rcases List.mem_cons.mp hrest with hc | hc
        · rw [← hc] at h2; omega
        · exact hc
      · rcases List.mem_cons.mp hrest with hc | hc
        · rw [← hc] at h3; omega
        · exact hc
      · exact hrest
    · exact hrest
  · exact h

/-- With base 0, `ParseUint` returns an error for a text that holds a character which is
neither a digit, a letter nor an underscore: the syntax error, or the range error along
with the largest value of the bit size. -/
theorem parseUintChars_nondigit (fnName num : String) (x : Char) (hx : digitVal x = none)
    (hu : x ≠ '_') (s : List Char) (bitSize : Nat) (hbs : bitSize ≤ 64) (h : x ∈ s) :
    (parseUintChars fnName num s 0 bitSize).2 = some ⟨fnName, num, .ErrSyntax⟩ ∨
      parseUintChars fnName num s 0 bitSize =
        (2 ^ (if bitSize = 0 then IntSize else bitSize) - 1, some ⟨fnName, num, .ErrRange⟩) := by
  have hne : s ≠ [] := by
    intro he; rw [he] at h; exact absurd h (List.not_mem_nil _)
  have hgt : ¬ bitSize > 64 := by omega
  have hscan := scanDigits_nondigit true (basePrefix s).1 (maxUint64 / (basePrefix s).1 + 1)
    (2 ^ (if bitSize = 0 then IntSize else bitSize) - 1) x hx hu (basePrefix s).2 0 false
    (basePrefix_nondigit x hx s h)
  simp only [parseUintChars, hne, if_false, if_true, hgt, not_true_eq_false, true_or,
    not_false_eq_true, decide_True]
  rcases hscan with hs | hs <;> rw [hs]
  · exact Or.inl rfl
  · exact Or.inr rfl

/-- With base 0 and a bit size of 2 or more, `ParseInt` returns an error for a text that
holds a character which is neither a digit, a letter, an underscore nor a sign. -/
theorem ParseInt_nondigit (x : Char) (hx : digitVal x = none) (hu : x ≠ '_')
    (hplus : x ≠ '+') (hminus : x ≠ '-') (s : String) (bitSize : Nat) (hbs : bitSize ≤ 64)
    (hwide : 2 ≤ (if bitSize = 0 then IntSize else bitSize)) (h : x ∈ s.data) :
    ∃ e, (ParseInt s 0 bitSize).2 = some e := by
  have hne : s.data ≠ [] := by
    intro he; rw [he] at h; exact absurd h (List.not_mem_nil _)
  have hbody : x ∈ (if s.data.head? = some '+' ∨ s.data.head? = some '-' then s.data.tail
      else s.data) := by
    split
    · rename_i hsign
      rcases hd : s.data with _ | ⟨c, rest⟩
      · exact absurd hd hne
      · rw [hd] at h hsign
        simp only [List.head?_cons, Option.some.injEq] at hsign
        rcases List.mem_cons.mp h with h1 | h1
        · rcases hsign with hs | hs
          · exact absurd (h1.trans hs) hplus
          · exact absurd (h1.trans hs) hminus
        · exact h1
    · exact h
  have hp := parseUintChars_nondigit "ParseInt" s x hx hu _ bitSize hbs hbody
  unfold ParseInt
  rw [if_neg hne]
  simp only
  generalize parseUintChars "ParseInt" s
    (if s.data.head? = some '+' ∨ s.data.head? = some '-' then s.data.tail else s.data)
    0 bitSize = r at hp
  generalize hb : (if bitSize = 0 then IntSize else bitSize) = bits at hp hwide
  obtain ⟨b, rfl⟩ : ∃ b, bits = b + 2 := ⟨bits - 2, by omega⟩
  have hpow : (2 : Nat) ^ (b + 2) = 4 * 2 ^ b := by rw [pow_succ, pow_succ]; ring
  have hpow1 : (2 : Nat) ^ (b + 2 - 1) = 2 * 2 ^ b := by
    rw [show b + 2 - 1 = b + 1 from rfl, pow_succ]; ring
  have hone : 1 ≤ 2 ^ b := Nat.one_le_two_pow
  rcases hp with hp | hp
  · rw [if_pos (by rw [hp]; simp)]
    exact ⟨_, hp⟩
  · rw [hp]
    rw [if_neg (by simp)]
    simp only [hpow, hpow1]
    split_ifs with h1 h2
    · exact ⟨_, rfl⟩
    · exact ⟨_, rfl⟩
    · exfalso
      rcases hneg : decide (s.data.head? = some '-') with _ | _
      · rw [hneg] at h1
        simp only [true_and, ge_iff_le, not_le] at h1
        omega
      · rw [hneg] at h2
        simp only [true_and, gt_iff_lt, not_lt] at h2
        omega

/-- Parsing the decimal text of `n` with base 10 returns `n`, when `n` fits the bit size. -/
theorem parseUintChars_formatBits_base10 (fnName num : String) (n bitSize : Nat)
    (hbs : bitSize ≤ 64) (hfit : n ≤ 2 ^ (if bitSize = 0 then IntSize else bitSize) - 1) :
    parseUintChars fnName num (formatBits (n + 1) n []) 10 bitSize = (n, none) := by
  obtain ⟨ds, hfmt, hdig, hval, c, rest, hds, _, _⟩ :=
    formatBits_spec (n + 1) n [] (Nat.lt_succ_self n)
  rw [List.append_nil] at hfmt
  rw [hfmt]
  have hbits : (if bitSize = 0 then IntSize else bitSize) ≤ 64 := by
    split
    · simp [IntSize]
    · exact hbs
  have hmax : 2 ^ (if bitSize = 0 then IntSize else bitSize) - 1 ≤ maxUint64 := by
    unfold maxUint64
    have := Nat.pow_le_pow_right (show 0 < 2 by decide) hbits
    omega
  have hv : valFrom 0 ds = n := by rw [hval 0]; omega
  have hscan := scanDigits_digits false _ hmax ds 0 false hdig (by rw [hv]; exact hfit)
  have hne : ds ≠ [] := by rw [hds]; simp
  have hgt : ¬ bitSize > 64 := by omega
  have h10 : ¬ ((10 : Nat) = 0) := by decide
  have hb : (10 : Nat) = 0 ∨ (2 ≤ 10 ∧ 10 ≤ 36) := Or.inr ⟨by decide, by decide⟩
  simp only [parseUintChars, hne, if_false, h10, hb, not_true_eq_false, hgt,
    not_false_eq_true, decide_False, hscan, hv, Bool.false_eq_true, false_and]
  rw [if_neg (by decide)]

/-- The function `Atoi` reads the decimal text of a natural number below `2 ^ 63` back. -/
theorem Atoi_FormatInt (n : Nat) (h : n < 2 ^ 63) :
    Atoi (FormatInt (n : Int)) = ((n : Int), none) := by
  have hfit : n ≤ 2 ^ (if (0 : Nat) = 0 then IntSize else 0) - 1 := by
    simp only [if_true, IntSize]
    omega
  have hparse := parseUintChars_formatBits_base10 "ParseInt" (FormatInt (n : Int)) n 0
    (by decide) hfit
  obtain ⟨c, rest, hcr, hcd⟩ := formatBits_head n
  have hsign := isDigit_ne_sign c hcd
  have hneg : ¬ ((n : Int) < 0) := Int.not_lt.mpr (Int.ofNat_nonneg n)
  have hdata : (FormatInt (n : Int)).data = formatBits (n + 1) n [] := by
    simp [FormatInt, hneg]
  have hbody : (if (formatBits (n + 1) n []).head? = some '+' ∨
      (formatBits (n + 1) n []).head? = some '-' then (formatBits (n + 1) n []).tail
      else formatBits (n + 1) n []) = formatBits (n + 1) n [] := by
    rw [hcr]
    simp [hsign.1, hsign.2]
  have hp : ParseInt (FormatInt (n : Int)) 10 0 = ((n : Int), none) := by
    simp only [ParseInt, hdata]
    rw [hbody]
    simp only [hparse]
    rw [hcr]
    have hcut : ¬ (n ≥ 2 ^ (IntSize - 1)) := by
      simp only [IntSize]
      omega
    simp [hcut, hsign.2]
  simp [Atoi, hp]

end strconv

/-! ## Lemmas on the codec -/

/-- The table `nSize` gives a signed kind at most 64 bits. -/
theorem nSize_int_le (k : IntKind) : nSize k.Kind ≤ 64 := by
  cases k <;> simp [nSize, IntKind.Kind]

/-- The bit size in force for a signed kind is the width of the kind. -/
theorem nSize_int_bits (k : IntKind) :
    (if nSize k.Kind = 0 then strconv.IntSize else nSize k.Kind) = k.bits := by
  cases k <;> simp [nSize, IntKind.Kind, IntKind.bits, strconv.IntSize]

/-- The call `SetInt` stores an in-range integer unchanged. -/
theorem wrap_of_inRange (k : IntKind) (n : Int) (h : k.inRange n) :
    (n + 2 ^ (k.bits - 1)) % 2 ^ k.bits - 2 ^ (k.bits - 1) = n := by
  unfold IntKind.inRange at h
  cases k <;> simp only [IntKind.bits] at h ⊢ <;> norm_num at h ⊢ <;> omega

/-- The numeric cases of the decoder, on the decimal text of an in-range signed integer,
give the integer back. -/
theorem marshalNumber_FormatInt (lib : GoLib) (k : IntKind) (n : Int) (h : k.inRange n) :
    marshalNumber lib (some (strconv.FormatInt n)) (.int k) = .ok (.int k n, none) := by
  have hparse : strconv.ParseInt (strconv.FormatInt n) 0 (nSize k.Kind) = (n, none) := by
    apply strconv.ParseInt_FormatInt n _ (nSize_int_le k)
    · rw [nSize_int_bits]; exact h.1
    · rw [nSize_int_bits]; exact h.2
  have hu : isUintKind k.Kind = false := by cases k <;> rfl
  have hi : isIntKind k.Kind = true := by cases k <;> rfl
  simp only [marshalNumber, GoType.Kind, hu, hi, hparse, reflectSetInt, wrap_of_inRange k n h]
  simp

/-- The decoder on a pointer that is not nil is the switch, given the two loops. -/
theorem marshalToGoValue_some (lib : GoLib) (av : AttributeValue) (t : GoType) :
    marshalToGoValue lib (some av) t =
      marshalToGoValueSwitch lib av t
        (match av.M with
          | none => .ok ([], none)
          | some m => decodeEntries lib (decodeKeyType t) (decodeItemType t) m [])
        (match av.L with
          | none => .ok ([], none)
          | some l => decodeList lib (decodeItemType t) l) := by
  cases av with
  | mk B BOOL BS L M N NS NULL S SS =>
      rw [marshalToGoValue]
      cases M <;> cases L <;> rw [marshalToGoValueBody] <;> rfl

/-- For a numeric target kind the decoder is `marshalNumber` on the member `N`. -/
theorem marshalToGoValue_numeric (lib : GoLib) (av : AttributeValue) (t : GoType)
    (h : isUintKind t.Kind = true ∨ isIntKind t.Kind = true ∨ isFloatKind t.Kind = true) :
    marshalToGoValue lib (some av) t = marshalNumber lib av.N t := by
  have hs : t.Kind ≠ Kind.String := by
    intro hk; rw [hk] at h; simp [isUintKind, isIntKind, isFloatKind] at h
  have hb : t.Kind ≠ Kind.Bool := by
    intro hk; rw [hk] at h; simp [isUintKind, isIntKind, isFloatKind] at h
  have hf : t.Kind ≠ Kind.Interface := by
    intro hk; rw [hk] at h; simp [isUintKind, isIntKind, isFloatKind] at h
  rw [marshalToGoValue_some]
  simp only [marshalToGoValueSwitch, hs, hb, hf, false_and, false_or, if_false]
  rw [if_pos]
  rcases h with h | h | h
  · exact Or.inl h
  · exact Or.inr (Or.inl h)
  · exact Or.inr (Or.inr h)

/-- Every error of the numeric cases comes with the zero value of the target type. -/
theorem marshalNumber_error_zero (lib : GoLib) (n : Option String) (t : GoType) (z : GoValue)
    (e : GoError) (h : marshalNumber lib n t = .ok (z, some e)) : z = zeroValue t := by
  unfold marshalNumber at h
  simp only at h
  split at h
  · split at h
    · cases h
    · split at h
      · cases h; rfl
      · split at h <;> cases h
  · split at h
    · split at h
      · cases h
      · split at h
        · cases h; rfl
        · split at h <;> cases h
    · split at h
      · cases h
      · split at h
        · cases h; rfl
        · split at h
          · split at h <;> cases h
          · split at h <;> cases h

/-- Every error of the decoder comes with the zero value of the target type. -/
theorem marshalToGoValue_error_zero (lib : GoLib) (a : Option AttributeValue) (t : GoType)
    (z : GoValue) (e : GoError) (h : marshalToGoValue lib a t = .ok (z, some e)) :
    z = zeroValue t := by
  cases a with
  | none =>
      rw [marshalToGoValue] at h
      split at h <;> cases h
  | some av =>
      rw [marshalToGoValue_some] at h
      unfold marshalToGoValueSwitch at h
      simp only at h
      split at h
      · split at h
        · cases h
        · split at h <;> cases h
      · split at h
        · split at h
          · cases h
          · split at h <;> cases h
        · split at h
          · exact marshalNumber_error_zero lib _ t z e h
          · split at h
            · split at h
              · cases h
              · cases h; rfl
              · cases h
            · split at h
              · split at h
                · split at h <;> cases h
                · split at h
                  · split at h
                    · cases h
                    · cases h; rfl
                    · cases h
                  · split at h
                    · cases h; rfl
                    · split at h
                      · split at h
                        · cases h
                        · cases h; rfl
                        · cases h
                      · cases h
              · cases h

/-- No field of `reflect.Value` carries a tag, so the lookup that `UnmarshalAWS` makes
always falls back to the field name. -/
theorem tagLookup_reflectValue (fName tag : String) :
    tagLookup (some reflectValueType) fName tag = fName := by
  have h : GetTagByFieldName (some reflectValueType) fName tag = none := by
    simp only [GetTagByFieldName, reflectValueType]
    rcases hfind : List.find? (fun f => f.Name == fName)
        [(⟨"typ", false, [], .ptr (.struct [])⟩ : StructField GoType),
          ⟨"ptr", false, [], .unsafePointer⟩, ⟨"flag", false, [], .uint .uintptr⟩] with _ | f
    · rw [hfind]
    · have hmem := List.mem_of_find?_eq_some hfind
      rw [hfind]
      simp only [List.mem_cons, List.mem_singleton, List.not_mem_nil, or_false] at hmem
      rcases hmem with rfl | rfl | rfl <;> rfl
  simp [tagLookup, h]

/-- Removing the entries under `k` does not change the lookup of another key. -/
theorem lookup_filter_ne (doc : WireDoc) (k name : String) (h : name ≠ k) :
    (doc.filter (fun p => p.1 != k)).lookup name = doc.lookup name := by
  induction doc with
  | nil => rfl
  | cons p rest ih =>
      obtain ⟨k0, x0⟩ := p
      by_cases hk : k0 = k
      · subst hk
        have hne : (name == k0) = false := by simpa using h
        simp [List.filter, List.lookup, hne, ih]
      · have hb : (k0 != k) = true := by simpa using hk
        simp only [List.filter, hb, List.lookup, ih]

/-- After removing the entries under `k`, the lookup of `k` finds nothing. -/
theorem lookup_filter_self (doc : WireDoc) (k : String) :
    (doc.filter (fun p => p.1 != k)).lookup k = none := by
  induction doc with
  | nil => rfl
  | cons p rest ih =>
      obtain ⟨k0, x0⟩ := p
      by_cases hk : k0 = k
      · subst hk
        simp [List.filter, ih]
      · have hb : (k0 != k) = true := by simpa using hk
        have hne : (k == k0) = false := by simpa using (fun h => hk h.symm)
        simp only [List.filter, hb, List.lookup, hne, ih]

/-- An entry found by lookup is an entry of the document. -/
theorem mem_of_lookup (doc : WireDoc) (k : String) (x : Option AttributeValue)
    (h : doc.lookup k = some x) : (k, x) ∈ doc := by
  induction doc with
  | nil => cases h
  | cons p rest ih =>
      obtain ⟨k0, x0⟩ := p
      by_cases hk : k = k0
      · subst hk
        simp [List.lookup] at h
        subst h
        exact List.mem_cons_self _ _
      · have hne : (k == k0) = false := by simpa using hk
        simp only [List.lookup, hne] at h
        exact List.mem_cons_of_mem _ (ih h)

/-- The struct loop does not see an entry whose decoding returns an error. -/
theorem unmarshalFields_filter (lib : GoLib) (doc : WireDoc) (k : String)
    (fs : List (StructField GoType))
    (hfail : ∀ x, (k, x) ∈ doc → ∀ f ∈ fs, f.exported = true → f.Name = k →
      ∃ z e, marshalToGoValue lib x f.Typ = .ok (z, some e)) :
    unmarshalFields lib doc fs = unmarshalFields lib (doc.filter (fun p => p.1 != k)) fs := by
  induction fs with
  | nil => rfl
  | cons f rest ih =>
      have ih' := ih (fun x hx g hg => hfail x hx g (List.mem_cons_of_mem _ hg))
      rw [unmarshalFields, unmarshalFields, ih', tagLookup_reflectValue]
      by_cases hexp : f.exported = true
      · by_cases hname : f.Name = k
        · rw [hname, lookup_filter_self]
          simp only [hexp, if_true]
          rcases hl : List.lookup k doc with _ | x
          · rfl
          · obtain ⟨z, e, hze⟩ :=
              hfail x (mem_of_lookup doc k x hl) f (List.mem_cons_self _ _) hexp hname
            simp only [hze]
        · rw [lookup_filter_ne doc k f.Name hname]
      · simp [hexp]

/-- The map loop does not see an entry whose decoding returns an error. -/
theorem unmarshalEntries_filter (lib : GoLib) (kt et : GoType) (k : String) (doc : WireDoc) :
    ∀ acc : List (GoValue × GoValue),
      (∀ x, (k, x) ∈ doc → ∃ z e, marshalToGoValue lib x et = .ok (z, some e)) →
      unmarshalEntries lib kt et doc acc =
        unmarshalEntries lib kt et (doc.filter (fun p => p.1 != k)) acc := by
  induction doc with
  | nil => intro acc _; rfl
  | cons p rest ih =>
      intro acc hfail
      obtain ⟨k0, x0⟩ := p
      have hrest : ∀ x, (k, x) ∈ rest → ∃ z e, marshalToGoValue lib x et = .ok (z, some e) :=
        fun x hx => hfail x (List.mem_cons_of_mem _ hx)
      by_cases hk : k0 = k
      · subst hk
        obtain ⟨z, e, hze⟩ := hfail x0 (List.mem_cons_self _ _)
        have hfilter : List.filter (fun p => p.1 != k0) ((k0, x0) :: rest) =
            List.filter (fun p => p.1 != k0) rest := by simp [List.filter]
        rw [hfilter, unmarshalEntries, hze]
        exact ih acc hrest
      · have hb : (k0 != k) = true := by simpa using hk
        have hfilter : List.filter (fun p => p.1 != k) ((k0, x0) :: rest) =
            (k0, x0) :: List.filter (fun p => p.1 != k) rest := by simp [List.filter, hb]
        rw [hfilter, unmarshalEntries, unmarshalEntries]
        rcases marshalToGoValue lib x0 et with p | ⟨v, _ | e⟩
        · rfl
        · simp only
          rcases reflectSet kt (GoValue.string k0) with p1 | kv <;>
            rcases reflectSet et v with p2 | ev <;> simp only
          exact ih _ hrest
        · exact ih acc hrest

/-- The encoder on an allocated slice is the sequence case with the list loop. -/
theorem marshalToAttributeValue_slice (lib : GoLib) (e : GoType) (xs : List GoValue) :
    marshalToAttributeValue lib (.slice e (some xs)) =
      marshalSequence lib (.slice e (some xs)) e xs (marshalList lib xs) := by
  rw [marshalToAttributeValue]

/-- The encoder on an array is the sequence case with the list loop. -/
theorem marshalToAttributeValue_array (lib : GoLib) (e : GoType) (xs : List GoValue) :
    marshalToAttributeValue lib (.array e xs) =
      marshalSequence lib (.array e xs) e xs (marshalList lib xs) := by
  rw [marshalToAttributeValue]

/-- A list that is not empty has a length other than 0. -/
theorem length_ne_zero_of_ne_nil {α : Type} (xs : List α) (h : xs ≠ []) : ¬ xs.length = 0 := by
  intro h0
  exact h (List.length_eq_zero.mp h0)

/-- The only type of kind `String` is `string`. -/
theorem kind_string_iff (e : GoType) (h : e.Kind = Kind.String) : e = .string := by
  cases e <;> simp only [GoType.Kind] at h <;> first | rfl | (rename_i k; cases k <;> cases h) | cases h

/-- The strings held by a list of string values are those strings. -/
theorem stringElems_map (ss : List String) : stringElems (ss.map GoValue.string) = some ss := by
  induction ss with
  | nil => rfl
  | cons s rest ih => simp [stringElems, ih]

/-- A list of values of type `string` is a list of string values. -/
theorem strings_of_typed (xs : List GoValue) (h : ∀ x ∈ xs, x.typeOf = some GoType.string) :
    ∃ ss : List String, xs = ss.map GoValue.string := by
  induction xs with
  | nil => exact ⟨[], rfl⟩
  | cons x rest ih =>
      obtain ⟨ss, hss⟩ := ih (fun y hy => h y (List.mem_cons_of_mem _ hy))
      have hx := h x (List.mem_cons_self _ _)
      cases x <;> simp only [GoValue.typeOf, Option.some.injEq] at hx <;> try cases hx
      rename_i s
      exact ⟨s :: ss, by simp [hss]⟩

/-- The list loop yields the element encodings, in order, when no element panics. -/
theorem marshalList_of_forall (lib : GoLib) (xs : List GoValue) (l : List (Option AttributeValue))
    (h : List.Forall₂ (fun x a => marshalToAttributeValue lib x = .ok a) xs l) :
    marshalList lib xs = .ok l := by
  induction h with
  | nil => rw [marshalList]
  | cons hx _ ih => rw [marshalList, hx, ih]

/-- When no element panics, the element encodings form a list. -/
theorem forall2_of_all_ok (lib : GoLib) (xs : List GoValue)
    (h : ∀ x ∈ xs, ∃ a, marshalToAttributeValue lib x = .ok a) :
    ∃ l, List.Forall₂ (fun x a => marshalToAttributeValue lib x = .ok a) xs l := by
  induction xs with
  | nil => exact ⟨[], List.Forall₂.nil⟩
  | cons x rest ih =>
      obtain ⟨l, hl⟩ := ih (fun y hy => h y (List.mem_cons_of_mem _ hy))
      obtain ⟨a, ha⟩ := h x (List.mem_cons_self _ _)
      exact ⟨a :: l, List.Forall₂.cons ha hl⟩

/-- The sequence case for a non-empty slice of strings. -/
theorem marshalSequence_strings (lib : GoLib) (ss : List String) (hne : ss.map GoValue.string ≠ [])
    (enc : Except Panic (List (Option AttributeValue))) :
    marshalSequence lib (.slice .string (some (ss.map GoValue.string))) .string
      (ss.map GoValue.string) enc = .ok (some (.ofSS ss)) := by
  simp only [marshalSequence, length_ne_zero_of_ne_nil _ hne, if_false, GoType.Kind,
    asStringSlice, Option.getD_some, stringElems_map]

/-- The sequence case for a non-empty sequence whose elements go to a number set. -/
theorem marshalSequence_numbers (lib : GoLib) (whole : GoValue) (e : GoType) (xs : List GoValue)
    (hne : xs ≠ []) (hk : isNumberSetKind e.Kind = true)
    (enc : Except Panic (List (Option AttributeValue))) :
    marshalSequence lib whole e xs enc = .ok (some (.ofNS (xs.map (Sprint lib)))) := by
  simp only [marshalSequence, length_ne_zero_of_ne_nil _ hne, if_false]
  revert hk
  cases e.Kind <;> simp [isNumberSetKind]

/-- The sequence case for a non-empty sequence whose elements go to a list. -/
theorem marshalSequence_list (lib : GoLib) (whole : GoValue) (e : GoType) (xs : List GoValue)
    (hne : xs ≠ []) (hk : isListKind e.Kind = true) (l : List (Option AttributeValue)) :
    marshalSequence lib whole e xs (.ok l) = .ok (some (.ofL l)) := by
  simp only [marshalSequence, length_ne_zero_of_ne_nil _ hne, if_false]
  revert hk
  cases e.Kind <;> simp [isListKind]

/-! ## Lemmas on the field and entry loops -/

/-- Assigning under a key that the map does not hold adds an entry at the end. -/
theorem mapSet_append {α : Type} (m : List (String × α)) (k : String) (v : α)
    (h : k ∉ m.map Prod.fst) : mapSet m k v = m ++ [(k, v)] := by
  induction m with
  | nil => rfl
  | cons x rest ih =>
      obtain ⟨k0, v0⟩ := x
      simp only [List.map_cons, List.mem_cons, not_or] at h
      simp [mapSet, Ne.symm h.1, ih h.2]

/-- The keys of the kept entries are keys of the source entries. -/
theorem keptEntries_zip_keys {α : Type} (g : α → String) (k : String) :
    ∀ (xs : List α) (encs : List (Option AttributeValue)),
      k ∈ (keptEntries (List.zipWith (fun p a => (g p, a)) xs encs)).map Prod.fst →
        k ∈ xs.map g := by
  intro xs
  induction xs with
  | nil => intro encs h; simp [keptEntries] at h
  | cons x rest ih =>
      intro encs h
      cases encs with
      | nil => simp [keptEntries] at h
      | cons a encs1 =>
          rcases a with _ | av
          · have h1 : k ∈ (keptEntries (List.zipWith (fun p a => (g p, a)) rest encs1)).map
                Prod.fst := by
              simpa [keptEntries] using h
            exact List.mem_cons_of_mem _ (ih encs1 h1)
          · have h1 : k = g x ∨ k ∈ (keptEntries
                (List.zipWith (fun p a => (g p, a)) rest encs1)).map Prod.fst := by
              simpa [keptEntries] using h
            rcases h1 with h1 | h1
            · exact h1 ▸ List.mem_cons_self _ _
            · exact List.mem_cons_of_mem _ (ih encs1 h1)

/-- A source entry whose wire value is nil leaves no key among the kept entries, when the
keys of the source entries are pairwise distinct. -/
theorem keptEntries_zip_no_key {α : Type} (g : α → String)
    (enc : α → Except Panic (Option AttributeValue)) :
    ∀ (xs : List α) (encs : List (Option AttributeValue)),
      List.Forall₂ (fun p a => enc p = .ok a) xs encs → (xs.map g).Nodup →
      ∀ p ∈ xs, enc p = .ok none →
        g p ∉ (keptEntries (List.zipWith (fun p a => (g p, a)) xs encs)).map Prod.fst := by
  intro xs encs h
  induction h with
  | nil => intro _ p hp; exact absurd hp (List.not_mem_nil p)
  | @cons x a rest encs1 hx _ ih =>
      intro hnd p hp hnone
      rw [List.map_cons, List.nodup_cons] at hnd
      have hsub := keptEntries_zip_keys g (g p) rest encs1
      rcases List.mem_cons.mp hp with rfl | hp
      · rw [hnone] at hx
        cases hx
        intro hmem
        have h1 : g p ∈ (keptEntries (List.zipWith (fun p a => (g p, a)) rest encs1)).map
            Prod.fst := by
          simpa [keptEntries] using hmem
        exact hnd.1 (hsub h1)
      · intro hmem
        rcases a with _ | av
        · have h1 : g p ∈ (keptEntries (List.zipWith (fun p a => (g p, a)) rest encs1)).map
              Prod.fst := by
            simpa [keptEntries] using hmem
          exact ih hnd.2 p hp hnone h1
        · have h1 : g p = g x ∨ g p ∈ (keptEntries
              (List.zipWith (fun p a => (g p, a)) rest encs1)).map Prod.fst := by
            simpa [keptEntries] using hmem
          rcases h1 with h1 | h1
          · exact hnd.1 (h1 ▸ List.mem_map_of_mem g hp)
          · exact ih hnd.2 p hp hnone h1

/-- The loop over the fields of a record whose visible fields have wire names distinct
from one another and from the keys already in the map: it appends, in field order, the
wire name and wire value of each visible field whose wire value is not nil. -/
theorem marshalFields_eq (lib : GoLib) (t : Option GoType) :
    ∀ (fs : List (StructField GoType × GoValue)) (encs : List (Option AttributeValue))
      (acc : WireDoc),
      List.Forall₂ (fun p a => marshalToAttributeValue lib p.2 = .ok a) (visibleFields fs) encs →
      (acc.map Prod.fst ++ (visibleFields fs).map (fun p => wireName t p.1)).Nodup →
      marshalFields lib t fs acc =
        .ok (acc ++ keptEntries
          (List.zipWith (fun p a => (wireName t p.1, a)) (visibleFields fs) encs)) := by
  intro fs
  induction fs with
  | nil => intro encs acc _ _; simp [marshalFields, visibleFields, keptEntries]
  | cons x rest ih =>
      obtain ⟨f, v⟩ := x
      intro encs acc henc hnd
      by_cases hexp : f.exported = true
      · have hvis : visibleFields ((f, v) :: rest) = (f, v) :: visibleFields rest := by
          simp [visibleFields, hexp]
        rw [hvis] at henc hnd
        rw [hvis]
        cases henc with
        | @cons _ a _ encs1 ha htail =>
            simp only at ha
            rw [List.map_cons, List.nodup_middle, List.nodup_cons] at hnd
            rw [marshalFields, if_pos hexp, ha]
            rcases a with _ | av
            · simp only
              rw [ih encs1 acc htail hnd.2]
              simp [keptEntries]
            · simp only
              have hnot : wireName t f ∉ acc.map Prod.fst := fun hm =>
                hnd.1 (List.mem_append_left _ hm)
              have hnd1 : ((acc ++ [(wireName t f, some av)]).map Prod.fst ++
                  (visibleFields rest).map (fun p => wireName t p.1)).Nodup := by
                rw [List.map_append, List.append_assoc]
                simp only [List.map_cons, List.map_nil, List.singleton_append]
                rw [List.nodup_middle, List.nodup_cons]
                exact hnd
              have hset : mapSet acc ((lookupExpressionAttributeName t f.Name).getD f.Name)
                  (some av) = acc ++ [(wireName t f, some av)] :=
                mapSet_append acc _ _ hnot
              rw [hset, ih encs1 _ htail hnd1]
              simp [keptEntries]
      · have hvis : visibleFields ((f, v) :: rest) = visibleFields rest := by
          simp [visibleFields, hexp]
        rw [hvis] at henc hnd
        rw [hvis, marshalFields, if_neg hexp]
        exact ih encs acc henc hnd

/-- The loop over the entries of a map whose keys have texts distinct from one another and
from the keys already in the map: it appends, in entry order, the key text and wire value
of each entry whose wire value is not nil. -/
theorem marshalEntries_eq (lib : GoLib) :
    ∀ (es : List (GoValue × GoValue)) (encs : List (Option AttributeValue)) (acc : WireDoc),
      List.Forall₂ (fun e a => marshalToAttributeValue lib e.2 = .ok a) es encs →
      (acc.map Prod.fst ++ es.map (fun e => Sprint lib e.1)).Nodup →
      marshalEntries lib es acc =
        .ok (acc ++ keptEntries (List.zipWith (fun e a => (Sprint lib e.1, a)) es encs)) := by
  intro es
  induction es with
  | nil => intro encs acc _ _; simp [marshalEntries, keptEntries]
  | cons x rest ih =>
      obtain ⟨k, v⟩ := x
      intro encs acc henc hnd
      cases henc with
      | @cons _ a _ encs1 ha htail =>
          simp only at ha
          rw [List.map_cons, List.nodup_middle, List.nodup_cons] at hnd
          rw [marshalEntries, ha]
          rcases a with _ | av
          · simp only
            rw [ih encs1 acc htail hnd.2]
            simp [keptEntries]
          · simp only
            have hnot : Sprint lib k ∉ acc.map Prod.fst := fun hm =>
              hnd.1 (List.mem_append_left _ hm)
            have hnd1 : ((acc ++ [(Sprint lib k, some av)]).map Prod.fst ++
                rest.map (fun e => Sprint lib e.1)).Nodup := by
              rw [List.map_append, List.append_assoc]
              simp only [List.map_cons, List.map_nil, List.singleton_append]
              rw [List.nodup_middle, List.nodup_cons]
              exact hnd
            rw [mapSet_append acc _ _ hnot, ih encs1 _ htail hnd1]
            simp [keptEntries]

/-! ## Lemmas on the key scan -/

/-- What the scan for a tagged field returns: nothing when no field declares the tag, else
the first field that does, with its index. -/
theorem findTaggedFrom_spec (tagName : String) (l : List (StructField GoType)) :
    ∀ i : Nat,
      (findTaggedFrom tagName l i = none ∧ ∀ f ∈ l, f.Tag.lookup tagName = none) ∨
      ∃ pre f post v, l = pre ++ f :: post ∧ (∀ g ∈ pre, g.Tag.lookup tagName = none) ∧
        f.Tag.lookup tagName = some v ∧
        findTaggedFrom tagName l i = some (f.Name, v, i + pre.length) := by
  induction l with
  | nil => intro i; exact Or.inl ⟨rfl, fun f hf => absurd hf (List.not_mem_nil f)⟩
  | cons f rest ih =>
      intro i
      rcases hv : f.Tag.lookup tagName with _ | v
      · rcases ih (i + 1) with ⟨hnone, hall⟩ | ⟨pre, g, post, w, hl, hpre, hg, hfind⟩
        · refine Or.inl ⟨by simp [findTaggedFrom, hv, hnone], ?_⟩
          intro x hx
          rcases List.mem_cons.mp hx with rfl | hx
          · exact hv
          · exact hall x hx
        · refine Or.inr ⟨f :: pre, g, post, w, by simp [hl], ?_, hg, ?_⟩
          · intro x hx
            rcases List.mem_cons.mp hx with rfl | hx
            · exact hv
            · exact hpre x hx
          · simp only [findTaggedFrom, hv, hfind, List.length_cons]
            congr 3
            omega
      · exact Or.inr ⟨[], f, rest, v, rfl, fun g hg => absurd hg (List.not_mem_nil g), hv,
          by simp [findTaggedFrom, hv]⟩

/-- No field with the tag, no first field with the target value. -/
theorem firstTagged_untagged (tagName target : String) (l : List (StructField GoType))
    (h : ∀ f ∈ l, f.Tag.lookup tagName = none) : firstTagged tagName target l = none := by
  induction l with
  | nil => rfl
  | cons f rest ih =>
      have hf := h f (List.mem_cons_self _ _)
      simp [firstTagged, hf, ih (fun g hg => h g (List.mem_cons_of_mem _ hg))]

/-- The first field with the target value, past fields without the tag. -/
theorem firstTagged_split (tagName target : String) (pre post : List (StructField GoType))
    (f : StructField GoType) (v : String) (hpre : ∀ g ∈ pre, g.Tag.lookup tagName = none)
    (hf : f.Tag.lookup tagName = some v) :
    firstTagged tagName target (pre ++ f :: post) =
      if v = target then some f.Name else firstTagged tagName target post := by
  induction pre with
  | nil => simp [firstTagged, hf]
  | cons g rest ih =>
      have hg := hpre g (List.mem_cons_self _ _)
      simp [firstTagged, hg, ih (fun x hx => hpre x (List.mem_cons_of_mem _ hx))]

/-- Once the tag value is the target, the loop ends with the field name it holds. -/
theorem tagLoop_done (t : Option GoType) (tagName target : String) (fuel : Nat)
    (fieldName : Option String) (pos : Nat) :
    tagLoop t tagName target fuel fieldName (some target) pos = fieldName := by
  cases fuel with
  | zero => rfl
  | succ n => simp [tagLoop]

/-- The loop of `getAttributeDefinitionByTag`, with fuel beyond the number of fields left,
ends with the first field from `pos` on whose tag has the target value. -/
theorem tagLoop_eq_aux (t : Option GoType) (tagName target : String) :
    ∀ (fuel pos : Nat) (fieldName tagValue : Option String),
      (recordFields t).length - pos < fuel → tagValue ≠ some target →
      tagLoop t tagName target fuel fieldName tagValue pos =
        firstTagged tagName target ((recordFields t).drop pos) := by
  intro fuel
  induction fuel with
  | zero => intro pos fn tv h; omega
  | succ n ih =>
      intro pos fn tv hfuel htv
      have hcond : tv = none ∨ tv ≠ some target := Or.inr htv
      rw [tagLoop, if_pos hcond]
      rcases findTaggedFrom_spec tagName ((recordFields t).drop pos) pos with
        ⟨hnone, hall⟩ | ⟨pre, f, post, v, hl, hpre, hf, hfind⟩
      · simp [GetFieldByTagName, hnone, firstTagged_untagged tagName target _ hall]
      · have hlen : ((recordFields t).drop pos).length = pre.length + 1 + post.length := by
          rw [hl]; simp; omega
        rw [List.length_drop] at hlen
        have hdrop : (recordFields t).drop (pos + pre.length + 1) = post := by
          have h1 : ((recordFields t).drop pos).drop (pre.length + 1) = post := by
            rw [hl]
            simp
          rw [List.drop_drop] at h1
          rw [← h1]
          congr 1
        rw [hl, firstTagged_split tagName target pre post f v hpre hf]
        simp only [GetFieldByTagName, hfind]
        have hpos : ¬ ((↑(pos + pre.length) : Int) < 0) := by omega
        rw [if_neg hpos]
        have hnat : (↑(pos + pre.length) : Int).toNat + 1 = pos + pre.length + 1 := by omega
        rw [hnat]
        by_cases hvt : v = target
        · subst hvt
          rw [tagLoop_done]
          simp
        · rw [if_neg hvt, ih (pos + pre.length + 1) (some f.Name) (some v) (by omega)
            (by simpa using hvt), hdrop]

/-- The loop of `getAttributeDefinitionByTag` does not run out of fuel: it ends with the
first field whose tag has the target value. -/
theorem tagLoop_eq (t : Option GoType) (tagName target : String) :
    tagLoop t tagName target ((recordFields t).length + 2) none none 0 =
      firstTagged tagName target (recordFields t) := by
  rw [tagLoop_eq_aux t tagName target _ 0 none none (by omega) (by simp)]
  simp

/-- The first field with the target value is a field with the target value. -/
theorem firstTagged_some (tagName target : String) (l : List (StructField GoType))
    (name : String) (h : firstTagged tagName target l = some name) :
    ∃ f ∈ l, f.Name = name ∧ f.Tag.lookup tagName = some target := by
  induction l with
  | nil => cases h
  | cons f rest ih =>
      by_cases hf : f.Tag.lookup tagName = some target
      · simp only [firstTagged, hf, if_true, Option.some.injEq] at h
        exact ⟨f, List.mem_cons_self _ _, h, hf⟩
      · simp only [firstTagged, hf, if_false] at h
        obtain ⟨g, hg, hn, ht⟩ := ih h
        exact ⟨g, List.mem_cons_of_mem _ hg, hn, ht⟩

/-- There is a first field with the target value when some field has it. -/
theorem firstTagged_of_mem (tagName target : String) (l : List (StructField GoType))
    (h : ∃ f ∈ l, f.Tag.lookup tagName = some target) :
    ∃ name, firstTagged tagName target l = some name := by
  induction l with
  | nil => obtain ⟨f, hf, _⟩ := h; exact absurd hf (List.not_mem_nil f)
  | cons f rest ih =>
      by_cases hf : f.Tag.lookup tagName = some target
      · exact ⟨f.Name, by simp [firstTagged, hf]⟩
      · obtain ⟨g, hg, ht⟩ := h
        rcases List.mem_cons.mp hg with rfl | hg
        · exact absurd ht hf
        · obtain ⟨name, hn⟩ := ih ⟨g, hg, ht⟩
          exact ⟨name, by simp [firstTagged, hf, hn]⟩

/-- There is no first field with the target value when no field has it. -/
theorem firstTagged_none (tagName target : String) (l : List (StructField GoType))
    (h : ∀ f ∈ l, f.Tag.lookup tagName ≠ some target) : firstTagged tagName target l = none := by
  induction l with
  | nil => rfl
  | cons f rest ih =>
      have hf := h f (List.mem_cons_self _ _)
      simp [firstTagged, hf, ih (fun g hg => h g (List.mem_cons_of_mem _ hg))]

/-- A field of a list is found by its name. -/
theorem find_name_of_mem (l : List (StructField GoType)) (f : StructField GoType) (hf : f ∈ l) :
    ∃ g, l.find? (fun x => x.Name == f.Name) = some g := by
  induction l with
  | nil => exact absurd hf (List.not_mem_nil f)
  | cons x rest ih =>
      by_cases hx : x.Name = f.Name
      · exact ⟨x, List.find?_cons_of_pos _ (by simp [hx])⟩
      · rcases List.mem_cons.mp hf with rfl | hf
        · exact absurd rfl hx
        · obtain ⟨g, hg⟩ := ih hf
          exact ⟨g, by rw [List.find?_cons_of_neg _ (by simp [hx])]; exact hg⟩

/-- The key declared by tag on a record: the first field whose `key-type` tag has the
target value, when there is one, and nil when there is none. -/
theorem getAttributeDefinitionByTag_record (fs : List (StructField GoType × GoValue))
    (target : String) :
    ((∃ f ∈ fs.map Prod.fst, f.Tag.lookup "key-type" = some target) →
        ∃ d f, getAttributeDefinitionByTag (.struct fs) "key-type" target = .ok (some d) ∧
          d.AttributeName = some f.Name ∧ f ∈ fs.map Prod.fst ∧
          f.Tag.lookup "key-type" = some target ∧
          firstTagged "key-type" target (fs.map Prod.fst) = some f.Name) ∧
      ((∀ f ∈ fs.map Prod.fst, f.Tag.lookup "key-type" ≠ some target) →
        getAttributeDefinitionByTag (.struct fs) "key-type" target = .ok none) := by
  have hloop := tagLoop_eq (GoValue.struct fs).typeOf "key-type" target
  have hrec : recordFields (GoValue.struct fs).typeOf = fs.map Prod.fst := rfl
  rw [hrec] at hloop
  constructor
  · intro hex
    obtain ⟨name, hname⟩ := firstTagged_of_mem "key-type" target _ hex
    obtain ⟨f, hf, hfn, hft⟩ := firstTagged_some "key-type" target _ name hname
    obtain ⟨g, hg⟩ := find_name_of_mem _ f hf
    subst hfn
    unfold getAttributeDefinitionByTag
    rw [hrec, hloop, hname]
    simp only
    rcases GetTagByFieldName (GoValue.struct fs).typeOf f.Name "aws-type" with _ | ft
    · simp only [GoValue.typeOf, hg]
      exact ⟨_, f, rfl, rfl, hf, hft, rfl⟩
    · exact ⟨_, f, rfl, rfl, hf, hft, rfl⟩
  · intro hall
    unfold getAttributeDefinitionByTag
    rw [hrec, hloop, firstTagged_none "key-type" target _ hall]

/-! ## Lemmas on the decoder -/

/-- The bit size passed to `ParseUint` for an unsigned kind is at most 64. -/
theorem nSize_uint_le (k : UintKind) : nSize k.Kind ≤ 64 := by
  cases k <;> simp [nSize, UintKind.Kind]

/-- The bit size in force for an unsigned kind other than `uintptr` is the width of the
kind. -/
theorem nSize_uint_bits (k : UintKind) (hk : k ≠ .uintptr) :
    (if nSize k.Kind = 0 then strconv.IntSize else nSize k.Kind) = k.bits := by
  cases k <;> simp [nSize, UintKind.Kind, UintKind.bits, strconv.IntSize] at hk ⊢

/-- The width of a signed kind is 8 bits or more. -/
theorem int_bits_wide (k : IntKind) :
    2 ≤ (if nSize k.Kind = 0 then strconv.IntSize else nSize k.Kind) := by
  cases k <;> simp [nSize, IntKind.Kind, strconv.IntSize]

/-- The numeric cases of the decoder for a signed target kind: the result is the reading
of `ParseInt` with base 0 at the width of the kind, stored unchanged, or the zero value
with the error of `ParseInt`. -/
theorem marshalNumber_int (lib : GoLib) (k : IntKind) (s : String) :
    marshalNumber lib (some s) (.int k) =
      (match strconv.ParseInt s 0 (nSize k.Kind) with
        | (_, some e) => .ok (.int k 0, some (.num e))
        | (n, none) => .ok (.int k n, none)) := by
  have hu : isUintKind k.Kind = false := by cases k <;> rfl
  have hi : isIntKind k.Kind = true := by cases k <;> rfl
  rcases hp : strconv.ParseInt s 0 (nSize k.Kind) with ⟨n, _ | e⟩
  · have hr := strconv.ParseInt_range s 0 (nSize k.Kind) n hp
    rw [nSize_int_bits] at hr
    simp only [marshalNumber, GoType.Kind, hu, hi, hp, reflectSetInt,
      wrap_of_inRange k n hr]
    rfl
  · simp only [marshalNumber, GoType.Kind, hu, hi, hp, zeroValue]
    rfl

/-- The numeric cases of the decoder for an unsigned target kind other than `uintptr`:
the result is the reading of `ParseUint` with base 0 at the width of the kind, stored
unchanged, or the zero value with the error of `ParseUint`. -/
theorem marshalNumber_uint (lib : GoLib) (k : UintKind) (hk : k ≠ .uintptr) (s : String) :
    marshalNumber lib (some s) (.uint k) =
      (match strconv.ParseUint s 0 (nSize k.Kind) with
        | (_, some e) => .ok (.uint k 0, some (.num e))
        | (n, none) => .ok (.uint k n, none)) := by
  have hu : isUintKind k.Kind = true := by cases k <;> first | rfl | exact absurd rfl hk
  rcases hp : strconv.ParseUint s 0 (nSize k.Kind) with ⟨n, _ | e⟩
  · have hr := strconv.parseUintChars_range "ParseUint" s s.data 0 (nSize k.Kind) n hp
    rw [nSize_uint_bits k hk] at hr
    have hpos : 0 < 2 ^ k.bits := Nat.pos_pow_of_pos _ (by decide)
    have hmod : n % 2 ^ k.bits = n := Nat.mod_eq_of_lt (by omega)
    simp only [marshalNumber, GoType.Kind, hu, hp, reflectSetUint, hmod]
    rfl
  · simp only [marshalNumber, GoType.Kind, hu, hp, zeroValue]
    rfl

/-- Decoding a Number into a signed target kind. -/
theorem marshalToGoValue_int (lib : GoLib) (k : IntKind) (s : String) :
    marshalToGoValue lib (some (.ofN s)) (.int k) =
      (match strconv.ParseInt s 0 (nSize k.Kind) with
        | (_, some e) => .ok (.int k 0, some (.num e))
        | (n, none) => .ok (.int k n, none)) := by
  rw [marshalToGoValue_numeric lib _ _ (Or.inr (Or.inl (by cases k <;> rfl)))]
  exact marshalNumber_int lib k s

/-- Decoding a Number into an unsigned target kind other than `uintptr`. -/
theorem marshalToGoValue_uint (lib : GoLib) (k : UintKind) (hk : k ≠ .uintptr) (s : String) :
    marshalToGoValue lib (some (.ofN s)) (.uint k) =
      (match strconv.ParseUint s 0 (nSize k.Kind) with
        | (_, some e) => .ok (.uint k 0, some (.num e))
        | (n, none) => .ok (.uint k n, none)) := by
  rw [marshalToGoValue_numeric lib _ _
    (Or.inl (by cases k <;> first | rfl | exact absurd rfl hk))]
  exact marshalNumber_uint lib k hk s

/-- A type identical to `string` is `string`. -/
theorem beq_string (e : GoType) (h : GoType.beq .string e = true) : e = .string := by
  cases e <;> simp [GoType.beq] at h ⊢

/-- The loop over a string set into a slice of strings stores every string. -/
theorem decodeStringSet_string (ss : List String) :
    decodeStringSet .string ss = .ok (ss.map GoValue.string) := by
  induction ss with
  | nil => rfl
  | cons s rest ih => simp [decodeStringSet, reflectSet, GoValue.typeOf, GoType.beq, ih]

/-- The function `convertKey` by key kind: a string key is the text; an integer key is
the reading of `ParseInt` or `ParseUint` with base 0, a floating key that of `ParseFloat`,
and a text that does not parse gives the key conversion error; any other key kind gives
the error "cannot convert". -/
theorem convertKey_cases (lib : GoLib) (key : String) :
    convertKey lib key .string = .ok (.string key, none) ∧
      (∀ k : IntKind, convertKey lib key (.int k) =
        (match strconv.ParseInt key 0 (nSize k.Kind) with
          | (_, some _) => .ok (.int k 0, some (.errorConvertingKey (.int k)))
          | (n, none) => .ok (.int k n, none))) ∧
      (∀ k : UintKind, k ≠ .uintptr → convertKey lib key (.uint k) =
        (match strconv.ParseUint key 0 (nSize k.Kind) with
          | (_, some _) => .ok (.uint k 0, some (.errorConvertingKey (.uint k)))
          | (n, none) => .ok (.uint k n, none))) ∧
      (∀ k : FloatKind, convertKey lib key (.float k) =
        (match lib.ParseFloat key (nSize k.Kind) with
          | (_, some _) => .ok (.float k 0, some (.errorConvertingKey (.float k)))
          | (x, none) => .ok (.float k x, none))) ∧
      (∀ t : GoType, t.Kind ≠ .String → isUintKind t.Kind = false → isIntKind t.Kind = false →
        isFloatKind t.Kind = false →
        convertKey lib key t = .ok (zeroValue t, some (.cannotConvertKey t))) := by
  refine ⟨rfl, ?_, ?_, ?_, ?_⟩
  · intro k
    have hs : (GoType.int k).Kind ≠ Kind.String := by cases k <;> simp [GoType.Kind, IntKind.Kind]
    have hi : isIntKind (GoType.int k).Kind = true := by cases k <;> rfl
    simp only [convertKey, if_neg hs, hi, Bool.or_true, Bool.true_or, if_true,
      marshalNumber_int]
    rcases strconv.ParseInt key 0 (nSize k.Kind) with ⟨n, _ | e⟩ <;> rfl
  · intro k hk
    have hs : (GoType.uint k).Kind ≠ Kind.String := by
      cases k <;> simp [GoType.Kind, UintKind.Kind]
    have hu : isUintKind (GoType.uint k).Kind = true := by
      cases k <;> first | rfl | exact absurd rfl hk
    simp only [convertKey, if_neg hs, hu, Bool.true_or, if_true, marshalNumber_uint lib k hk]
    rcases strconv.ParseUint key 0 (nSize k.Kind) with ⟨n, _ | e⟩ <;> rfl
  · intro k
    have hs : k.Kind ≠ Kind.String := by cases k <;> simp [FloatKind.Kind]
    have hu : isUintKind k.Kind = false := by cases k <;> rfl
    have hi : isIntKind k.Kind = false := by cases k <;> rfl
    have hf : isFloatKind k.Kind = true := by cases k <;> rfl
    have hne : k.Kind ≠ Kind.Interface := by cases k <;> simp [FloatKind.Kind]
    simp only [convertKey, GoType.Kind, if_neg hs, hu, hi, hf, Bool.or_true, if_true,
      marshalNumber, Bool.false_eq_true, if_false, if_neg hne, reflectSetFloat]
    rcases hp : lib.ParseFloat key (nSize k.Kind) with ⟨x, _ | e⟩ <;> rfl
  · intro t hs hu hi hf
    simp [convertKey, hs, hu, hi, hf]

/-- A key that `convertKey` returns without an error has the key type: `SetMapIndex`
takes it as it is. -/
theorem convertKey_typed (lib : GoLib) (key : String) (kt : GoType) (kv : GoValue)
    (h : convertKey lib key kt = .ok (kv, none)) : reflectSet kt kv = .ok kv := by
  obtain ⟨hstr, hint, huint, hfloat, hother⟩ := convertKey_cases lib key
  have hbad : ∀ t : GoType, t.Kind ≠ .String → isUintKind t.Kind = false →
      isIntKind t.Kind = false → isFloatKind t.Kind = false →
      convertKey lib key t = .ok (kv, none) → False := by
    intro t h1 h2 h3 h4 h5
    rw [hother t h1 h2 h3 h4] at h5
    simp at h5
  cases kt with
  | string =>
      rw [hstr] at h
      simp only [Except.ok.injEq, Prod.mk.injEq, and_true] at h
      rw [← h]
      rfl
  | int k =>
      rw [hint k] at h
      rcases hp : strconv.ParseInt key 0 (nSize k.Kind) with ⟨n, _ | e⟩ <;> rw [hp] at h
      · simp only [Except.ok.injEq, Prod.mk.injEq, and_true] at h
        rw [← h]
        simp [reflectSet, GoValue.typeOf, GoType.beq]
      · simp at h
  | uint k =>
      by_cases hk : k = .uintptr
      · subst hk
        exact (hbad (.uint .uintptr) (by decide) rfl rfl rfl h).elim
      · rw [huint k hk] at h
        rcases hp : strconv.ParseUint key 0 (nSize k.Kind) with ⟨n, _ | e⟩ <;> rw [hp] at h
        · simp only [Except.ok.injEq, Prod.mk.injEq, and_true] at h
          rw [← h]
          simp [reflectSet, GoValue.typeOf, GoType.beq]
        · simp at h
  | float k =>
      rw [hfloat k] at h
      rcases hp : lib.ParseFloat key (nSize k.Kind) with ⟨n, _ | e⟩ <;> rw [hp] at h
      · simp only [Except.ok.injEq, Prod.mk.injEq, and_true] at h
        rw [← h]
        simp [reflectSet, GoValue.typeOf, GoType.beq]
      · simp at h
  | bool => exact (hbad .bool (by decide) rfl rfl rfl h).elim
  | complex k =>
      exact (hbad (.complex k) (by cases k <;> decide) (by cases k <;> rfl)
        (by cases k <;> rfl) (by cases k <;> rfl) h).elim
  | chan => exact (hbad .chan (by decide) rfl rfl rfl h).elim
  | func => exact (hbad .func (by decide) rfl rfl rfl h).elim
  | unsafePointer => exact (hbad .unsafePointer (by decide) rfl rfl rfl h).elim
  | iface => exact (hbad .iface (by decide) rfl rfl rfl h).elim
  | ptr e => exact (hbad (.ptr e) (by simp [GoType.Kind]) rfl rfl rfl h).elim
  | slice e => exact (hbad (.slice e) (by simp [GoType.Kind]) rfl rfl rfl h).elim
  | array n e => exact (hbad (.array n e) (by simp [GoType.Kind]) rfl rfl rfl h).elim
  | map k e => exact (hbad (.map k e) (by simp [GoType.Kind]) rfl rfl rfl h).elim
  | struct fs => exact (hbad (.struct fs) (by simp [GoType.Kind]) rfl rfl rfl h).elim

/-- Storing under a key that is equal to none of the keys of the map adds an entry at the
end. -/
theorem setMapIndex_append (lib : GoLib) (m : List (GoValue × GoValue)) (k v : GoValue)
    (h : ∀ p ∈ m, keyEq lib p.1 k = false) : setMapIndex lib m k v = m ++ [(k, v)] := by
  induction m with
  | nil => rfl
  | cons x rest ih =>
      obtain ⟨k0, v0⟩ := x
      have h0 := h (k0, v0) (List.mem_cons_self _ _)
      simp only at h0
      simp [setMapIndex, h0, ih (fun p hp => h p (List.mem_cons_of_mem _ hp))]

/-- The loop over the entries of a wire map whose keys convert to keys distinct from one
another and from the keys already stored, and whose values decode: it appends, in entry
order, the converted key and the decoded value of each entry. -/
theorem decodeEntries_eq (lib : GoLib) (kt et : GoType) :
    ∀ (m : WireDoc) (kvs acc : List (GoValue × GoValue)),
      List.Forall₂ (fun e p => convertKey lib e.1 kt = .ok (p.1, none) ∧
        ∃ x, marshalToGoValue lib e.2 et = .ok (x, none) ∧ reflectSet et x = .ok p.2) m kvs →
      (acc ++ kvs).Pairwise (fun p q => keyEq lib p.1 q.1 = false) →
      decodeEntries lib kt et m acc = .ok (acc ++ kvs, none) := by
  intro m
  induction m with
  | nil =>
      intro kvs acc h _
      cases h
      simp [decodeEntries]
  | cons e rest ih =>
      obtain ⟨key, a⟩ := e
      intro kvs acc h hd
      cases h with
      | @cons _ p _ kvs1 hp htail =>
          obtain ⟨hk, x, hx, hset⟩ := hp
          simp only at hk hx
          have hkt := convertKey_typed lib key kt p.1 hk
          have hnew : ∀ q ∈ acc, keyEq lib q.1 p.1 = false := by
            intro q hq
            exact (List.pairwise_append.mp hd).2.2 q hq p (List.mem_cons_self _ _)
          have hd1 : ((acc ++ [(p.1, p.2)]) ++ kvs1).Pairwise
              (fun p q => keyEq lib p.1 q.1 = false) := by
            rw [List.append_assoc]
            exact hd
          rw [decodeEntries, hk]
          simp only [hx, hkt, hset]
          rw [setMapIndex_append lib acc p.1 p.2 hnew, ih kvs1 _ htail hd1]
          simp

/-- Keeping the entries whose key satisfies `p` does not change the lookup of a key that
satisfies `p`. -/
theorem lookup_filter_keep (doc : WireDoc) (p : String → Bool) (name : String)
    (h : p name = true) : (doc.filter (fun e => p e.1)).lookup name = doc.lookup name := by
  induction doc with
  | nil => rfl
  | cons e rest ih =>
      obtain ⟨k0, x0⟩ := e
      by_cases hk : p k0 = true
      · simp only [List.filter, hk, List.lookup, ih]
      · have hne : (name == k0) = false := by
          rcases hb : name == k0 with _ | _
          · rfl
          · have : name = k0 := by simpa using hb
            rw [this] at h
            exact absurd h hk
        simp only [Bool.not_eq_true] at hk
        simp only [List.filter, hk, List.lookup, hne, ih]

/-- The struct loop of `UnmarshalAWS` reads the document at the declared names of the
visible fields only. -/
theorem unmarshalFields_restrict (lib : GoLib) (doc : WireDoc) (p : String → Bool)
    (fs : List (StructField GoType))
    (hp : ∀ f ∈ fs, f.exported = true → p f.Name = true) :
    unmarshalFields lib doc fs = unmarshalFields lib (doc.filter (fun e => p e.1)) fs := by
  induction fs with
  | nil => rfl
  | cons f rest ih =>
      have ih' := ih (fun g hg => hp g (List.mem_cons_of_mem _ hg))
      rw [unmarshalFields, unmarshalFields, ih', tagLookup_reflectValue]
      by_cases hexp : f.exported = true
      · rw [lookup_filter_keep doc p f.Name (hp f (List.mem_cons_self _ _) hexp)]
      · simp [hexp]

/-! ## Lemmas on member selection, sets and files -/

/-- The loop over a number set for a signed element kind, on texts that all parse: it
stores the readings, in order. -/
theorem decodeNumberSetInt_ok (k : IntKind) :
    ∀ (texts : List String) (ns : List Int),
      List.Forall₂ (fun text n => strconv.ParseInt text 0 (nSize k.Kind) = (n, none)) texts ns →
      decodeNumberSetInt (.int k) texts = .ok (ns.map (GoValue.int k), none) ∧
        ∀ n ∈ ns, k.inRange n := by
  intro texts ns h
  induction h with
  | nil => exact ⟨rfl, fun n hn => absurd hn (List.not_mem_nil n)⟩
  | @cons text n rest ns1 hp _ ih =>
      have hr := strconv.ParseInt_range text 0 (nSize k.Kind) n hp
      rw [nSize_int_bits] at hr
      constructor
      · simp only [decodeNumberSetInt, GoType.Kind, hp, reflectSetInt, wrap_of_inRange k n hr,
          ih.1, List.map_cons]
      · intro m hm
        rcases List.mem_cons.mp hm with rfl | hm
        · exact hr
        · exact ih.2 m hm

/-- The loop over a number set for a signed element kind, on texts one of which does not
parse: it ends with the conversion error. -/
theorem decodeNumberSetInt_error (k : IntKind) :
    ∀ texts : List String,
      (∃ text ∈ texts, ∃ e, (strconv.ParseInt text 0 (nSize k.Kind)).2 = some e) →
      decodeNumberSetInt (.int k) texts = .ok ([], some .nsConversion) := by
  intro texts
  induction texts with
  | nil => rintro ⟨text, hmem, _⟩; exact absurd hmem (List.not_mem_nil text)
  | cons t rest ih =>
      intro hbad
      rcases hp : strconv.ParseInt t 0 (nSize k.Kind) with ⟨n, _ | e⟩
      · have hrest : ∃ text ∈ rest, ∃ e, (strconv.ParseInt text 0 (nSize k.Kind)).2 = some e := by
          obtain ⟨text, hmem, e, he⟩ := hbad
          rcases List.mem_cons.mp hmem with rfl | hmem
          · rw [hp] at he; cases he
          · exact ⟨text, hmem, e, he⟩
        simp only [decodeNumberSetInt, GoType.Kind, hp, reflectSetInt, ih hrest]
      · simp only [decodeNumberSetInt, GoType.Kind, hp]

/-- A member that is not populated is nil or empty. -/
theorem nonEmpty_false {α : Type} (l : Option (List α)) (h : nonEmpty l = false) :
    l = none ∨ l = some [] := by
  rcases l with _ | l
  · exact Or.inl rfl
  · cases l with
    | nil => exact Or.inr rfl
    | cons x xs => simp [nonEmpty] at h

/-- Decoding a wire value whose number set is populated, and whose string set is not, into
a slice or array type with a signed element kind runs the loop for signed kinds. -/
theorem marshalToGoValue_numberSet_int (lib : GoLib) (av : AttributeValue) (k : IntKind)
    (t : String) (ts : List String) (target : GoType)
    (htarget : target = .slice (.int k) ∨ ∃ n, target = .array n (.int k))
    (hSS : nonEmpty av.SS = false) (hNS : av.NS = some (t :: ts)) :
    marshalToGoValue lib (some av) target =
      (match decodeNumberSetInt (.int k) (t :: ts) with
        | .error p => .error p
        | .ok (_, some e) => .ok (zeroValue target, some e)
        | .ok (vs, none) => .ok (.slice (.int k) (some vs), none)) := by
  rw [marshalToGoValue_some]
  rcases htarget with rfl | ⟨n, rfl⟩ <;> rcases nonEmpty_false _ hSS with h | h <;> cases k <;>
    (simp [marshalToGoValueSwitch, GoType.Kind, IntKind.Kind, h, hNS, nonEmpty, isUintKind,
      isIntKind, isFloatKind, decodeItemType, GoType.Elem, decodeNumberSet])

/-- When no file can be opened the scan keeps the value of `found` it starts from. -/
theorem scanFiles_noFiles_fold (needle : String) (fileMap : List (Int × String)) :
    ∀ found : Bool,
      fileMap.foldl (fun found kv =>
        match noFiles kv.2 with
        | none => found
        | some buf => found && testutil.Contains buf needle) found = found := by
  induction fileMap with
  | nil => intro found; rfl
  | cons kv rest ih =>
      intro found
      rw [List.foldl_cons]
      exact ih found

/-- A map key equals a string key exactly when it is that string. -/
theorem keyEq_string (lib : GoLib) (k : GoValue) (s : String) :
    keyEq lib k (.string s) = true ↔ k = .string s := by
  cases k <;> simp [keyEq]

/-- The search for the key `s` among entries none of whose keys is `s` finds nothing. -/
theorem find_key_none (lib : GoLib) (s : String) (es : List (GoValue × GoValue))
    (h : ∀ p ∈ es, p.1 ≠ .string s) :
    es.find? (fun p => keyEq lib p.1 (.string s)) = none := by
  rw [List.find?_eq_none]
  intro p hp hk
  exact h p hp ((keyEq_string lib p.1 s).mp hk)

/-- The search for the key `s` finds the first entry under that key. -/
theorem find_key_some (lib : GoLib) (s : String) (pre post : List (GoValue × GoValue))
    (v : GoValue) (h : ∀ p ∈ pre, p.1 ≠ .string s) :
    (pre ++ (.string s, v) :: post).find? (fun p => keyEq lib p.1 (.string s)) =
      some (.string s, v) := by
  induction pre with
  | nil => simp [List.find?, keyEq]
  | cons p rest ih =>
      have hp : keyEq lib p.1 (.string s) = false := by
        rcases hk : keyEq lib p.1 (.string s) with _ | _
        · rfl
        · exact absurd ((keyEq_string lib p.1 s).mp hk) (h p (List.mem_cons_self _ _))
      rw [List.cons_append, List.find?_cons_of_neg _ (by simp [hp])]
      exact ih (fun q hq => h q (List.mem_cons_of_mem _ hq))

/-- In a list whose names are pairwise distinct, the search by name finds the very item. -/
theorem find_by_name_nodup {α : Type} (g : α → String) (l : List α) (x : α)
    (hnd : (l.map g).Nodup) (hx : x ∈ l) : l.find? (fun y => g y == g x) = some x := by
  induction l with
  | nil => exact absurd hx (List.not_mem_nil x)
  | cons y rest ih =>
      rw [List.map_cons, List.nodup_cons] at hnd
      rcases List.mem_cons.mp hx with rfl | hx
      · exact List.find?_cons_of_pos _ (by simp)
      · have hne : g y ≠ g x := fun h => hnd.1 (h ▸ List.mem_map_of_mem g hx)
        rw [List.find?_cons_of_neg _ (by simpa using hne)]
        exact ih hnd.2 hx

/-- A source entry whose wire value is not nil is the entry under its key among the kept
entries, when the keys of the source entries are pairwise distinct. -/
theorem keptEntries_zip_lookup {α : Type} (g : α → String)
    (enc : α → Except Panic (Option AttributeValue)) (av : AttributeValue) :
    ∀ (xs : List α) (encs : List (Option AttributeValue)),
      List.Forall₂ (fun p a => enc p = .ok a) xs encs → (xs.map g).Nodup →
      ∀ p ∈ xs, enc p = .ok (some av) →
        (keptEntries (List.zipWith (fun p a => (g p, a)) xs encs)).lookup (g p) =
          some (some av) := by
  intro xs encs h
  induction h with
  | nil => intro _ p hp; exact absurd hp (List.not_mem_nil p)
  | @cons x a rest encs1 hx _ ih =>
      intro hnd p hp hsome
      rw [List.map_cons, List.nodup_cons] at hnd
      rcases List.mem_cons.mp hp with rfl | hp
      · rw [hsome] at hx
        cases hx
        simp [keptEntries, List.lookup]
      · have hne : g p ≠ g x := fun h => hnd.1 (h ▸ List.mem_map_of_mem g hp)
        have hb : (g p == g x) = false := by simpa using hne
        rcases a with _ | av1
        · have h1 : keptEntries (List.zipWith (fun p a => (g p, a)) (x :: rest) (none :: encs1)) =
              keptEntries (List.zipWith (fun p a => (g p, a)) rest encs1) := by
            simp [keptEntries]
          rw [h1]
          exact ih hnd.2 p hp hsome
        · have h1 : keptEntries (List.zipWith (fun p a => (g p, a)) (x :: rest)
              (some av1 :: encs1)) =
              (g x, some av1) :: keptEntries (List.zipWith (fun p a => (g p, a)) rest encs1) := by
            simp [keptEntries]
          rw [h1, List.lookup, hb]
          exact ih hnd.2 p hp hsome

/-- The wire name of a field without alias is its name, in a record type whose field names
are pairwise distinct. -/
theorem wireName_plain (l : List (StructField GoType)) (f : StructField GoType)
    (hnd : (l.map (fun x => x.Name)).Nodup) (hf : f ∈ l)
    (halias : f.Tag.lookup "aws-name" = none) : wireName (some (.struct l)) f = f.Name := by
  have hfind := find_by_name_nodup (fun x : StructField GoType => x.Name) l f hnd hf
  simp only [wireName, lookupExpressionAttributeName, GetTagByFieldName, hfind, halias,
    Option.getD_none]

/-- A key that no entry of a document has is not found in it. -/
theorem lookup_none_of_not_key (doc : WireDoc) (k : String) (h : k ∉ doc.map Prod.fst) :
    doc.lookup k = none := by
  induction doc with
  | nil => rfl
  | cons p rest ih =>
      obtain ⟨k0, x0⟩ := p
      simp only [List.map_cons, List.mem_cons, not_or] at h
      have hne : (k == k0) = false := by simpa using h.1
      simp only [List.lookup, hne]
      exact ih h.2

/-- For a record whose visible fields have pairwise distinct wire names and whose
field encodings `encs` all return, `MarshalAWS` of the record, and of a pointer to it,
returns exactly, in field order, the entries (wire name, encoding) of the visible fields
whose encoding is not nil; and the wire name of a visible field that is a function, a
channel or a complex number is not a key of the result. -/
theorem MarshalAWS_record (lib : GoLib) (fs : List (StructField GoType × GoValue))
    (encs : List (Option AttributeValue))
    (hnames : ((visibleFields fs).map
      (fun p => wireName (some (.struct (fs.map Prod.fst))) p.1)).Nodup)
    (henc : List.Forall₂ (fun p a => marshalToAttributeValue lib p.2 = .ok a)
      (visibleFields fs) encs) :
    MarshalAWS lib none (.struct fs) =
        .ok (keptEntries (List.zipWith
          (fun p a => (wireName (some (.struct (fs.map Prod.fst))) p.1, a))
          (visibleFields fs) encs)) ∧
      (∀ T, MarshalAWS lib none (.ptr T (some (.struct fs))) = MarshalAWS lib none (.struct fs)) ∧
      (∀ p ∈ visibleFields fs, UnsupportedShape p.2 →
        wireName (some (.struct (fs.map Prod.fst))) p.1 ∉
          (keptEntries (List.zipWith
            (fun p a => (wireName (some (.struct (fs.map Prod.fst))) p.1, a))
            (visibleFields fs) encs)).map Prod.fst) := by
  refine ⟨?_, fun T => rfl, ?_⟩
  · have h := marshalFields_eq lib (some (.struct (fs.map Prod.fst))) fs encs [] henc
      (by simpa using hnames)
    simpa [MarshalAWS, getInterface, GoValue.typeOf] using h
  · intro p hp hshape
    have hnone : marshalToAttributeValue lib p.2 = .ok none := by
      obtain ⟨f, v⟩ := p
      cases v <;> simp only [UnsupportedShape] at hshape <;> rw [marshalToAttributeValue]
    exact keptEntries_zip_no_key (fun p => wireName (some (.struct (fs.map Prod.fst))) p.1)
      (fun p => marshalToAttributeValue lib p.2) (visibleFields fs) encs henc hnames p hp hnone

/-- Decoding a wire value whose string set is `s :: ss` into a slice of strings
returns, without an error, the slice of these strings, in order and of the same length;
so does decoding into an array type of strings; and the encoding of a non-empty slice of
strings decodes to that slice. -/
theorem marshalToGoValue_stringSet (lib : GoLib) (av : AttributeValue) (s : String)
    (ss : List String) (hSS : av.SS = some (s :: ss)) :
    marshalToGoValue lib (some av) (.slice .string) =
        .ok (.slice .string (some ((s :: ss).map GoValue.string)), none) ∧
      ((s :: ss).map GoValue.string).length = (s :: ss).length ∧
      (∀ n, marshalToGoValue lib (some av) (.array n .string) =
        .ok (.slice .string (some ((s :: ss).map GoValue.string)), none)) ∧
      marshalToAttributeValue lib (.slice .string (some ((s :: ss).map GoValue.string))) =
        .ok (some (.ofSS (s :: ss))) ∧
      marshalToGoValue lib (some (.ofSS (s :: ss))) (.slice .string) =
        .ok (.slice .string (some ((s :: ss).map GoValue.string)), none) := by
  have hdec : ∀ (a : AttributeValue) (t : GoType), a.SS = some (s :: ss) →
      (t = .slice .string ∨ ∃ n, t = .array n .string) →
      marshalToGoValue lib (some a) t =
        .ok (.slice .string (some ((s :: ss).map GoValue.string)), none) := by
    intro a t ha ht
    rw [marshalToGoValue_some]
    rcases ht with rfl | ⟨n, rfl⟩ <;>
      simp [marshalToGoValueSwitch, GoType.Kind, ha, nonEmpty, isUintKind, isIntKind,
        isFloatKind, decodeItemType, GoType.Elem, decodeStringSet_string]
  refine ⟨hdec av _ hSS (Or.inl rfl), by simp, fun n => hdec av _ hSS (Or.inr ⟨n, rfl⟩), ?_,
    hdec _ _ rfl (Or.inl rfl)⟩
  rw [marshalToAttributeValue_slice]
  exact marshalSequence_strings lib (s :: ss) (by simp) _

/-- For a document without the attribute marshaling capability:
for a record, or a pointer to one, `GetAttributeValue` returns nil when no field has the
name and `marshalToAttributeValue` of the field of that name when it is exported; for a map
with string keys it returns nil when the map is nil or no key is the name, and
`marshalToAttributeValue` of the item under the name otherwise; for a slice or an array it
returns nil when `Atoi` returns an error for the name or the index is negative or not less
than the length, and `marshalToAttributeValue` of the element at the index `i` for the
name that is the decimal text of `i`; and for a value of any other kind it returns nil. -/
theorem GetAttributeValue_selection (lib : GoLib) (fieldName : String) :
    (∀ (fs : List (StructField GoType × GoValue)) (doc : GoValue),
        (doc = .struct fs ∨ ∃ t, doc = .ptr t (some (.struct fs))) →
        ((∀ p ∈ fs, p.1.Name ≠ fieldName) →
          GetAttributeValue lib .absent doc fieldName = .ok none) ∧
        (∀ f v, fs.find? (fun p => p.1.Name == fieldName) = some (f, v) → f.exported = true →
          GetAttributeValue lib .absent doc fieldName = marshalToAttributeValue lib v)) ∧
      (∀ (et : GoType) (es : List (GoValue × GoValue)),
        GetAttributeValue lib .absent (.map .string et none) fieldName = .ok none ∧
        ((∀ p ∈ es, p.1 ≠ .string fieldName) →
          GetAttributeValue lib .absent (.map .string et (some es)) fieldName = .ok none) ∧
        (∀ pre v post, es = pre ++ (.string fieldName, v) :: post →
          (∀ p ∈ pre, p.1 ≠ .string fieldName) →
          GetAttributeValue lib .absent (.map .string et (some es)) fieldName =
            marshalToAttributeValue lib v)) ∧
      (∀ (e : GoType) (xs : List GoValue) (doc : GoValue),
        (doc = .slice e (some xs) ∨ doc = .array e xs) →
        ((∃ err, (strconv.Atoi fieldName).2 = some err) →
          GetAttributeValue lib .absent doc fieldName = .ok none) ∧
        (∀ ndx, strconv.Atoi fieldName = (ndx, none) → (ndx < 0 ∨ ndx ≥ xs.length) →
          GetAttributeValue lib .absent doc fieldName = .ok none) ∧
        (∀ (i : Nat) (x : GoValue), xs.get? i = some x → i < 2 ^ 63 →
          GetAttributeValue lib .absent doc (strconv.FormatInt (i : Int)) =
            marshalToAttributeValue lib x)) ∧
      (∀ doc : GoValue, doc.Kind ≠ .Invalid → doc.Kind ≠ .Struct → doc.Kind ≠ .Map →
        doc.Kind ≠ .Slice → doc.Kind ≠ .Array → doc.Kind ≠ .Ptr →
        GetAttributeValue lib .absent doc fieldName = .ok none) := by
  refine ⟨?_, ?_, ?_, ?_⟩
  · intro fs doc hdoc
    constructor
    · intro hno
      have hfind : fs.find? (fun p => p.1.Name == fieldName) = none := by
        rw [List.find?_eq_none]
        intro p hp
        simpa using hno p hp
      rcases hdoc with rfl | ⟨t, rfl⟩ <;>
        simp [GetAttributeValue, getInterface, GoValue.typeOf, hfind]
    · intro f v hfind hexp
      rcases hdoc with rfl | ⟨t, rfl⟩ <;>
        simp [GetAttributeValue, getInterface, GoValue.typeOf, hfind, hexp]
  · intro et es
    refine ⟨rfl, ?_, ?_⟩
    · intro hno
      simp [GetAttributeValue, getInterface, GoValue.typeOf, find_key_none lib fieldName es hno]
    · intro pre v post hes hpre
      subst hes
      simp [GetAttributeValue, getInterface, GoValue.typeOf,
        find_key_some lib fieldName pre post v hpre]
  · intro e xs doc hdoc
    refine ⟨?_, ?_, ?_⟩
    · rintro ⟨err, herr⟩
      rcases hp : strconv.Atoi fieldName with ⟨ndx, _ | e1⟩
      · rw [hp] at herr; cases herr
      · rcases hdoc with rfl | rfl <;>
          simp [GetAttributeValue, getInterface, GoValue.typeOf, hp]
    · intro ndx hp hout
      rcases hdoc with rfl | rfl <;>
        simp [GetAttributeValue, getInterface, GoValue.typeOf, hp, hout]
    · intro i x hx hi
      have hp := strconv.Atoi_FormatInt i hi
      have hlen : i < xs.length := by
        rcases Nat.lt_or_ge i xs.length with h | h
        · exact h
        · rw [List.get?_eq_none.mpr h] at hx; cases hx
      have hin : ¬ ((i : Int) < 0 ∨ xs.length ≤ i) := by omega
      have hx' : xs[i]? = some x := by simpa using hx
      rcases hdoc with rfl | rfl <;>
        simp [GetAttributeValue, getInterface, GoValue.typeOf, hp, hin, hx']
  · intro doc h0 h1 h2 h3 h4 h5
    cases doc <;> first
      | rfl
      | exact absurd rfl h0
      | exact absurd rfl h1
      | exact absurd rfl h2
      | exact absurd rfl h3
      | exact absurd rfl h4
      | exact absurd rfl h5

/-! ## The claims -/

/-- C1. For every scalar `v` that is a text string, a boolean or a signed integer of any
width (within the range of its type), encoding `v` yields a wire value, and decoding
that wire value into the type of `v` yields `v` with no error. -/
theorem C1_scalar_round_trip (lib : GoLib) (v : GoValue) (t : GoType)
    (hv : RoundTripScalar v) (ht : v.typeOf = some t) :
    ∃ av, marshalToAttributeValue lib v = .ok (some av) ∧
      marshalToGoValue lib (some av) t = .ok (v, none) := by
  cases v <;> simp only [RoundTripScalar] at hv
  case bool b =>
      simp only [GoValue.typeOf, Option.some.injEq] at ht
      subst ht
      exact ⟨.ofBOOL b, rfl, rfl⟩
  case string s =>
      simp only [GoValue.typeOf, Option.some.injEq] at ht
      subst ht
      exact ⟨.ofS s, rfl, rfl⟩
  case int k n =>
      simp only [GoValue.typeOf, Option.some.injEq] at ht
      subst ht
      refine ⟨.ofN (strconv.FormatInt n), rfl, ?_⟩
      have hi : isIntKind (GoType.int k).Kind = true := by cases k <;> rfl
      rw [marshalToGoValue_numeric lib _ _ (Or.inr (Or.inl hi))]
      exact marshalNumber_FormatInt lib k n hv

/-- C1, at the smallest 8-bit integer. -/
theorem C1_scalar_round_trip_witness :
    RoundTripScalar (.int .int8 (-128)) ∧
    ∃ av, marshalToAttributeValue plainLib (.int .int8 (-128)) = .ok (some av) ∧
      marshalToGoValue plainLib (some av) (.int .int8) = .ok (.int .int8 (-128), none) :=
  ⟨by simp [RoundTripScalar, IntKind.inRange, IntKind.bits],
   C1_scalar_round_trip plainLib (.int .int8 (-128)) (.int .int8)
     (by simp [RoundTripScalar, IntKind.inRange, IntKind.bits]) rfl⟩

/-- C2, at the failing input: the record with `DocName = "P"` and `Size = 5`, whose field
`Size` carries the alias `#amount`.  `MarshalAWS` stores `Size` under `#amount`, and
`UnmarshalAWS` of that document into the same record type returns `Size = 0`. -/
theorem C2_alias_lost_on_decode :
    MarshalAWS plainLib none (aliasRecord "P" 5) =
        .ok [("DocName", some (.ofS "P")), ("#amount", some (.ofN "5"))] ∧
      UnmarshalAWS plainLib aliasRecordType
          [("DocName", some (.ofS "P")), ("#amount", some (.ofN "5"))] =
        .ok (aliasRecord "P" 0) :=
  ⟨rfl, rfl⟩

/-- C3 as stated fails: the entry `B` of the document does not decode (`ParseInt` returns a
syntax error), and `UnmarshalAWS` still returns a record, with `A` populated from the
document and `B` at its zero value. -/
theorem C3_counterexample :
    marshalToGoValue plainLib (some (.ofN "x")) (.int .int) =
        .ok (.int .int 0, some (.num ⟨"ParseInt", "x", .ErrSyntax⟩)) ∧
      UnmarshalAWS plainLib pairRecordType [("A", some (.ofN "1")), ("B", some (.ofN "x"))] =
        .ok (pairRecord 1 0) :=
  ⟨rfl, rfl⟩

/-- C3, amended.  For every target type, an entry of the document whose decoding returns an
error is skipped: `UnmarshalAWS` returns what it returns for the document without that
entry, so the other entries are still decoded into the result; and the value that
`marshalToGoValue` returns along with such an error is the zero value of the type. -/
theorem C3_failed_entry_skipped (lib : GoLib) (target : GoType) (doc : WireDoc) (k : String)
    (hfail : ∀ x, (k, x) ∈ doc → ∀ t ∈ slotTypes target k,
      ∃ z e, marshalToGoValue lib x t = .ok (z, some e)) :
    UnmarshalAWS lib target doc = UnmarshalAWS lib target (doc.filter (fun p => p.1 != k)) ∧
      ∀ x, (k, x) ∈ doc → ∀ t ∈ slotTypes target k, ∀ z e,
        marshalToGoValue lib x t = .ok (z, some e) → z = zeroValue t := by
  refine ⟨?_, fun x _ t _ z e h => marshalToGoValue_error_zero lib x t z e h⟩
  have hstruct : ∀ fs, slotTypes target k = slotTypes (.struct fs) k →
      unmarshalFields lib doc fs = unmarshalFields lib (doc.filter (fun p => p.1 != k)) fs := by
    intro fs hs
    apply unmarshalFields_filter
    intro x hx f hf hexp hname
    apply hfail x hx
    rw [hs]
    simp only [slotTypes, List.mem_map, List.mem_filter]
    exact ⟨f, ⟨hf, by simp [hexp, hname]⟩, rfl⟩
  have hmap : ∀ kt et, slotTypes target k = slotTypes (.map kt et) k → ∀ acc,
      unmarshalEntries lib kt et doc acc =
        unmarshalEntries lib kt et (doc.filter (fun p => p.1 != k)) acc := by
    intro kt et hs acc
    apply unmarshalEntries_filter
    intro x hx
    apply hfail x hx
    rw [hs]
    simp [slotTypes]
  cases target with
  | struct fs => simp only [UnmarshalAWS, hstruct fs rfl]
  | map kt et => simp only [UnmarshalAWS, hmap kt et rfl]
  | ptr el =>
      cases el with
      | struct fs => simp only [UnmarshalAWS, hstruct fs rfl]
      | map kt et => simp only [UnmarshalAWS, hmap kt et rfl]
      | _ => rfl
  | _ => rfl

/-- C3, amended, at the record type with the `int` fields `A` and `B` and the document
with `A` = `N: "1"` and `B` = `N: "x"`: the entry `B` is skipped. -/
theorem C3_failed_entry_skipped_witness :
    UnmarshalAWS plainLib pairRecordType [("A", some (.ofN "1")), ("B", some (.ofN "x"))] =
      UnmarshalAWS plainLib pairRecordType [("A", some (.ofN "1"))] :=
  (C3_failed_entry_skipped plainLib pairRecordType
    [("A", some (.ofN "1")), ("B", some (.ofN "x"))] "B" (by
      intro x hx t ht
      simp only [List.mem_cons, Prod.mk.injEq, List.mem_singleton, List.not_mem_nil, or_false] at hx
      rcases hx with ⟨h, _⟩ | ⟨_, hx⟩
      · exact absurd h (by decide)
      · subst hx
        have ht' : t = .int .int := by
          simpa [slotTypes, pairRecordType] using ht
        subst ht'
        exact ⟨_, _, rfl⟩)).1

/-- C4 as stated fails: decoding the wire value `BOOL: true` into an `int` returns no
error at all, neither a type mismatch nor any other; the call panics on the nil `N`. -/
theorem C4_counterexample :
    marshalToGoValue plainLib (some (.ofBOOL true)) (.int .int) = .error .nilDereference ∧
      ¬ ∃ v e, marshalToGoValue plainLib (some (.ofBOOL true)) (.int .int) = .ok (v, some e) := by
  have h : marshalToGoValue plainLib (some (.ofBOOL true)) (.int .int) = .error .nilDereference :=
    rfl
  refine ⟨h, ?_⟩
  rintro ⟨v, e, hve⟩
  rw [h] at hve
  cases hve

/-- C4, amended.  For a string, boolean, signed, unsigned (other than `uintptr`) or
floating target type and a wire value whose required member (`S`, `BOOL`, `N`) is nil,
`marshalToGoValue` returns neither a value nor an error: it panics on the nil member. -/
theorem C4_missing_variant_panics (lib : GoLib) (av : AttributeValue) (t : GoType)
    (h : RequiredVariantAbsent av t) :
    marshalToGoValue lib (some av) t = .error .nilDereference := by
  cases t <;> simp only [RequiredVariantAbsent] at h
  case bool =>
      rw [marshalToGoValue_some]
      simp [marshalToGoValueSwitch, GoType.Kind, h]
  case string =>
      rw [marshalToGoValue_some]
      simp [marshalToGoValueSwitch, GoType.Kind, h]
  case int k =>
      have hi : isIntKind (GoType.int k).Kind = true := by cases k <;> rfl
      have hu : isUintKind (GoType.int k).Kind = false := by cases k <;> rfl
      rw [marshalToGoValue_numeric lib _ _ (Or.inr (Or.inl hi))]
      simp [marshalNumber, hi, hu, h]
  case uint k =>
      have hu : isUintKind (GoType.uint k).Kind = true := by
        cases k <;> first | rfl | exact absurd rfl h.1
      rw [marshalToGoValue_numeric lib _ _ (Or.inl hu)]
      simp [marshalNumber, hu, h.2]
  case float k =>
      have hf : isFloatKind (GoType.float k).Kind = true := by cases k <;> rfl
      have hi : isIntKind (GoType.float k).Kind = false := by cases k <;> rfl
      have hu : isUintKind (GoType.float k).Kind = false := by cases k <;> rfl
      rw [marshalToGoValue_numeric lib _ _ (Or.inr (Or.inr hf))]
      simp [marshalNumber, hi, hu, h]

/-- C4, amended, at the wire value `BOOL: true` and the target type `int64`. -/
theorem C4_missing_variant_panics_witness :
    RequiredVariantAbsent (.ofBOOL true) (.int .int64) ∧
      marshalToGoValue plainLib (some (.ofBOOL true)) (.int .int64) = .error .nilDereference :=
  ⟨rfl, C4_missing_variant_panics plainLib (.ofBOOL true) (.int .int64) rfl⟩

/-- C5, at failing inputs: an unsigned integer is encoded as a wire value with no member
set, and a record without fields as one with two members set (`M` and `NULL`). -/
theorem C5_variant_count_violated (lib : GoLib) (k : UintKind) (n : Nat) :
    (∃ av, marshalToAttributeValue lib (.uint k n) = .ok (some av) ∧ av.populated = 0) ∧
      (∃ av, marshalToAttributeValue lib (.struct []) = .ok (some av) ∧ av.populated = 2) :=
  ⟨⟨.empty, rfl, rfl⟩, ⟨_, rfl, rfl⟩⟩

/-- C6, at the failing input: a map that is allocated and has no entries, such as
`map[string]int{}`, is encoded as the `M` member with no entries, and `NULL` is not set.
Every empty slice (nil or not), every empty array and every nil map is encoded as
`NULL: true`, and the record without fields is encoded with `NULL: true` set. -/
theorem C6_empty_map_not_null (lib : GoLib) (k e : GoType) :
    marshalToAttributeValue lib (.map k e (some [])) = .ok (some (.ofM [])) ∧
      (AttributeValue.ofM []).M = some [] ∧
      (AttributeValue.ofM []).NULL = none ∧
      marshalToAttributeValue lib (.slice e none) = .ok (some (.ofNULL true)) ∧
      marshalToAttributeValue lib (.slice e (some [])) = .ok (some (.ofNULL true)) ∧
      marshalToAttributeValue lib (.array e []) = .ok (some (.ofNULL true)) ∧
      marshalToAttributeValue lib (.map k e none) = .ok (some (.ofNULL true)) ∧
      (∃ av, marshalToAttributeValue lib (.struct []) = .ok (some av) ∧ av.NULL = some true) :=
  ⟨rfl, rfl, rfl, rfl, rfl, rfl, rfl, ⟨_, rfl, rfl⟩⟩

/-- C7, at failing inputs: for every unsigned integer the encoder returns the wire value
with no member set; in particular `N` is nil. -/
theorem C7_unsigned_not_encoded (lib : GoLib) (k : UintKind) (n : Nat) :
    ∃ av, marshalToAttributeValue lib (.uint k n) = .ok (some av) ∧ av.N = none ∧
      av = AttributeValue.empty :=
  ⟨.empty, rfl, rfl, rfl⟩

/-- C8 as stated fails: a slice of 8-bit signed integers is not encoded as a number set;
the encoder takes its byte branch, whose type assertion panics, and returns nothing. -/
theorem C8_counterexample :
    marshalToAttributeValue plainLib (.slice (.int .int8) (some [.int .int8 1])) =
        .error .interfaceConversion ∧
      ¬ ∃ av, marshalToAttributeValue plainLib (.slice (.int .int8) (some [.int .int8 1])) =
        .ok (some av) := by
  have h : marshalToAttributeValue plainLib (.slice (.int .int8) (some [.int .int8 1])) =
      .error .interfaceConversion := rfl
  refine ⟨h, ?_⟩
  rintro ⟨av, hav⟩
  rw [h] at hav
  cases hav

/-- C8, amended.  For a non-empty slice or array with element type `e`: a slice of strings
is encoded as a string set; a sequence whose element kind is `int`, `int16`, `int32`,
`int64`, `float32` or `float64` as a number set; and a sequence whose element kind is
boolean, interface, map, pointer or struct as a list, provided no element panics. -/
theorem C8_sequence_classification (lib : GoLib) (e : GoType) (xs : List GoValue) (seq : GoValue)
    (hne : xs ≠ []) (hseq : seq = .slice e (some xs) ∨ seq = .array e xs) :
    (e.Kind = Kind.String → seq = .slice e (some xs) → (∀ x ∈ xs, x.typeOf = some e) →
        ∃ ss, marshalToAttributeValue lib seq = .ok (some (.ofSS ss))) ∧
      (isNumberSetKind e.Kind = true →
        ∃ ns, marshalToAttributeValue lib seq = .ok (some (.ofNS ns))) ∧
      (isListKind e.Kind = true → (∀ x ∈ xs, ∃ a, marshalToAttributeValue lib x = .ok a) →
        ∃ l, marshalToAttributeValue lib seq = .ok (some (.ofL l))) := by
  refine ⟨?_, ?_, ?_⟩
  · intro hk hs hty
    have he := kind_string_iff e hk
    subst he
    obtain ⟨ss, hss⟩ := strings_of_typed xs hty
    subst hss
    subst hs
    exact ⟨ss, by rw [marshalToAttributeValue_slice]; exact marshalSequence_strings lib ss hne _⟩
  · intro hk
    refine ⟨xs.map (Sprint lib), ?_⟩
    rcases hseq with h | h <;> subst h
    · rw [marshalToAttributeValue_slice]; exact marshalSequence_numbers lib _ e xs hne hk _
    · rw [marshalToAttributeValue_array]; exact marshalSequence_numbers lib _ e xs hne hk _
  · intro hk hok
    obtain ⟨l, hl⟩ := forall2_of_all_ok lib xs hok
    have hml := marshalList_of_forall lib xs l hl
    refine ⟨l, ?_⟩
    rcases hseq with h | h <;> subst h
    · rw [marshalToAttributeValue_slice, hml]; exact marshalSequence_list lib _ e xs hne hk l
    · rw [marshalToAttributeValue_array, hml]; exact marshalSequence_list lib _ e xs hne hk l

/-- C8, amended, at the slice `[]int{1}`: it is encoded as a number set. -/
theorem C8_sequence_classification_witness :
    ([GoValue.int .int 1] ≠ []) ∧
      ∃ ns, marshalToAttributeValue plainLib (.slice (.int .int) (some [.int .int 1])) =
        .ok (some (.ofNS ns)) :=
  ⟨List.cons_ne_nil _ _,
   (C8_sequence_classification plainLib (.int .int) [.int .int 1]
      (.slice (.int .int) (some [.int .int 1])) (List.cons_ne_nil _ _) (Or.inl rfl)).2.1 rfl⟩

/-- C9 as stated fails: the slice `[]int8{1, 2, 3}` holds signed integers, and its
encoding has no number set of length 3; the encoder panics and returns nothing. -/
theorem C9_counterexample :
    ¬ ∃ av ns, marshalToAttributeValue plainLib
        (.slice (.int .int8) (some [.int .int8 1, .int .int8 2, .int .int8 3])) = .ok (some av) ∧
      av.NS = some ns ∧ ns.length = 3 := by
  have h : marshalToAttributeValue plainLib
      (.slice (.int .int8) (some [.int .int8 1, .int .int8 2, .int .int8 3])) =
      .error .interfaceConversion := rfl
  rintro ⟨av, ns, hav, _⟩
  rw [h] at hav
  cases hav

/-- C9, amended.  For a non-empty slice or array `xs` with element type `e`: a slice of
the strings `ss` is encoded as the string set `ss`; a sequence of the signed integers
`ns` of a kind other than `int8` as the number set of their decimal texts, in order; and
a sequence whose element kind is boolean, interface, map, pointer or struct as the list
of the encodings of its elements, in order. -/
theorem C9_sequence_content (lib : GoLib) (e : GoType) (xs : List GoValue) (seq : GoValue)
    (hne : xs ≠ []) (hseq : seq = .slice e (some xs) ∨ seq = .array e xs) :
    (∀ ss : List String, e = .string → seq = .slice e (some xs) → xs = ss.map GoValue.string →
        marshalToAttributeValue lib seq = .ok (some (.ofSS ss))) ∧
      (∀ (k : IntKind) (ns : List Int), k ≠ .int8 → e = .int k → xs = ns.map (GoValue.int k) →
        marshalToAttributeValue lib seq = .ok (some (.ofNS (ns.map strconv.FormatInt)))) ∧
      (isListKind e.Kind = true → ∀ l : List (Option AttributeValue),
        List.Forall₂ (fun x a => marshalToAttributeValue lib x = .ok a) xs l →
        marshalToAttributeValue lib seq = .ok (some (.ofL l))) := by
  refine ⟨?_, ?_, ?_⟩
  · intro ss he hs hxs
    subst he hxs hs
    rw [marshalToAttributeValue_slice]
    exact marshalSequence_strings lib ss hne _
  · intro k ns hk he hxs
    have hkind : isNumberSetKind e.Kind = true := by
      subst he
      cases k <;> first | rfl | exact absurd rfl hk
    have hmap : xs.map (Sprint lib) = ns.map strconv.FormatInt := by
      subst hxs
      simp [List.map_map, Function.comp_def, Sprint]
    rw [← hmap]
    rcases hseq with h | h <;> subst h
    · rw [marshalToAttributeValue_slice]; exact marshalSequence_numbers lib _ e xs hne hkind _
    · rw [marshalToAttributeValue_array]; exact marshalSequence_numbers lib _ e xs hne hkind _
  · intro hk l hl
    have hml := marshalList_of_forall lib xs l hl
    rcases hseq with h | h <;> subst h
    · rw [marshalToAttributeValue_slice, hml]; exact marshalSequence_list lib _ e xs hne hk l
    · rw [marshalToAttributeValue_array, hml]; exact marshalSequence_list lib _ e xs hne hk l

/-- C9, amended, at the spec's examples `["a", "b"]` and `[1, 2, 3]`. -/
theorem C9_sequence_content_witness :
    ([GoValue.string "a", GoValue.string "b"] ≠ []) ∧
      ([GoValue.int .int 1, GoValue.int .int 2, GoValue.int .int 3] ≠ []) ∧
      marshalToAttributeValue plainLib (.slice .string (some [.string "a", .string "b"])) =
        .ok (some (.ofSS ["a", "b"])) ∧
      marshalToAttributeValue plainLib
          (.slice (.int .int) (some [.int .int 1, .int .int 2, .int .int 3])) =
        .ok (some (.ofNS ["1", "2", "3"])) :=
  ⟨List.cons_ne_nil _ _, List.cons_ne_nil _ _,
   (C9_sequence_content plainLib .string [.string "a", .string "b"]
      (.slice .string (some [.string "a", .string "b"])) (List.cons_ne_nil _ _) (Or.inl rfl)).1
      ["a", "b"] rfl rfl rfl,
   (C9_sequence_content plainLib (.int .int) [.int .int 1, .int .int 2, .int .int 3]
      (.slice (.int .int) (some [.int .int 1, .int .int 2, .int .int 3]))
      (List.cons_ne_nil _ _) (Or.inl rfl)).2.1 .int [1, 2, 3] (by decide) rfl rfl⟩

/-- C10, at the failing input `[][]int{{1, 2}}`: the inner sequence encodes as the number
set `["1", "2"]`, and the outer one as `NULL`, not as a list. -/
theorem C10_nested_sequence_null :
    marshalToAttributeValue plainLib (.slice (.int .int) (some [.int .int 1, .int .int 2])) =
        .ok (some (.ofNS ["1", "2"])) ∧
      marshalToAttributeValue plainLib
          (.slice (.slice (.int .int)) (some [.slice (.int .int) (some [.int .int 1, .int .int 2])])) =
        .ok (some (.ofNULL true)) ∧
      (AttributeValue.ofNULL true).L = none :=
  ⟨rfl, rfl, rfl⟩

/-- C11, at failing inputs: every non-empty slice of bytes is encoded as `NULL: true`, with
the member `B` nil; the bytes are dropped.  The byte branch of the encoder is entered for
the element kind `Int8`, where its type assertion panics. -/
theorem C11_bytes_encoded_as_null (lib : GoLib) (b : Nat) (bs : List Nat) :
    marshalToAttributeValue lib (.slice (.uint .uint8) (some ((b :: bs).map (GoValue.uint .uint8)))) =
        .ok (some (.ofNULL true)) ∧
      (AttributeValue.ofNULL true).B = none ∧
      marshalToAttributeValue lib (.slice (.int .int8) (some [.int .int8 1, .int .int8 2])) =
        .error .interfaceConversion := by
  refine ⟨?_, rfl, rfl⟩
  rw [marshalToAttributeValue_slice]
  simp [marshalSequence, GoType.Kind, UintKind.Kind]

/-- C12, at the failing input: the record `sliceStruct3` has two visible fields with the
wire names `DocName` and `AnArray`, and for every non-empty `AnArray` the encoding of that
field panics, so `MarshalAWS` of the record panics and returns no document, and so does
`CreateDocument`. -/
theorem C12_int8_field_panics (lib : GoLib) (docName : String) (x : Int) (xs : List Int) :
    marshalToAttributeValue lib (.slice (.int .int8) (some ((x :: xs).map (GoValue.int .int8)))) =
        .error .interfaceConversion ∧
      MarshalAWS lib none (sliceStruct3 docName (x :: xs)) = .error .interfaceConversion ∧
      CreateDocument lib noCapabilities okService "t" (sliceStruct3 docName (x :: xs)) =
        .error .interfaceConversion ∧
      [wireName (sliceStruct3 docName (x :: xs)).typeOf
          ⟨"DocName", true, [("key-type", "primary")], .string⟩,
        wireName (sliceStruct3 docName (x :: xs)).typeOf
          ⟨"AnArray", true, [], .slice (.int .int8)⟩] = ["DocName", "AnArray"] ∧
      MarshalAWS plainLib none (sliceStruct3 "Slice=3" [10, 20, 30, 40, 50]) =
        .error .interfaceConversion := by
  have h1 : marshalToAttributeValue lib
      (.slice (.int .int8) (some ((x :: xs).map (GoValue.int .int8)))) =
      .error .interfaceConversion := by
    rw [marshalToAttributeValue_slice]
    simp [marshalSequence, GoType.Kind, IntKind.Kind, asByteSlice]
  have h0 : marshalToAttributeValue lib (.string docName) = .ok (some (.ofS docName)) := by
    rw [marshalToAttributeValue]
  have h2 : MarshalAWS lib none (sliceStruct3 docName (x :: xs)) =
      .error .interfaceConversion := by
    simp only [MarshalAWS, getInterface, sliceStruct3, GoValue.typeOf, marshalFields, h0, h1,
      if_true]
  refine ⟨h1, h2, ?_, rfl, rfl⟩
  have hk : GetPartitionKeyField noCapabilities.keyRetriever (sliceStruct3 docName (x :: xs)) =
      .ok (some ⟨some "DocName", some "S"⟩) := rfl
  simp only [CreateDocument, hk]
  have h3 : MarshalAWS lib noCapabilities.marshaler (sliceStruct3 docName (x :: xs)) =
      .error .interfaceConversion := h2
  rw [h3]

/-- C13, at failing inputs: the slice `[]interface{}{"a", func(){}}` is encoded as a list
of two elements, the second of them nil; and `MarshalAWS` of a function stores nil under
the key `root`. -/
theorem C13_nil_slot_kept :
    marshalToAttributeValue plainLib
        (.slice .iface (some [.iface (some (.string "a")), .iface (some .func)])) =
        .ok (some (.ofL [some (.ofS "a"), none])) ∧
      MarshalAWS plainLib none .func = .ok [("root", none)] :=
  ⟨rfl, rfl⟩

/-- C14 as stated fails: the map `map[interface{}]int{1: 10, "1": 20}` has two entries,
neither of them rejected, and its encoding has one: the keys `1` and `"1"` have the same
text, so the entry for `1`, whose value encodes to `N: "10"`, is overwritten. -/
theorem C14_counterexample :
    marshalToAttributeValue plainLib (.map .iface (.int .int)
        (some [(.iface (some (.int .int 1)), .int .int 10),
          (.iface (some (.string "1")), .int .int 20)])) =
        .ok (some (.ofM [("1", some (.ofN "20"))])) ∧
      Sprint plainLib (.iface (some (.int .int 1))) = "1" ∧
      marshalToAttributeValue plainLib (.int .int 10) = .ok (some (.ofN "10")) :=
  ⟨rfl, rfl, rfl⟩

/-- C14, amended.  For a map whose keys have pairwise distinct texts and whose value
encodings `encs` all return, `marshalToAttributeValue` returns the Map that holds exactly,
in entry order, the entries (key text, encoding) of the source entries whose encoding is not
nil, and `MarshalAWS` returns these entries as the document; the text of an integer key is
its decimal text; and a nil map is encoded as Null. -/
theorem C14_map_encoding (lib : GoLib) (kt et : GoType) (es : List (GoValue × GoValue))
    (encs : List (Option AttributeValue))
    (hkeys : (es.map (fun e => Sprint lib e.1)).Nodup)
    (henc : List.Forall₂ (fun e a => marshalToAttributeValue lib e.2 = .ok a) es encs) :
    marshalToAttributeValue lib (.map kt et (some es)) =
        .ok (some (.ofM (keptEntries
          (List.zipWith (fun e a => (Sprint lib e.1, a)) es encs)))) ∧
      MarshalAWS lib none (.map kt et (some es)) =
        .ok (keptEntries (List.zipWith (fun e a => (Sprint lib e.1, a)) es encs)) ∧
      (∀ k n, Sprint lib (.int k n) = strconv.FormatInt n) ∧
      marshalToAttributeValue lib (.map kt et none) = .ok (some (.ofNULL true)) := by
  have h := marshalEntries_eq lib es encs [] henc (by simpa using hkeys)
  rw [List.nil_append] at h
  refine ⟨?_, ?_, fun _ _ => rfl, ?_⟩
  · rw [marshalToAttributeValue, h]
  · simpa [MarshalAWS, getInterface, GoValue.typeOf] using h
  · rw [marshalToAttributeValue]

/-- C14, amended, at the map `map[int]string{1: "x", 20: "y"}`. -/
theorem C14_map_encoding_witness :
    marshalToAttributeValue plainLib (.map (.int .int) .string
        (some [(.int .int 1, .string "x"), (.int .int 20, .string "y")])) =
      .ok (some (.ofM [("1", some (.ofS "x")), ("20", some (.ofS "y"))])) :=
  (C14_map_encoding plainLib (.int .int) .string
    [(.int .int 1, .string "x"), (.int .int 20, .string "y")]
    [some (.ofS "x"), some (.ofS "y")] (by decide) (.cons rfl (.cons rfl .nil))).1

/-- C15. For every pointer and every value of interface type, the encoder returns
`NULL: true` when it is nil, and what it returns for the referent when it is not. -/
theorem C15_reference_transparent (lib : GoLib) (e : GoType) (v : GoValue) :
    marshalToAttributeValue lib (.ptr e none) = .ok (some (.ofNULL true)) ∧
      marshalToAttributeValue lib (.iface none) = .ok (some (.ofNULL true)) ∧
      marshalToAttributeValue lib (.ptr e (some v)) = marshalToAttributeValue lib v ∧
      marshalToAttributeValue lib (.iface (some v)) = marshalToAttributeValue lib v := by
  refine ⟨?_, ?_, ?_, ?_⟩ <;> rw [marshalToAttributeValue]

/-- C16: for a record without the key-retrieval capability, `GetPartitionKeyField` returns
a definition named after the first field tagged `key-type:"primary"` when a field is so
tagged, and nil when none is; `GetSortKeyField` does the same for `key-type:"secondary"`,
and its nil is a result, not a panic. -/
theorem C16_declarative_keys (fs : List (StructField GoType × GoValue)) :
    ((∃ f ∈ fs.map Prod.fst, f.Tag.lookup "key-type" = some "primary") →
        ∃ d f, GetPartitionKeyField .absent (.struct fs) = .ok (some d) ∧
          d.AttributeName = some f.Name ∧ f ∈ fs.map Prod.fst ∧
          f.Tag.lookup "key-type" = some "primary" ∧
          firstTagged "key-type" "primary" (fs.map Prod.fst) = some f.Name) ∧
      ((∀ f ∈ fs.map Prod.fst, f.Tag.lookup "key-type" ≠ some "primary") →
        GetPartitionKeyField .absent (.struct fs) = .ok none) ∧
      ((∃ f ∈ fs.map Prod.fst, f.Tag.lookup "key-type" = some "secondary") →
        ∃ d f, GetSortKeyField .absent (.struct fs) = .ok (some d) ∧
          d.AttributeName = some f.Name ∧ f ∈ fs.map Prod.fst ∧
          f.Tag.lookup "key-type" = some "secondary" ∧
          firstTagged "key-type" "secondary" (fs.map Prod.fst) = some f.Name) ∧
      ((∀ f ∈ fs.map Prod.fst, f.Tag.lookup "key-type" ≠ some "secondary") →
        GetSortKeyField .absent (.struct fs) = .ok none) :=
  ⟨(getAttributeDefinitionByTag_record fs "primary").1,
    (getAttributeDefinitionByTag_record fs "primary").2,
    (getAttributeDefinitionByTag_record fs "secondary").1,
    (getAttributeDefinitionByTag_record fs "secondary").2⟩

/-- C16 at the record `keyedRecord "P" "O" 5`: the partition key is `DocName`, and at
`pairRecord 1 2`, which declares no key, the sort key is nil. -/
theorem C16_declarative_keys_witness :
    (∃ d f, GetPartitionKeyField .absent (keyedRecord "P" "O" 5) = .ok (some d) ∧
        d.AttributeName = some f.Name ∧
        f ∈ [(⟨"DocName", true, [("key-type", "primary")], .string⟩ : StructField GoType),
          ⟨"Owner", true, [("key-type", "secondary")], .string⟩,
          ⟨"Size", true, [("aws-name", "#amount")], .int .int64⟩] ∧
        f.Tag.lookup "key-type" = some "primary" ∧
        firstTagged "key-type" "primary"
          [(⟨"DocName", true, [("key-type", "primary")], .string⟩ : StructField GoType),
            ⟨"Owner", true, [("key-type", "secondary")], .string⟩,
            ⟨"Size", true, [("aws-name", "#amount")], .int .int64⟩] = some f.Name) ∧
      GetSortKeyField .absent (pairRecord 1 2) = .ok none :=
  ⟨(C16_declarative_keys _).1
      ⟨⟨"DocName", true, [("key-type", "primary")], .string⟩, by simp, rfl⟩,
    (C16_declarative_keys _).2.2.2 (by simp)⟩

/-- C17. For every document whose type, or the pointer to whose type, implements the key
retriever, `GetPartitionKeyField` and `GetSortKeyField` return what the methods of the
retriever return, on the document or on a pointer to a copy of it; the tags of the fields
play no part. -/
theorem C17_capability_wins (m : AwsDocumentKeyRetriever) (doc : GoValue) (t : GoType)
    (ht : doc.typeOf = some t) :
    GetPartitionKeyField (.byValue m) doc = .ok (m.GetPartitionKeyField doc) ∧
      GetSortKeyField (.byValue m) doc = .ok (m.GetSortKeyField doc) ∧
      GetPartitionKeyField (.byPointer m) doc = .ok (m.GetPartitionKeyField (.ptr t (some doc))) ∧
      GetSortKeyField (.byPointer m) doc = .ok (m.GetSortKeyField (.ptr t (some doc))) := by
  have hv : getInterface doc (Implementation.byValue m) = .ok (some (doc, m)) := by
    simp [getInterface, ht]
  have hp : getInterface doc (Implementation.byPointer m) =
      .ok (some (.ptr t (some doc), m)) := by
    simp [getInterface, ht]
  refine ⟨?_, ?_, ?_, ?_⟩
  · unfold GetPartitionKeyField; rw [hv]
  · unfold GetSortKeyField; rw [hv]
  · unfold GetPartitionKeyField; rw [hp]
  · unfold GetSortKeyField; rw [hp]

/-- C17, at a record that tags `DocName` as primary and `Owner` as secondary, with the
retriever of the test fixture: the sort key is the retriever's nil, not `Owner`. -/
theorem C17_capability_wins_witness :
    GetPartitionKeyField (.byPointer docNameRetriever) (keyedRecord "P" "O" 5) =
        .ok (some ⟨some "DocName", some "S"⟩) ∧
      GetSortKeyField (.byPointer docNameRetriever) (keyedRecord "P" "O" 5) = .ok none :=
  ⟨(C17_capability_wins docNameRetriever (keyedRecord "P" "O" 5) _ rfl).2.2.1,
   (C17_capability_wins docNameRetriever (keyedRecord "P" "O" 5) _ rfl).2.2.2⟩

/-- C18, at failing inputs: for a record whose primary key field is a boolean and declares
no wire type, the key definition returned has the type `BOOL`; a complex field gets `N`,
a pointer field `M`. -/
theorem C18_inferred_type_not_scalar :
    GetPartitionKeyField .absent (flagRecord true) = .ok (some ⟨some "Flag", some "BOOL"⟩) ∧
      mapToAwsType (.complex .complex128) = "N" ∧ mapToAwsType (.ptr .string) = "M" ∧
      mapToAwsType (.slice .string) = "SS" :=
  ⟨rfl, rfl, rfl, rfl⟩

/-- C19: for a record without the key-retrieval capability and without a field tagged
`key-type:"primary"`, `CreateDocument`, `GetDocument` and `DeleteDocument` each return the
error `MissingPrimaryKey` and make no call to the store. -/
theorem C19_missing_primary_key (lib : GoLib) (caps : Capabilities) (svc : Service)
    (tableName : String) (fs : List (StructField GoType × GoValue))
    (hcap : caps.keyRetriever = .absent)
    (htag : ∀ f ∈ fs.map Prod.fst, f.Tag.lookup "key-type" ≠ some "primary") :
    CreateDocument lib caps svc tableName (.struct fs) = .ok (some .MissingPrimaryKey, []) ∧
      GetDocument lib caps svc tableName (.struct fs) = .ok (some .MissingPrimaryKey, []) ∧
      DeleteDocument lib caps svc tableName (.struct fs) = .ok (some .MissingPrimaryKey, []) := by
  have hkey : GetPartitionKeyField caps.keyRetriever (.struct fs) = .ok none := by
    rw [hcap]
    exact (getAttributeDefinitionByTag_record fs "primary").2 htag
  refine ⟨?_, ?_, ?_⟩
  · unfold CreateDocument; rw [hkey]
  · unfold GetDocument; rw [hkey]
  · unfold DeleteDocument; rw [hkey]

/-- C19 at the record `pairRecord 1 2`, which declares no key, on a store where every
request would succeed. -/
theorem C19_missing_primary_key_witness :
    CreateDocument plainLib noCapabilities okService "t" (pairRecord 1 2) =
        .ok (some .MissingPrimaryKey, []) ∧
      GetDocument plainLib noCapabilities okService "t" (pairRecord 1 2) =
        .ok (some .MissingPrimaryKey, []) ∧
      DeleteDocument plainLib noCapabilities okService "t" (pairRecord 1 2) =
        .ok (some .MissingPrimaryKey, []) :=
  C19_missing_primary_key plainLib noCapabilities okService "t" _ rfl (by simp)

/-- C20 as stated fails: for a record without a primary key field, on a store in which
every request succeeds, `UpdateDocument` returns no error and sends one `PutItem`. -/
theorem C20_counterexample :
    GetPartitionKeyField .absent (pairRecord 1 2) = .ok none ∧
      UpdateDocument plainLib noCapabilities okService "t" (pairRecord 1 2) =
        .ok (none, [.PutItem "t" [("A", some (.ofN "1")), ("B", some (.ofN "2"))] none]) :=
  ⟨rfl, rfl⟩

/-- C20, amended.  `UpdateDocument` makes no check of the primary key.  For a record
without capabilities and without a field tagged `key-type:"primary"`, whose visible fields
have pairwise distinct wire names and encodings `encs` that all return:
`GetPartitionKeyField` returns nil, `CreateDocument` returns `MissingPrimaryKey`, and
`UpdateDocument` sends `PutItem` once, with the entries of the visible fields and no
condition, and returns the error of the store.  For every document: `UpdateDocument` never
returns `MissingPrimaryKey`; when `MarshalAWS` returns an item it sends `PutItem` once with
that item and no condition; and when `MarshalAWS` panics it panics. -/
theorem C20_update_unkeyed (lib : GoLib) (svc : Service) (tableName : String)
    (fs : List (StructField GoType × GoValue)) (encs : List (Option AttributeValue))
    (hnames : ((visibleFields fs).map
      (fun p => wireName (some (.struct (fs.map Prod.fst))) p.1)).Nodup)
    (henc : List.Forall₂ (fun p a => marshalToAttributeValue lib p.2 = .ok a)
      (visibleFields fs) encs)
    (htag : ∀ f ∈ fs.map Prod.fst, f.Tag.lookup "key-type" ≠ some "primary") :
    GetPartitionKeyField .absent (.struct fs) = .ok none ∧
      CreateDocument lib noCapabilities svc tableName (.struct fs) =
        .ok (some .MissingPrimaryKey, []) ∧
      UpdateDocument lib noCapabilities svc tableName (.struct fs) =
        .ok ((svc.PutItem tableName
            (keptEntries (List.zipWith
              (fun p a => (wireName (some (.struct (fs.map Prod.fst))) p.1, a))
              (visibleFields fs) encs)) none).map DocError.aws,
          [.PutItem tableName
            (keptEntries (List.zipWith
              (fun p a => (wireName (some (.struct (fs.map Prod.fst))) p.1, a))
              (visibleFields fs) encs)) none]) ∧
      (∀ (caps : Capabilities) (doc : GoValue) (calls : List StoreCall),
        UpdateDocument lib caps svc tableName doc ≠ .ok (some .MissingPrimaryKey, calls)) ∧
      (∀ (caps : Capabilities) (doc : GoValue) (item : WireDoc),
        MarshalAWS lib caps.marshaler doc = .ok item →
        UpdateDocument lib caps svc tableName doc =
          .ok ((svc.PutItem tableName item none).map DocError.aws,
            [.PutItem tableName item none])) ∧
      (∀ (caps : Capabilities) (doc : GoValue) (p : Panic),
        MarshalAWS lib caps.marshaler doc = .error p →
        UpdateDocument lib caps svc tableName doc = .error p) := by
  have hkey : GetPartitionKeyField .absent (.struct fs) = .ok none :=
    (getAttributeDefinitionByTag_record fs "primary").2 htag
  have hitem := (MarshalAWS_record lib fs encs hnames henc).1
  have hput : ∀ (caps : Capabilities) (doc : GoValue) (item : WireDoc),
      MarshalAWS lib caps.marshaler doc = .ok item →
      UpdateDocument lib caps svc tableName doc =
        .ok ((svc.PutItem tableName item none).map DocError.aws,
          [.PutItem tableName item none]) := by
    intro caps doc item h
    unfold UpdateDocument
    rw [h]
  refine ⟨hkey, ?_, hput noCapabilities _ _ hitem, ?_, hput, ?_⟩
  · have hk : GetPartitionKeyField noCapabilities.keyRetriever (.struct fs) = .ok none := hkey
    unfold CreateDocument
    rw [hk]
  · intro caps doc calls h
    unfold UpdateDocument at h
    split at h
    · cases h
    · simp only [Except.ok.injEq, Prod.mk.injEq] at h
      rcases hs : svc.PutItem tableName _ none with _ | msg <;> rw [hs] at h <;> simp at h
  · intro caps doc p h
    unfold UpdateDocument
    rw [h]

/-- C20, amended, at the record `pairRecord 1 2`, which declares no key, on a store where
every request succeeds. -/
theorem C20_update_unkeyed_witness :
    CreateDocument plainLib noCapabilities okService "t" (pairRecord 1 2) =
        .ok (some .MissingPrimaryKey, []) ∧
      UpdateDocument plainLib noCapabilities okService "t" (pairRecord 1 2) =
        .ok (none, [.PutItem "t" [("A", some (.ofN "1")), ("B", some (.ofN "2"))] none]) :=
  ⟨(C20_update_unkeyed plainLib okService "t"
      [(⟨"A", true, [], .int .int⟩, .int .int 1), (⟨"B", true, [], .int .int⟩, .int .int 2)]
      [some (.ofN "1"), some (.ofN "2")] (by decide)
      (by
        show List.Forall₂ _ [_, _] _
        exact .cons rfl (.cons rfl .nil))
      (by simp)).2.1,
    (C20_update_unkeyed plainLib okService "t"
      [(⟨"A", true, [], .int .int⟩, .int .int 1), (⟨"B", true, [], .int .int⟩, .int .int 2)]
      [some (.ofN "1"), some (.ofN "2")] (by decide)
      (by
        show List.Forall₂ _ [_, _] _
        exact .cons rfl (.cons rfl .nil))
      (by simp)).2.2.1⟩

/-- C21.  For every record type, and every pointer to one: when the type has a field
named `fieldName` (the first by that name), `lookupExpressionAttributeName` returns the
`aws-name` tag of that field, which is nil when the field declares none, and it returns nil
when no field has that name.  And for every record whose field names are pairwise
distinct, whose visible fields have pairwise distinct wire names and encodings `encs` that
all return: `MarshalAWS` returns a document in which the entry of a visible field with an
encoding `av` that is not nil is under the alias of the field when it declares one, else
under its declared name, and in which there is no entry under the declared name of the
field when that name is not the wire name of a visible field. -/
theorem C21_alias_lookup (fs : List (StructField GoType)) (fieldName : String) :
    (∀ f, fs.find? (fun g => g.Name == fieldName) = some f →
        lookupExpressionAttributeName (some (.struct fs)) fieldName = f.Tag.lookup "aws-name" ∧
        lookupExpressionAttributeName (some (.ptr (.struct fs))) fieldName =
          f.Tag.lookup "aws-name") ∧
      ((∀ f ∈ fs, f.Name ≠ fieldName) →
        lookupExpressionAttributeName (some (.struct fs)) fieldName = none ∧
        lookupExpressionAttributeName (some (.ptr (.struct fs))) fieldName = none) ∧
      (∀ (lib : GoLib) (rs : List (StructField GoType × GoValue))
          (encs : List (Option AttributeValue)) (f : StructField GoType) (v : GoValue)
          (av : AttributeValue),
        (rs.map (fun p => p.1.Name)).Nodup →
        ((visibleFields rs).map
          (fun p => wireName (some (.struct (rs.map Prod.fst))) p.1)).Nodup →
        List.Forall₂ (fun p a => marshalToAttributeValue lib p.2 = .ok a)
          (visibleFields rs) encs →
        (f, v) ∈ rs → f.exported = true → marshalToAttributeValue lib v = .ok (some av) →
        ∃ doc, MarshalAWS lib none (.struct rs) = .ok doc ∧
          doc.lookup
            (match lookupExpressionAttributeName (some (.struct (rs.map Prod.fst))) f.Name with
              | some a => a
              | none => f.Name) = some (some av) ∧
          lookupExpressionAttributeName (some (.struct (rs.map Prod.fst))) f.Name =
            f.Tag.lookup "aws-name" ∧
          (f.Name ∉ (visibleFields rs).map
              (fun p => wireName (some (.struct (rs.map Prod.fst))) p.1) →
            doc.lookup f.Name = none)) := by
  refine ⟨?_, ?_, ?_⟩
  · intro f hf
    simp [lookupExpressionAttributeName, GetTagByFieldName, hf]
  · intro hno
    have hfind : fs.find? (fun g => g.Name == fieldName) = none := by
      rw [List.find?_eq_none]
      intro g hg
      simpa using hno g hg
    simp [lookupExpressionAttributeName, GetTagByFieldName, hfind]
  · intro lib rs encs f v av hnames hwire henc hmem hexp hav
    have hnames1 : ((rs.map Prod.fst).map (fun x => x.Name)).Nodup := by
      rw [List.map_map]
      exact hnames
    have hf1 : f ∈ rs.map Prod.fst := List.mem_map_of_mem Prod.fst hmem
    have hfind := find_by_name_nodup (fun x : StructField GoType => x.Name)
      (rs.map Prod.fst) f hnames1 hf1
    have hlookup : lookupExpressionAttributeName (some (.struct (rs.map Prod.fst))) f.Name =
        f.Tag.lookup "aws-name" := by
      simp only [lookupExpressionAttributeName, GetTagByFieldName, hfind]
    have hvis : (f, v) ∈ visibleFields rs := by
      simp only [visibleFields, List.mem_filter]
      exact ⟨hmem, hexp⟩
    have hlook := keptEntries_zip_lookup
      (fun p : StructField GoType × GoValue => wireName (some (.struct (rs.map Prod.fst))) p.1)
      (fun p => marshalToAttributeValue lib p.2) av (visibleFields rs) encs henc hwire
      (f, v) hvis hav
    have hwn : wireName (some (.struct (rs.map Prod.fst))) f =
        (match lookupExpressionAttributeName (some (.struct (rs.map Prod.fst))) f.Name with
          | some a => a
          | none => f.Name) := by
      unfold wireName
      cases lookupExpressionAttributeName (some (.struct (rs.map Prod.fst))) f.Name <;> rfl
    simp only [hwn] at hlook
    refine ⟨_, (MarshalAWS_record lib rs encs hwire henc).1, hlook, hlookup, ?_⟩
    intro hnot
    apply lookup_none_of_not_key
    intro hin
    exact hnot (keptEntries_zip_keys
      (fun p : StructField GoType × GoValue => wireName (some (.struct (rs.map Prod.fst))) p.1)
      f.Name (visibleFields rs) encs hin)

/-- C21 at the record `aliasRecord "P" 5`: the field `Size` has the alias `#amount`, the
field `DocName` has none, and there is no field `Nope`; the document holds the size under
`#amount` and nothing under `Size`. -/
theorem C21_alias_lookup_witness :
    lookupExpressionAttributeName (some aliasRecordType) "Size" = some "#amount" ∧
      lookupExpressionAttributeName (some aliasRecordType) "DocName" = none ∧
      lookupExpressionAttributeName (some aliasRecordType) "Nope" = none ∧
      ∃ doc, MarshalAWS plainLib none (aliasRecord "P" 5) = .ok doc ∧
        doc.lookup "#amount" = some (some (.ofN "5")) ∧ doc.lookup "Size" = none :=
  ⟨((C21_alias_lookup
      [⟨"DocName", true, [("key-type", "primary")], .string⟩,
        ⟨"Size", true, [("aws-name", "#amount")], .int .int64⟩] "Size").1 ⟨"Size", true, [("aws-name", "#amount")], .int .int64⟩ rfl).1,
    ((C21_alias_lookup
      [⟨"DocName", true, [("key-type", "primary")], .string⟩,
        ⟨"Size", true, [("aws-name", "#amount")], .int .int64⟩] "DocName").1 ⟨"DocName", true, [("key-type", "primary")], .string⟩ rfl).1,
    ((C21_alias_lookup
      [⟨"DocName", true, [("key-type", "primary")], .string⟩,
        ⟨"Size", true, [("aws-name", "#amount")], .int .int64⟩] "Nope").2.1 (by simp)).1,
    ((C21_alias_lookup [] "").2.2 plainLib
      [(⟨"DocName", true, [("key-type", "primary")], .string⟩, .string "P"),
        (⟨"Size", true, [("aws-name", "#amount")], .int .int64⟩, .int .int64 5)]
      [some (.ofS "P"), some (.ofN "5")]
      ⟨"Size", true, [("aws-name", "#amount")], .int .int64⟩ (.int .int64 5) (.ofN "5")
      (by decide) (by decide)
      (by
        show List.Forall₂ _ [_, _] _
        exact .cons rfl (.cons rfl .nil))
      (by simp) rfl rfl).imp
      (fun _ h => ⟨h.1, h.2.1, h.2.2.2 (by decide)⟩)⟩

/-- C22, at the failing input: the record type whose field `Size` has the wire name
`#amount`.  The document `Size: N "5"` holds no wire name of the type, so that its
restriction to the wire names is empty; `UnmarshalAWS` decodes it to `Size = 5` and the
empty document to `Size = 0`.  The document `#amount: N "5"` is decoded to `Size = 0`.
What holds for every record type is the equation with the declared names of the visible
fields in place of their wire names. -/
theorem C22_alias_ignored_on_decode :
    lookupExpressionAttributeName (some aliasRecordType) "Size" = some "#amount" ∧
      UnmarshalAWS plainLib aliasRecordType [("Size", some (.ofN "5"))] =
        .ok (aliasRecord "" 5) ∧
      UnmarshalAWS plainLib aliasRecordType [] = .ok (aliasRecord "" 0) ∧
      UnmarshalAWS plainLib aliasRecordType [("#amount", some (.ofN "5"))] =
        .ok (aliasRecord "" 0) ∧
      (∀ (lib : GoLib) (fs : List (StructField GoType)) (doc : WireDoc),
        UnmarshalAWS lib (.struct fs) doc =
          UnmarshalAWS lib (.struct fs)
            (doc.filter (fun e => fs.any (fun f => f.exported && f.Name == e.1)))) := by
  refine ⟨rfl, rfl, rfl, rfl, ?_⟩
  intro lib fs doc
  have h := unmarshalFields_restrict lib doc
    (fun k => fs.any (fun f => f.exported && f.Name == k)) fs
    (by
      intro f hf hexp
      simp only [List.any_eq_true, Bool.and_eq_true, beq_iff_eq]
      exact ⟨f, hf, hexp, rfl⟩)
  simp only [UnmarshalAWS, h]

/-- C23 as stated fails: the Number `"010"` decodes into an `int` as 8, not as its base-10
reading 10; and `"0x10"` and `"1_0"`, which are not base-10 representations, decode
without an error, to 16 and to 10. -/
theorem C23_counterexample :
    marshalToGoValue plainLib (some (.ofN "010")) (.int .int) = .ok (.int .int 8, none) ∧
      marshalToGoValue plainLib (some (.ofN "0x10")) (.uint .uint16) =
        .ok (.uint .uint16 16, none) ∧
      marshalToGoValue plainLib (some (.ofN "1_0")) (.int .int) = .ok (.int .int 10, none) :=
  ⟨rfl, rfl, rfl⟩

/-- C23, amended.  For every Number text and every target kind `int`, `int8` .. `int64`,
`uint`, `uint8` .. `uint64`, `marshalToGoValue` returns no error exactly when `ParseInt`
(resp. `ParseUint`) with base 0 and the bit size of the kind returns none, and the decoded
value is then that reading, stored unchanged; with an error it returns the zero value and
that error.  For the base-10 text of an integer within the range of the kind the decoded
value is that integer. -/
theorem C23_number_parsing (lib : GoLib) (s : String) :
    (∀ k : IntKind, marshalToGoValue lib (some (.ofN s)) (.int k) =
        (match strconv.ParseInt s 0 (nSize k.Kind) with
          | (_, some e) => .ok (.int k 0, some (.num e))
          | (n, none) => .ok (.int k n, none))) ∧
      (∀ k : UintKind, k ≠ .uintptr → marshalToGoValue lib (some (.ofN s)) (.uint k) =
        (match strconv.ParseUint s 0 (nSize k.Kind) with
          | (_, some e) => .ok (.uint k 0, some (.num e))
          | (n, none) => .ok (.uint k n, none))) ∧
      (∀ (k : IntKind) (n : Int), k.inRange n →
        marshalToGoValue lib (some (.ofN (strconv.FormatInt n))) (.int k) =
          .ok (.int k n, none)) ∧
      (∀ (k : UintKind) (n : Nat), k ≠ .uintptr → k.inRange n →
        marshalToGoValue lib (some (.ofN (strconv.FormatUint n))) (.uint k) =
          .ok (.uint k n, none)) := by
  refine ⟨fun k => marshalToGoValue_int lib k s, fun k hk => marshalToGoValue_uint lib k hk s,
    ?_, ?_⟩
  · intro k n hn
    rw [marshalToGoValue_numeric lib _ _ (Or.inr (Or.inl (by cases k <;> rfl)))]
    exact marshalNumber_FormatInt lib k n hn
  · intro k n hk hn
    have hp : strconv.ParseUint (strconv.FormatUint n) 0 (nSize k.Kind) = (n, none) := by
      apply strconv.parseUintChars_formatBits _ _ n _ (nSize_uint_le k)
      rw [nSize_uint_bits k hk]
      unfold UintKind.inRange at hn
      omega
    rw [marshalToGoValue_uint lib k hk, hp]

/-- C23, amended, at the texts `"-128"` for an `int8` and `"65535"` for a `uint16`. -/
theorem C23_number_parsing_witness :
    marshalToGoValue plainLib (some (.ofN (strconv.FormatInt (-128)))) (.int .int8) =
        .ok (.int .int8 (-128), none) ∧
      marshalToGoValue plainLib (some (.ofN (strconv.FormatUint 65535))) (.uint .uint16) =
        .ok (.uint .uint16 65535, none) :=
  ⟨(C23_number_parsing plainLib "").2.2.1 .int8 (-128)
      (by simp [IntKind.inRange, IntKind.bits]),
    (C23_number_parsing plainLib "").2.2.2 .uint16 65535 (by decide)
      (by simp [UintKind.inRange, UintKind.bits])⟩

/-- C24 as stated fails: the Number `"0177"`, whose base-10 reading 177 is outside the range
of an `int8`, decodes into an `int8` without an error, as 127; and `"0377"` decodes into a
`uint8` as 255. -/
theorem C24_counterexample :
    marshalToGoValue plainLib (some (.ofN "0177")) (.int .int8) = .ok (.int .int8 127, none) ∧
      marshalToGoValue plainLib (some (.ofN "0377")) (.uint .uint8) =
        .ok (.uint .uint8 255, none) :=
  ⟨rfl, rfl⟩

/-- C24, amended.  For every target kind `int`, `int8` .. `int64`, `uint`, `uint8` ..
`uint64`: the base-10 text of an integer outside the range of the kind, and every text that
holds a decimal point, decodes to the zero value with an error; and a value that
`marshalToGoValue` returns without an error is the reading of `ParseInt` (resp.
`ParseUint`) with base 0 and lies within the range of the kind. -/
theorem C24_no_truncation (lib : GoLib) :
    (∀ (k : IntKind) (n : Int), ¬ k.inRange n →
        ∃ e, marshalToGoValue lib (some (.ofN (strconv.FormatInt n))) (.int k) =
          .ok (.int k 0, some e)) ∧
      (∀ (k : UintKind) (n : Nat), k ≠ .uintptr → ¬ k.inRange n →
        ∃ e, marshalToGoValue lib (some (.ofN (strconv.FormatUint n))) (.uint k) =
          .ok (.uint k 0, some e)) ∧
      (∀ (k : UintKind) (n : Int), k ≠ .uintptr → n < 0 →
        ∃ e, marshalToGoValue lib (some (.ofN (strconv.FormatInt n))) (.uint k) =
          .ok (.uint k 0, some e)) ∧
      (∀ (k : IntKind) (s : String), '.' ∈ s.data →
        ∃ e, marshalToGoValue lib (some (.ofN s)) (.int k) = .ok (.int k 0, some e)) ∧
      (∀ (k : UintKind) (s : String), k ≠ .uintptr → '.' ∈ s.data →
        ∃ e, marshalToGoValue lib (some (.ofN s)) (.uint k) = .ok (.uint k 0, some e)) ∧
      (∀ (k : IntKind) (s : String) (v : GoValue),
        marshalToGoValue lib (some (.ofN s)) (.int k) = .ok (v, none) →
        ∃ n, v = .int k n ∧ k.inRange n ∧ strconv.ParseInt s 0 (nSize k.Kind) = (n, none)) ∧
      (∀ (k : UintKind) (s : String) (v : GoValue), k ≠ .uintptr →
        marshalToGoValue lib (some (.ofN s)) (.uint k) = .ok (v, none) →
        ∃ n, v = .uint k n ∧ k.inRange n ∧ strconv.ParseUint s 0 (nSize k.Kind) = (n, none)) := by
  have hdot : strconv.digitVal '.' = none := by decide
  have hminus : strconv.digitVal '-' = none := by decide
  refine ⟨?_, ?_, ?_, ?_, ?_, ?_, ?_⟩
  · intro k n hn
    have hout : n < -(2 ^ ((if nSize k.Kind = 0 then strconv.IntSize else nSize k.Kind) - 1) : Int)
        ∨ 2 ^ ((if nSize k.Kind = 0 then strconv.IntSize else nSize k.Kind) - 1) ≤ n := by
      rw [nSize_int_bits]
      unfold IntKind.inRange at hn
      by_contra hc
      push_neg at hc
      exact hn ⟨hc.1, hc.2⟩
    have hp := strconv.ParseInt_FormatInt_over n (nSize k.Kind) (nSize_int_le k)
      (int_bits_wide k) hout
    rw [marshalToGoValue_int]
    rcases hq : strconv.ParseInt (strconv.FormatInt n) 0 (nSize k.Kind) with ⟨x, _ | e⟩
    · rw [hq] at hp; cases hp
    · exact ⟨_, rfl⟩
  · intro k n hk hn
    have hover : 2 ^ (if nSize k.Kind = 0 then strconv.IntSize else nSize k.Kind) - 1 < n := by
      rw [nSize_uint_bits k hk]
      unfold UintKind.inRange at hn
      have hpos : 0 < 2 ^ k.bits := Nat.pos_pow_of_pos _ (by decide)
      omega
    have hp : strconv.ParseUint (strconv.FormatUint n) 0 (nSize k.Kind) = _ :=
      strconv.parseUintChars_formatBits_over "ParseUint" (strconv.FormatUint n) n (nSize k.Kind)
        (nSize_uint_le k) hover
    rw [marshalToGoValue_uint lib k hk, hp]
    exact ⟨_, rfl⟩
  · intro k n hk hn
    have hmem : '-' ∈ (strconv.FormatInt n).data := by
      simp [strconv.FormatInt, hn]
    have hp := strconv.parseUintChars_nondigit "ParseUint" (strconv.FormatInt n) '-' hminus
      (by decide) (strconv.FormatInt n).data (nSize k.Kind) (nSize_uint_le k) hmem
    rw [marshalToGoValue_uint lib k hk]
    rcases hq : strconv.ParseUint (strconv.FormatInt n) 0 (nSize k.Kind) with ⟨x, _ | e⟩
    · unfold strconv.ParseUint at hq
      rw [hq] at hp
      rcases hp with hp | hp <;> simp at hp
    · exact ⟨_, rfl⟩
  · intro k s hs
    obtain ⟨e, he⟩ := strconv.ParseInt_nondigit '.' hdot (by decide) (by decide) (by decide) s
      (nSize k.Kind) (nSize_int_le k) (int_bits_wide k) hs
    rw [marshalToGoValue_int]
    rcases hq : strconv.ParseInt s 0 (nSize k.Kind) with ⟨x, _ | e1⟩
    · rw [hq] at he; cases he
    · exact ⟨_, rfl⟩
  · intro k s hk hs
    have hp := strconv.parseUintChars_nondigit "ParseUint" s '.' hdot (by decide) s.data
      (nSize k.Kind) (nSize_uint_le k) hs
    rw [marshalToGoValue_uint lib k hk]
    rcases hq : strconv.ParseUint s 0 (nSize k.Kind) with ⟨x, _ | e⟩
    · unfold strconv.ParseUint at hq
      rw [hq] at hp
      rcases hp with hp | hp <;> simp at hp
    · exact ⟨_, rfl⟩
  · intro k s v h
    rw [marshalToGoValue_int] at h
    rcases hq : strconv.ParseInt s 0 (nSize k.Kind) with ⟨x, _ | e⟩
    · rw [hq] at h
      have hr := strconv.ParseInt_range s 0 (nSize k.Kind) x hq
      rw [nSize_int_bits] at hr
      simp only [Except.ok.injEq, Prod.mk.injEq, and_true] at h
      exact ⟨x, h.symm, hr, rfl⟩
    · rw [hq] at h
      simp at h
  · intro k s v hk h
    rw [marshalToGoValue_uint lib k hk] at h
    rcases hq : strconv.ParseUint s 0 (nSize k.Kind) with ⟨x, _ | e⟩
    · rw [hq] at h
      have hr := strconv.parseUintChars_range "ParseUint" s s.data 0 (nSize k.Kind) x hq
      rw [nSize_uint_bits k hk] at hr
      have hpos : 0 < 2 ^ k.bits := Nat.pos_pow_of_pos _ (by decide)
      simp only [Except.ok.injEq, Prod.mk.injEq, and_true] at h
      exact ⟨x, h.symm, by unfold UintKind.inRange; omega, rfl⟩
    · rw [hq] at h
      simp at h

/-- C24, amended, at the text `"300"` for an `int8` and at `"2.5"` for a `uint16`. -/
theorem C24_no_truncation_witness :
    (∃ e, marshalToGoValue plainLib (some (.ofN (strconv.FormatInt 300))) (.int .int8) =
        .ok (.int .int8 0, some e)) ∧
      (∃ e, marshalToGoValue plainLib (some (.ofN "2.5")) (.uint .uint16) =
        .ok (.uint .uint16 0, some e)) :=
  ⟨(C24_no_truncation plainLib).1 .int8 300
      (by simp [IntKind.inRange, IntKind.bits]),
    (C24_no_truncation plainLib).2.2.2.2.1 .uint16 "2.5" (by decide) (by decide)⟩

/-- C25.  Decoding into a target of interface type: a wire value with `S` set gives the
string `S`; else one with `BOOL` set gives the boolean `BOOL`; else one with `N` set gives
the `float64` that `ParseFloat` reads off the text with bit size 64, never an integer,
and the error of `ParseFloat` when the text does not parse. -/
theorem C25_untyped_inference (lib : GoLib) (av : AttributeValue) :
    (∀ s, av.S = some s →
        marshalToGoValue lib (some av) .iface = .ok (.iface (some (.string s)), none)) ∧
      (∀ b, av.S = none → av.BOOL = some b →
        marshalToGoValue lib (some av) .iface = .ok (.iface (some (.bool b)), none)) ∧
      (∀ text x, av.S = none → av.BOOL = none → av.N = some text →
        lib.ParseFloat text 64 = (x, none) →
        marshalToGoValue lib (some av) .iface =
          .ok (.iface (some (.float .float64 x)), none)) ∧
      (∀ text x e, av.S = none → av.BOOL = none → av.N = some text →
        lib.ParseFloat text 64 = (x, some e) →
        marshalToGoValue lib (some av) .iface = .ok (.iface none, some (.num e))) := by
  refine ⟨?_, ?_, ?_, ?_⟩
  · intro s hS
    rw [marshalToGoValue_some]
    simp [marshalToGoValueSwitch, GoType.Kind, hS, reflectSet]
  · intro b hS hB
    rw [marshalToGoValue_some]
    simp [marshalToGoValueSwitch, GoType.Kind, hS, hB, reflectSet]
  · intro text x hS hB hN hp
    rw [marshalToGoValue_some]
    simp [marshalToGoValueSwitch, GoType.Kind, hS, hB, hN, marshalNumber, isUintKind,
      isIntKind, isFloatKind, nSize, hp, reflectSet]
  · intro text x e hS hB hN hp
    rw [marshalToGoValue_some]
    simp [marshalToGoValueSwitch, GoType.Kind, hS, hB, hN, marshalNumber, isUintKind,
      isIntKind, isFloatKind, nSize, hp, zeroValue]

/-- C25 at the wire values `S: "a"` and `N: "1"`, with a library in which every text parses
as the float with bit pattern 0. -/
theorem C25_untyped_inference_witness :
    marshalToGoValue plainLib (some (.ofS "a")) .iface =
        .ok (.iface (some (.string "a")), none) ∧
      marshalToGoValue plainLib (some (.ofN "1")) .iface =
        .ok (.iface (some (.float .float64 0)), none) :=
  ⟨(C25_untyped_inference plainLib (.ofS "a")).1 "a" rfl,
    (C25_untyped_inference plainLib (.ofN "1")).2.2.1 "1" 0 rfl rfl rfl rfl⟩

/-- C26 as stated fails: decoding the wire value `S: "x"` into a `map[string]int` returns
an allocated map without entries and no error. -/
theorem C26_counterexample :
    marshalToGoValue plainLib (some (.ofS "x")) (.map .string (.int .int)) =
        .ok (.map .string (.int .int) (some []), none) ∧
      marshalToGoValue plainLib (some (.ofNULL true)) (.map .string (.int .int)) =
        .ok (.map .string (.int .int) (some []), none) :=
  ⟨rfl, rfl⟩

/-- C26, amended.  For every map target type and every wire value whose member `M` is not
populated, whatever its other members, `marshalToGoValue` returns an allocated map of the
target type without entries, and no error. -/
theorem C26_map_target_unchecked (lib : GoLib) (av : AttributeValue) (kt et : GoType)
    (hM : av.M = none ∨ av.M = some []) :
    marshalToGoValue lib (some av) (.map kt et) = .ok (.map kt et (some []), none) := by
  rw [marshalToGoValue_some]
  rcases hM with h | h <;>
    simp [marshalToGoValueSwitch, GoType.Kind, h, decodeEntries, decodeKeyType,
      decodeItemType, GoType.Elem, isUintKind, isIntKind, isFloatKind]

/-- C26, amended, at the wire value `N: "5"` and the target `map[int]string`. -/
theorem C26_map_target_unchecked_witness :
    marshalToGoValue plainLib (some (.ofN "5")) (.map (.int .int) .string) =
      .ok (.map (.int .int) .string (some []), none) :=
  C26_map_target_unchecked plainLib (.ofN "5") (.int .int) .string (Or.inl rfl)

/-- C27 as stated fails: `uintptr` is an unsigned kind and the text `"1"` parses as an
unsigned number, and `convertKey` returns the error "cannot convert". -/
theorem C27_counterexample :
    convertKey plainLib "1" (.uint .uintptr) =
        .ok (.uint .uintptr 0, some (.cannotConvertKey (.uint .uintptr))) ∧
      strconv.ParseUint "1" 0 64 = (1, none) :=
  ⟨rfl, rfl⟩

/-- C27, amended.  For every key text: `convertKey` returns the text when the key type is
`string`; for the key kinds `int`, `int8` .. `int64`, `uint`, `uint8` .. `uint64`,
`float32`, `float64` it returns the number that `ParseInt`, `ParseUint` or `ParseFloat`
reads off the text, and the key conversion error when the text does not parse; for every
other key kind (boolean, record, pointer, `uintptr`, ...) it returns the error "cannot
convert", and decoding a non-empty Map into a map with such a key kind returns that
error. -/
theorem C27_key_conversion (lib : GoLib) (key : String) :
    convertKey lib key .string = .ok (.string key, none) ∧
      (∀ k : IntKind, convertKey lib key (.int k) =
        (match strconv.ParseInt key 0 (nSize k.Kind) with
          | (_, some _) => .ok (.int k 0, some (.errorConvertingKey (.int k)))
          | (n, none) => .ok (.int k n, none))) ∧
      (∀ k : UintKind, k ≠ .uintptr → convertKey lib key (.uint k) =
        (match strconv.ParseUint key 0 (nSize k.Kind) with
          | (_, some _) => .ok (.uint k 0, some (.errorConvertingKey (.uint k)))
          | (n, none) => .ok (.uint k n, none))) ∧
      (∀ k : FloatKind, convertKey lib key (.float k) =
        (match lib.ParseFloat key (nSize k.Kind) with
          | (_, some _) => .ok (.float k 0, some (.errorConvertingKey (.float k)))
          | (x, none) => .ok (.float k x, none))) ∧
      (∀ t : GoType, t.Kind ≠ .String → isUintKind t.Kind = false → isIntKind t.Kind = false →
        isFloatKind t.Kind = false →
        convertKey lib key t = .ok (zeroValue t, some (.cannotConvertKey t)) ∧
          ∀ (et : GoType) (a : Option AttributeValue) (rest : WireDoc),
            marshalToGoValue lib (some (.ofM ((key, a) :: rest))) (.map t et) =
              .ok (.map t et none, some (.cannotConvertKey t))) := by
  obtain ⟨hstr, hint, huint, hfloat, hother⟩ := convertKey_cases lib key
  refine ⟨hstr, hint, huint, hfloat, ?_⟩
  intro t hs hu hi hf
  refine ⟨hother t hs hu hi hf, ?_⟩
  intro et a rest
  rw [marshalToGoValue_some]
  simp [marshalToGoValueSwitch, GoType.Kind, isUintKind, isIntKind, isFloatKind,
    AttributeValue.ofM, AttributeValue.M, decodeEntries, decodeKeyType, decodeItemType,
    GoType.Elem, hother t hs hu hi hf, zeroValue]

/-- C27, amended, at the key text `"7"`: an `int8` key, and a boolean key. -/
theorem C27_key_conversion_witness :
    convertKey plainLib "7" (.int .int8) = .ok (.int .int8 7, none) ∧
      convertKey plainLib "7" .bool = .ok (.bool false, some (.cannotConvertKey .bool)) ∧
      marshalToGoValue plainLib (some (.ofM [("7", some (.ofS "x"))])) (.map .bool .string) =
        .ok (.map .bool .string none, some (.cannotConvertKey .bool)) :=
  ⟨(C27_key_conversion plainLib "7").2.1 .int8,
    ((C27_key_conversion plainLib "7").2.2.2.2 .bool (by decide) rfl rfl rfl).1,
    ((C27_key_conversion plainLib "7").2.2.2.2 .bool (by decide) rfl rfl rfl).2
      .string (some (.ofS "x")) []⟩

/-- C28 as stated fails: the wire Map with the keys `"1"` and `"01"` has two entries, both
keys parse as the `int` 1 and both values decode, and the decoded `map[int]string` has one
entry; and for a map whose element type is an array the value decodes and the call
panics. -/
theorem C28_counterexample :
    marshalToGoValue plainLib
        (some (.ofM [("1", some (.ofS "a")), ("01", some (.ofS "b"))]))
        (.map (.int .int) .string) =
        .ok (.map (.int .int) .string (some [(.int .int 1, .string "b")]), none) ∧
      convertKey plainLib "1" (.int .int) = .ok (.int .int 1, none) ∧
      convertKey plainLib "01" (.int .int) = .ok (.int .int 1, none) ∧
      marshalToGoValue plainLib (some (.ofSS ["x"])) (.array 1 .string) =
        .ok (.slice .string (some [.string "x"]), none) ∧
      marshalToGoValue plainLib (some (.ofM [("a", some (.ofSS ["x"]))]))
        (.map .string (.array 1 .string)) = .error .notAssignable :=
  ⟨rfl, rfl, rfl, rfl, rfl⟩

/-- C28, amended.  For every wire Map `m` and every map target: if every key converts
without an error, the converted keys are pairwise different, and every value decodes
without an error to a value that the element type takes, then `marshalToGoValue` returns,
without an error, the map that holds exactly, in entry order, one entry per entry of `m`:
the decoded value under the converted key. -/
theorem C28_map_decoding (lib : GoLib) (kt et : GoType) (m : WireDoc)
    (kvs : List (GoValue × GoValue))
    (hdec : List.Forall₂ (fun e p => convertKey lib e.1 kt = .ok (p.1, none) ∧
      ∃ x, marshalToGoValue lib e.2 et = .ok (x, none) ∧ reflectSet et x = .ok p.2) m kvs)
    (hdist : kvs.Pairwise (fun p q => keyEq lib p.1 q.1 = false)) :
    marshalToGoValue lib (some (.ofM m)) (.map kt et) = .ok (.map kt et (some kvs), none) ∧
      kvs.length = m.length := by
  have h := decodeEntries_eq lib kt et m kvs [] hdec (by simpa using hdist)
  rw [List.nil_append] at h
  refine ⟨?_, (List.Forall₂.length_eq hdec).symm⟩
  rw [marshalToGoValue_some]
  simp [marshalToGoValueSwitch, GoType.Kind, isUintKind, isIntKind, isFloatKind,
    AttributeValue.ofM, AttributeValue.M, decodeKeyType, decodeItemType, GoType.Elem, h]

/-- C28, amended, at the wire Map with the keys `"1"` and `"2"` and the target
`map[int]string`. -/
theorem C28_map_decoding_witness :
    marshalToGoValue plainLib (some (.ofM [("1", some (.ofS "a")), ("2", some (.ofS "b"))]))
        (.map (.int .int) .string) =
      .ok (.map (.int .int) .string (some [(.int .int 1, .string "a"),
        (.int .int 2, .string "b")]), none) :=
  (C28_map_decoding plainLib (.int .int) .string
    [("1", some (.ofS "a")), ("2", some (.ofS "b"))]
    [(.int .int 1, .string "a"), (.int .int 2, .string "b")]
    (.cons ⟨rfl, .string "a", rfl, rfl⟩ (.cons ⟨rfl, .string "b", rfl, rfl⟩ .nil))
    (by simp [keyEq])).1

/-- C29 as stated fails: decoding the wire value `S: "x"` into a `[]string` returns the nil
slice and no error; and decoding the string set `["a"]` into a `[]int` returns no error
either: the call panics. -/
theorem C29_counterexample :
    marshalToGoValue plainLib (some (.ofS "x")) (.slice .string) =
        .ok (.slice .string none, none) ∧
      marshalToGoValue plainLib (some (.ofSS ["a"])) (.slice (.int .int)) =
        .error .notAssignable :=
  ⟨rfl, rfl⟩

/-- C29, amended.  For every slice or array target type and every wire value none of whose
members `SS`, `NS`, `BS`, `L` is populated, `marshalToGoValue` returns the zero value of the
target type (the nil slice) and no error; with `BS` populated and neither `SS` nor `NS` it
returns the error "not yet implemented"; and decoding a non-empty string set into a slice whose element type
is neither `string` nor an interface panics. -/
theorem C29_sequence_target_unchecked (lib : GoLib) (av : AttributeValue) (e : GoType) :
    (nonEmpty av.SS = false → nonEmpty av.NS = false → nonEmpty av.BS = false →
        nonEmpty av.L = false →
        marshalToGoValue lib (some av) (.slice e) = .ok (.slice e none, none) ∧
          ∀ n, marshalToGoValue lib (some av) (.array n e) =
            .ok (zeroValue (.array n e), none)) ∧
      (nonEmpty av.SS = false → nonEmpty av.NS = false → nonEmpty av.BS = true →
        marshalToGoValue lib (some av) (.slice e) = .ok (.slice e none, some .notImplemented)) ∧
      (∀ s ss, av.SS = some (s :: ss) → e ≠ .string → e ≠ .iface →
        marshalToGoValue lib (some av) (.slice e) = .error .notAssignable) := by
  refine ⟨?_, ?_, ?_⟩
  · intro hSS hNS hBS hL
    constructor
    · rw [marshalToGoValue_some]
      simp [marshalToGoValueSwitch, GoType.Kind, hSS, hNS, hBS, hL, isUintKind, isIntKind,
        isFloatKind, zeroValue]
    · intro n
      rw [marshalToGoValue_some]
      simp [marshalToGoValueSwitch, GoType.Kind, hSS, hNS, hBS, hL, isUintKind, isIntKind,
        isFloatKind]
  · intro hSS hNS hBS
    rw [marshalToGoValue_some]
    simp [marshalToGoValueSwitch, GoType.Kind, hSS, hNS, hBS, isUintKind, isIntKind,
      isFloatKind, zeroValue]
  · intro s ss hSS hs hi
    have hset : reflectSet e (.string s) = .error .notAssignable := by
      have hb : GoType.beq .string e = false := by
        rcases hbe : GoType.beq .string e with _ | _
        · rfl
        · exact absurd (beq_string e hbe) hs
      cases e <;> first | exact absurd rfl hi | simp [reflectSet, GoValue.typeOf, hb]
    rw [marshalToGoValue_some]
    simp [marshalToGoValueSwitch, GoType.Kind, hSS, nonEmpty, isUintKind, isIntKind,
      isFloatKind, decodeItemType, GoType.Elem, decodeStringSet, hset]

/-- C29, amended, at the wire value `BOOL: true` and the target `[]int`. -/
theorem C29_sequence_target_unchecked_witness :
    marshalToGoValue plainLib (some (.ofBOOL true)) (.slice (.int .int)) =
      .ok (.slice (.int .int) none, none) :=
  ((C29_sequence_target_unchecked plainLib (.ofBOOL true) (.int .int)).1 rfl rfl rfl rfl).1

/-- C30, at the failing input: for every non-empty array of strings, such as
`[2]string{"a", "b"}`, the encoder panics; decoding a string set into an array type of
strings returns a slice, not an array, and `UnmarshalAWS` into a record with a field of
type `[2]string` panics.  For a slice of strings the encoder returns the string set and the
decoder returns the slice. -/
theorem C30_string_array_panics (lib : GoLib) (s : String) (ss : List String) :
    marshalToAttributeValue lib (.array .string ((s :: ss).map GoValue.string)) =
        .error .interfaceConversion ∧
      marshalToAttributeValue plainLib (.array .string [.string "a", .string "b"]) =
        .error .interfaceConversion ∧
      (∀ n, marshalToGoValue lib (some (.ofSS (s :: ss))) (.array n .string) =
        .ok (.slice .string (some ((s :: ss).map GoValue.string)), none)) ∧
      UnmarshalAWS plainLib (.struct [⟨"A", true, [], .array 2 .string⟩])
        [("A", some (.ofSS ["a", "b"]))] = .error .notAssignable ∧
      marshalToAttributeValue lib (.slice .string (some ((s :: ss).map GoValue.string))) =
        .ok (some (.ofSS (s :: ss))) ∧
      marshalToGoValue lib (some (.ofSS (s :: ss))) (.slice .string) =
        .ok (.slice .string (some ((s :: ss).map GoValue.string)), none) := by
  have h := marshalToGoValue_stringSet lib (.ofSS (s :: ss)) s ss rfl
  refine ⟨?_, rfl, h.2.2.1, rfl, h.2.2.2.1, h.1⟩
  rw [marshalToAttributeValue_array]
  simp [marshalSequence, GoType.Kind, asStringSlice]

/-- C31 as stated fails: the number set `["0177"]`, whose text read in base 10 is 177,
outside the range of an `int8`, decodes into a `[]int8` without an error, as `[127]`; and
`["010"]` decodes as `[8]`. -/
theorem C31_counterexample :
    marshalToGoValue plainLib (some (.ofNS ["0177"])) (.slice (.int .int8)) =
        .ok (.slice (.int .int8) (some [.int .int8 127]), none) ∧
      marshalToGoValue plainLib (some (.ofNS ["010"])) (.slice (.int .int8)) =
        .ok (.slice (.int .int8) (some [.int .int8 8]), none) ∧
      (strconv.ParseInt "0177" 10 8).2 = some ⟨"ParseInt", "0177", .ErrRange⟩ ∧
      strconv.ParseInt "010" 10 8 = (10, none) :=
  ⟨rfl, rfl, rfl, rfl⟩

/-- C31, amended.  Decoding a wire value whose number set is `t :: ts` (and whose string
set is not populated) into a slice or array type of signed integers of kind `k`: when
every text parses (`ParseInt` with base 0 at the width of `k`), the result is the slice of
the readings, each within the range of `k`, of the same length and in the same order; when
a text does not parse, the result is the conversion error with the zero value; and the
decode returns a value without an error if and only if every text parses. -/
theorem C31_number_set_signed (lib : GoLib) (av : AttributeValue) (k : IntKind)
    (t : String) (ts : List String) (target : GoType)
    (htarget : target = .slice (.int k) ∨ ∃ n, target = .array n (.int k))
    (hSS : nonEmpty av.SS = false) (hNS : av.NS = some (t :: ts)) :
    (∀ ns : List Int,
        List.Forall₂ (fun text n => strconv.ParseInt text 0 (nSize k.Kind) = (n, none))
          (t :: ts) ns →
        marshalToGoValue lib (some av) target =
            .ok (.slice (.int k) (some (ns.map (GoValue.int k))), none) ∧
          (ns.map (GoValue.int k)).length = (t :: ts).length ∧ ∀ n ∈ ns, k.inRange n) ∧
      ((∃ text ∈ t :: ts, ∃ e, (strconv.ParseInt text 0 (nSize k.Kind)).2 = some e) →
        marshalToGoValue lib (some av) target = .ok (zeroValue target, some .nsConversion)) ∧
      ((∃ v, marshalToGoValue lib (some av) target = .ok (v, none)) ↔
        ∀ text ∈ t :: ts, (strconv.ParseInt text 0 (nSize k.Kind)).2 = none) := by
  have hdec := marshalToGoValue_numberSet_int lib av k t ts target htarget hSS hNS
  have hok : ∀ ns : List Int,
      List.Forall₂ (fun text n => strconv.ParseInt text 0 (nSize k.Kind) = (n, none))
        (t :: ts) ns →
      marshalToGoValue lib (some av) target =
        .ok (.slice (.int k) (some (ns.map (GoValue.int k))), none) := by
    intro ns h
    rw [hdec, (decodeNumberSetInt_ok k _ ns h).1]
  have hbad : (∃ text ∈ t :: ts, ∃ e, (strconv.ParseInt text 0 (nSize k.Kind)).2 = some e) →
      marshalToGoValue lib (some av) target = .ok (zeroValue target, some .nsConversion) := by
    intro h
    rw [hdec, decodeNumberSetInt_error k _ h]
  refine ⟨?_, hbad, ?_⟩
  · intro ns h
    refine ⟨hok ns h, ?_, (decodeNumberSetInt_ok k _ ns h).2⟩
    rw [List.length_map]
    exact (List.Forall₂.length_eq h).symm
  · constructor
    · rintro ⟨v, hv⟩ text hmem
      rcases hp : (strconv.ParseInt text 0 (nSize k.Kind)).2 with _ | e
      · rfl
      · rw [hbad ⟨text, hmem, e, hp⟩] at hv
        simp at hv
    · intro hall
      have hf : List.Forall₂
          (fun text n => strconv.ParseInt text 0 (nSize k.Kind) = (n, none)) (t :: ts)
          ((t :: ts).map (fun text => (strconv.ParseInt text 0 (nSize k.Kind)).1)) := by
        rw [List.forall₂_map_right_iff, List.forall₂_same]
        intro text hmem
        have h2 := hall text hmem
        rcases hp : strconv.ParseInt text 0 (nSize k.Kind) with ⟨n, e⟩
        rw [hp] at h2
        simp only at h2
        rw [h2]
      exact ⟨_, hok _ hf⟩

/-- C31, amended, at the number set `["1", "-2", "3"]` and the target `[]int8`. -/
theorem C31_number_set_signed_witness :
    marshalToGoValue plainLib (some (.ofNS ["1", "-2", "3"])) (.slice (.int .int8)) =
      .ok (.slice (.int .int8) (some [.int .int8 1, .int .int8 (-2), .int .int8 3]), none) :=
  ((C31_number_set_signed plainLib (.ofNS ["1", "-2", "3"]) .int8 "1" ["-2", "3"]
    (.slice (.int .int8)) (Or.inl rfl) rfl rfl).1 [1, -2, 3]
    (.cons rfl (.cons rfl (.cons rfl .nil)))).1

/-- C32, at the failing input: decoding a number set whose first text is `"1"` into a
`[]uint` returns the conversion error, for the text parses; and the number set
`["x", "-1"]`, neither text of which parses, is decoded into a `[]uint8` without an error,
as `[0, 0]`.  The same set `["1", "2", "3"]` decodes into a `[]int`. -/
theorem C32_unsigned_set_inverted (lib : GoLib) (rest : List String) :
    marshalToGoValue lib (some (.ofNS ("1" :: rest))) (.slice (.uint .uint)) =
        .ok (.slice (.uint .uint) none, some .nsConversion) ∧
      strconv.ParseUint "1" 0 (nSize Kind.Uint) = (1, none) ∧
      marshalToGoValue lib (some (.ofNS ["x", "-1"])) (.slice (.uint .uint8)) =
        .ok (.slice (.uint .uint8) (some [.uint .uint8 0, .uint .uint8 0]), none) ∧
      marshalToGoValue lib (some (.ofNS ["1", "2", "3"])) (.slice (.int .int)) =
        .ok (.slice (.int .int) (some [.int .int 1, .int .int 2, .int .int 3]), none) := by
  have hp : strconv.ParseUint "1" 0 (nSize Kind.Uint) = (1, none) := rfl
  refine ⟨?_, hp, rfl, rfl⟩
  rw [marshalToGoValue_some]
  simp [marshalToGoValueSwitch, GoType.Kind, UintKind.Kind, AttributeValue.ofNS,
    AttributeValue.SS, AttributeValue.NS, nonEmpty, isUintKind, isIntKind, isFloatKind,
    decodeItemType, GoType.Elem, decodeNumberSet, decodeNumberSetUint, hp, zeroValue]

/-- C33, at the failing input: for the element type `[1]string` the one element of the
List `[SS ["x"]]` decodes, without an error, to a slice, which the array slot does not
take: decoding the List into a `[][1]string` panics.  Into a `[][]string` it returns the
slice of the decoded elements. -/
theorem C33_array_element_panics :
    marshalToGoValue plainLib (some (.ofSS ["x"])) (.array 1 .string) =
        .ok (.slice .string (some [.string "x"]), none) ∧
      marshalToGoValue plainLib (some (.ofL [some (.ofSS ["x"])])) (.slice (.array 1 .string)) =
        .error .notAssignable ∧
      marshalToGoValue plainLib (some (.ofL [some (.ofSS ["x"])])) (.slice (.slice .string)) =
        .ok (.slice (.slice .string) (some [.slice .string (some [.string "x"])]), none) :=
  ⟨rfl, rfl, rfl⟩

/-- C34.  For a wire value whose binary set is not empty and whose string set and number
set are not populated, `marshalToGoValue` into every slice type and every array type
returns the error "not yet implemented" with the zero value; and so it does into a target
of interface type when `S`, `BOOL`, `N` and `M` are not populated either. -/
theorem C34_binary_set_refused (lib : GoLib) (av : AttributeValue) (b : List Nat)
    (bs : List (List Nat)) (hBS : av.BS = some (b :: bs)) (hSS : nonEmpty av.SS = false)
    (hNS : nonEmpty av.NS = false) :
    (∀ e, marshalToGoValue lib (some av) (.slice e) =
        .ok (.slice e none, some .notImplemented)) ∧
      (∀ n e, marshalToGoValue lib (some av) (.array n e) =
        .ok (zeroValue (.array n e), some .notImplemented)) ∧
      (av.S = none → av.BOOL = none → av.N = none → nonEmpty av.M = false →
        marshalToGoValue lib (some av) .iface = .ok (.iface none, some .notImplemented)) := by
  refine ⟨?_, ?_, ?_⟩
  · intro e
    rw [marshalToGoValue_some]
    rcases nonEmpty_false _ hSS with hs | hs <;> rcases nonEmpty_false _ hNS with hn | hn <;>
      simp [marshalToGoValueSwitch, GoType.Kind, hBS, hs, hn, nonEmpty, isUintKind, isIntKind,
        isFloatKind, zeroValue]
  · intro n e
    rw [marshalToGoValue_some]
    rcases nonEmpty_false _ hSS with hs | hs <;> rcases nonEmpty_false _ hNS with hn | hn <;>
      simp [marshalToGoValueSwitch, GoType.Kind, hBS, hs, hn, nonEmpty, isUintKind, isIntKind,
        isFloatKind]
  · intro hS hB hN hM
    rw [marshalToGoValue_some]
    rcases nonEmpty_false _ hSS with hs | hs <;> rcases nonEmpty_false _ hNS with hn | hn <;>
      rcases nonEmpty_false _ hM with hm | hm <;>
      simp [marshalToGoValueSwitch, GoType.Kind, hBS, hs, hn, hm, hS, hB, hN, nonEmpty,
        isUintKind, isIntKind, isFloatKind, zeroValue]

/-- C34 at the binary set `[[1, 2]]`: into a `[]string` and into an interface. -/
theorem C34_binary_set_refused_witness :
    marshalToGoValue plainLib
        (some (.mk none none (some [[1, 2]]) none none none none none none none))
        (.slice .string) = .ok (.slice .string none, some .notImplemented) ∧
      marshalToGoValue plainLib
        (some (.mk none none (some [[1, 2]]) none none none none none none none)) .iface =
        .ok (.iface none, some .notImplemented) :=
  ⟨(C34_binary_set_refused plainLib
      (.mk none none (some [[1, 2]]) none none none none none none none) [1, 2] []
      rfl rfl rfl).1 .string,
    (C34_binary_set_refused plainLib
      (.mk none none (some [[1, 2]]) none none none none none none none) [1, 2] []
      rfl rfl rfl).2.2 rfl rfl rfl rfl⟩

/-- C35, at the failing inputs: for a `map[int]string` and the name `"1"` the call panics
(the string is not assignable to the key type), and for a pointer to a slice, and for a
pointer to a map, it panics too (the kind is taken behind the pointer and the element from
the pointer itself).  For the same slice and the same map passed by value it returns the
encoding of the member. -/
theorem C35_member_selection_panics :
    GetAttributeValue plainLib .absent
        (.map (.int .int) .string (some [(.int .int 1, .string "a")])) "1" =
        .error .notAssignable ∧
      GetAttributeValue plainLib .absent
        (.ptr (.slice .string) (some (.slice .string (some [.string "a", .string "b"])))) "1" =
        .error .wrongKind ∧
      GetAttributeValue plainLib .absent
        (.ptr (.map .string .string)
          (some (.map .string .string (some [(.string "a", .string "b")])))) "a" =
        .error .wrongKind ∧
      GetAttributeValue plainLib .absent
        (.slice .string (some [.string "a", .string "b"])) "1" = .ok (some (.ofS "b")) ∧
      GetAttributeValue plainLib .absent
        (.map .string .string (some [(.string "a", .string "b")])) "a" =
        .ok (some (.ofS "b")) :=
  ⟨rfl, rfl, rfl, rfl, rfl⟩

/-- C36, at the failing input: for two unsigned integers of the same kind, such as
`uint(2)` and `uint(1)`, `AssertGreaterThan` fails the test, whatever the values; the type
switch has no case for the unsigned types.  For two signed integers, and for two floats,
it passes exactly when the first is greater. -/
theorem C36_unsigned_never_greater (floatGt : Nat → Nat → Bool) (k : UintKind) (a b : Nat) :
    testutil.AssertGreaterThan floatGt (.uint k a) (.uint k b) = .ok .fails ∧
      testutil.AssertGreaterThan floatGt (.uint .uint 2) (.uint .uint 1) = .ok .fails ∧
      (∀ (ki kj : IntKind) (x y : Int),
        testutil.AssertGreaterThan floatGt (.int ki x) (.int kj y) =
          .ok (if x > y then .passes else .fails)) ∧
      (∀ (ki kj : FloatKind) (x y : Nat),
        testutil.AssertGreaterThan floatGt (.float ki x) (.float kj y) =
          .ok (if floatGt x y = true then .passes else .fails)) := by
  refine ⟨rfl, rfl, ?_, ?_⟩
  · intro ki kj x y
    by_cases h : x > y <;> simp [testutil.AssertGreaterThan, testutil.Arg.Int, testutil.conclude, h]
  · intro ki kj x y
    rcases h : floatGt x y <;>
      simp [testutil.AssertGreaterThan, testutil.Arg.Float, testutil.conclude, h]

/-- C37, at the failing inputs: for an empty map of files, and for a map none of whose
files can be opened, `scanFiles` returns true, whatever the needle, and
`AssertTextInFiles` does not fail the test. -/
theorem C37_scan_without_files (openFile : String → Option String) (needle : String)
    (fileMap : List (Int × String)) :
    testutil.scanFiles openFile [] needle = true ∧
      testutil.scanFiles noFiles fileMap needle = true ∧
      testutil.AssertTextInFiles openFile [] needle = (true, .passes) ∧
      testutil.AssertTextInFiles noFiles fileMap needle = (true, .passes) ∧
      testutil.scanFiles noFiles [(0, "/no/such/file")] "needle" = true := by
  have h : testutil.scanFiles noFiles fileMap needle = true :=
    scanFiles_noFiles_fold needle fileMap true
  refine ⟨rfl, h, rfl, ?_, rfl⟩
  simp [testutil.AssertTextInFiles, h]

/-- C38 as stated fails: for the record `aliasedKeyRecord "a"`, whose primary key field
`ID` declares the alias `#id`, `GetPartitionKeyField` returns the name `ID`, and the only
entry of `MarshalAWS` is under `#id`: there is no entry under `ID`, while
`GetAttributeValue` returns the string for `ID` and `GetDocument` sends it under `ID`. -/
theorem C38_counterexample :
    GetPartitionKeyField .absent (aliasedKeyRecord "a") = .ok (some ⟨some "ID", some "S"⟩) ∧
      MarshalAWS plainLib none (aliasedKeyRecord "a") = .ok [("#id", some (.ofS "a"))] ∧
      List.lookup "ID" [("#id", some (AttributeValue.ofS "a"))] = none ∧
      GetAttributeValue plainLib .absent (aliasedKeyRecord "a") "ID" = .ok (some (.ofS "a")) ∧
      GetDocument plainLib noCapabilities okService "t" (aliasedKeyRecord "a") =
        .ok (none, [.GetItem "t" [("ID", some (.ofS "a"))]]) :=
  ⟨rfl, rfl, rfl, rfl, rfl⟩

/-- C38, amended.  Take a record without capabilities whose field names are pairwise
distinct, whose visible fields have pairwise distinct wire names and encodings `encs` that
all return, and whose first field `f` with the `key-type` tag `target` is visible, declares
no alias and has an encoding `av` that is not nil.  Then `GetPartitionKeyField` and
`GetSortKeyField` are the search by tag for `primary` and `secondary`, the search for
`target` returns a definition whose `AttributeName` is the name of `f`, `MarshalAWS`
returns a document whose entry under that name is `av`, and `GetAttributeValue` of the
record and that name returns `av`. -/
theorem C38_key_entry (lib : GoLib) (fs : List (StructField GoType × GoValue))
    (encs : List (Option AttributeValue)) (target : String) (f : StructField GoType)
    (v : GoValue) (av : AttributeValue)
    (hnames : (fs.map (fun p => p.1.Name)).Nodup)
    (hwire : ((visibleFields fs).map
      (fun p => wireName (some (.struct (fs.map Prod.fst))) p.1)).Nodup)
    (henc : List.Forall₂ (fun p a => marshalToAttributeValue lib p.2 = .ok a)
      (visibleFields fs) encs)
    (hmem : (f, v) ∈ fs) (hexp : f.exported = true)
    (hfirst : firstTagged "key-type" target (fs.map Prod.fst) = some f.Name)
    (halias : f.Tag.lookup "aws-name" = none)
    (hav : marshalToAttributeValue lib v = .ok (some av)) :
    GetPartitionKeyField .absent (.struct fs) =
        getAttributeDefinitionByTag (.struct fs) "key-type" "primary" ∧
      GetSortKeyField .absent (.struct fs) =
        getAttributeDefinitionByTag (.struct fs) "key-type" "secondary" ∧
      (∃ d, getAttributeDefinitionByTag (.struct fs) "key-type" target = .ok (some d) ∧
        d.AttributeName = some f.Name) ∧
      (∃ doc, MarshalAWS lib none (.struct fs) = .ok doc ∧
        doc.lookup f.Name = some (some av)) ∧
      GetAttributeValue lib .absent (.struct fs) f.Name = .ok (some av) := by
  have hnames1 : ((fs.map Prod.fst).map (fun x => x.Name)).Nodup := by
    rw [List.map_map]
    exact hnames
  have hf1 : f ∈ fs.map Prod.fst := List.mem_map_of_mem Prod.fst hmem
  have hplain := wireName_plain (fs.map Prod.fst) f hnames1 hf1 halias
  refine ⟨rfl, rfl, ?_, ?_, ?_⟩
  · obtain ⟨g, hg, hgn, hgt⟩ := firstTagged_some "key-type" target _ f.Name hfirst
    obtain ⟨d, f1, hd, hdn, _, _, hf1first⟩ :=
      (getAttributeDefinitionByTag_record fs target).1 ⟨g, hg, hgt⟩
    refine ⟨d, hd, ?_⟩
    rw [hdn]
    rw [hfirst] at hf1first
    exact hf1first.symm
  · have hdoc := marshalFields_eq lib (some (.struct (fs.map Prod.fst))) fs encs [] henc
      (by simpa using hwire)
    have hvis : (f, v) ∈ visibleFields fs := by
      simp only [visibleFields, List.mem_filter]
      exact ⟨hmem, hexp⟩
    have hlook := keptEntries_zip_lookup
      (fun p : StructField GoType × GoValue => wireName (some (.struct (fs.map Prod.fst))) p.1)
      (fun p => marshalToAttributeValue lib p.2) av (visibleFields fs) encs henc hwire
      (f, v) hvis hav
    simp only [hplain] at hlook
    refine ⟨_, ?_, hlook⟩
    simpa [MarshalAWS, getInterface, GoValue.typeOf] using hdoc
  · have hfind := find_by_name_nodup (fun p : StructField GoType × GoValue => p.1.Name)
      fs (f, v) hnames hmem
    simp only at hfind
    simp [GetAttributeValue, getInterface, GoValue.typeOf, hfind, hexp, hav]

/-- C38, amended, at the record `keyedRecord "P" "O" 5` and its sort key `Owner`. -/
theorem C38_key_entry_witness :
    (∃ d, getAttributeDefinitionByTag (keyedRecord "P" "O" 5) "key-type" "secondary" =
        .ok (some d) ∧ d.AttributeName = some "Owner") ∧
      (∃ doc, MarshalAWS plainLib none (keyedRecord "P" "O" 5) = .ok doc ∧
        doc.lookup "Owner" = some (some (.ofS "O"))) ∧
      GetAttributeValue plainLib .absent (keyedRecord "P" "O" 5) "Owner" =
        .ok (some (.ofS "O")) :=
  (C38_key_entry plainLib
    [(⟨"DocName", true, [("key-type", "primary")], .string⟩, .string "P"),
      (⟨"Owner", true, [("key-type", "secondary")], .string⟩, .string "O"),
      (⟨"Size", true, [("aws-name", "#amount")], .int .int64⟩, .int .int64 5)]
    [some (.ofS "P"), some (.ofS "O"), some (.ofN "5")] "secondary"
    ⟨"Owner", true, [("key-type", "secondary")], .string⟩ (.string "O") (.ofS "O")
    (by decide) (by decide)
    (by
      show List.Forall₂ _ [_, _, _] _
      exact .cons rfl (.cons rfl (.cons rfl .nil)))
    (by simp) rfl rfl rfl rfl).2.2

/-- C39, at failing inputs: for a pointer type and for an interface type the type tag is
`M` whatever the referent, and the encoder populates the variant of the referent (`S` for
a string, `BOOL` for a boolean); for an unsigned integer the tag is `N` and the encoder
populates no member; for a slice of bytes the tag is `NS`, and for a slice of slices `L`,
and the encoder populates `NULL`.  For a string, a boolean and a signed integer the tag
names the member that the encoder populates. -/
theorem C39_tag_differs_from_variant (lib : GoLib) :
    (mapToAwsType (.ptr .string) = "M" ∧
        marshalToAttributeValue lib (.ptr .string (some (.string "a"))) =
          .ok (some (.ofS "a")) ∧
        (AttributeValue.ofS "a").tags = ["S"]) ∧
      (mapToAwsType .iface = "M" ∧
        marshalToAttributeValue lib (.iface (some (.bool true))) = .ok (some (.ofBOOL true)) ∧
        (AttributeValue.ofBOOL true).tags = ["BOOL"]) ∧
      (∀ (k : UintKind) (n : Nat), mapToAwsType (.uint k) = "N" ∧
        marshalToAttributeValue lib (.uint k n) = .ok (some .empty) ∧
        AttributeValue.empty.tags = []) ∧
      (mapToAwsType (.slice (.uint .uint8)) = "NS" ∧
        marshalToAttributeValue lib
          (.slice (.uint .uint8) (some [.uint .uint8 1, .uint .uint8 2])) =
          .ok (some (.ofNULL true)) ∧
        (AttributeValue.ofNULL true).tags = ["NULL"]) ∧
      (mapToAwsType (.slice (.slice (.int .int))) = "L" ∧
        marshalToAttributeValue lib
          (.slice (.slice (.int .int)) (some [.slice (.int .int) (some [.int .int 1])])) =
          .ok (some (.ofNULL true))) ∧
      (∀ s : String, mapToAwsType .string = "S" ∧
        marshalToAttributeValue lib (.string s) = .ok (some (.ofS s)) ∧
        (AttributeValue.ofS s).tags = ["S"]) ∧
      (∀ b : Bool, mapToAwsType .bool = "BOOL" ∧
        marshalToAttributeValue lib (.bool b) = .ok (some (.ofBOOL b)) ∧
        (AttributeValue.ofBOOL b).tags = ["BOOL"]) ∧
      (∀ (k : IntKind) (n : Int), mapToAwsType (.int k) = "N" ∧
        marshalToAttributeValue lib (.int k n) = .ok (some (.ofN (strconv.FormatInt n))) ∧
        (AttributeValue.ofN (strconv.FormatInt n)).tags = ["N"]) := by
  refine ⟨⟨rfl, rfl, rfl⟩, ⟨rfl, rfl, rfl⟩, ?_, ⟨rfl, rfl, rfl⟩, ⟨rfl, rfl⟩, ?_, ?_, ?_⟩
  · intro k n
    refine ⟨by cases k <;> rfl, ?_, rfl⟩
    rw [marshalToAttributeValue]
  · intro s
    refine ⟨rfl, ?_, rfl⟩
    rw [marshalToAttributeValue]
  · intro b
    refine ⟨rfl, ?_, rfl⟩
    rw [marshalToAttributeValue]
  · intro k n
    refine ⟨by cases k <;> rfl, ?_, rfl⟩
    rw [marshalToAttributeValue]
    rfl

/-- C40, at the failing inputs: `AssertNotNil` of an array panics (it calls `IsNil` on
it), while `AssertNil` of an array fails the test; and for a nil channel and a nil function
neither `AssertNil` nor `AssertNotNil` fails the test.  For a nil slice and for the nil
interface exactly one of the two fails it. -/
theorem C40_nil_assertions_not_complementary :
    testutil.AssertNotNil .array = .error .wrongKind ∧
      testutil.AssertNil .array = .ok .fails ∧
      testutil.AssertNil (.chan true) = .ok .passes ∧
      testutil.AssertNotNil (.chan true) = .ok .passes ∧
      testutil.AssertNil (.func true) = .ok .passes ∧
      testutil.AssertNotNil (.func true) = .ok .passes ∧
      testutil.AssertNil (.slice true) = .ok .passes ∧
      testutil.AssertNotNil (.slice true) = .ok .fails ∧
      testutil.AssertNil .nilInterface = .ok .passes ∧
      testutil.AssertNotNil .nilInterface = .ok .fails :=
  ⟨rfl, rfl, rfl, rfl, rfl, rfl, rfl, rfl, rfl, rfl⟩

end Awsdynamodb
